import Mathlib

/-!
# TracMate analytics core (`src/src/App.jsx`)

A shallow embedding of the pure computations of the finance tracker:
the `stats` reduction of the main component (totals, category sums, monthly
bar series, current/previous month sub-totals, budget streak, trends), the
loan calculator `EMICalculator`, the goal progress of `GoalCard`, the budget
gauge, the spending calendar `SpendingHeatmap`, the category catalog update
`handleAddNewCategory` and the form population of `handleMagicFill`.

Modelling conventions.

* Numbers come in two models.  `JSNum` is an exact rational or `NaN`:
  arithmetic without rounding and without infinities.  `Dbl` (section
  "Binary floating point") is the binary64 number of the source, with
  `roundTiesToEven`, overflow to the infinities and `NaN`; the loan
  calculator and the totals of `stats` are given over both.  A statement
  about `JSNum` holds for the source as far as no operation rounds.
* A JavaScript object used as a dictionary is the association list of its
  own properties in insertion order (`objGet`, `objSet`).  `catTotals`, whose
  keys are free text, is updated by `catTotalsStep`, which follows a read
  without own property to `Object.prototype`.  The keys of `monthlyData`
  (month labels), `dailySpend` (date strings of the current month) and
  `spendingMap` (day numbers) never name an inherited member.
* A calendar date string `YYYY-MM-DD` is a `CivilDate`; its prefix
  `YYYY-MM` is the pair `(year, month)`.  In `stats` the host time zone is
  UTC, so the local calendar fields of a `Date` and its ISO string agree.
  The spending calendar takes the host zone as a parameter (`localDate`).
-/

namespace TracMate

/-! ## Numbers -/

/-- A JavaScript number: `NaN` or an exact rational value. -/
inductive JSNum where
  | nan : JSNum
  | num (q : ℚ) : JSNum
deriving DecidableEq

namespace JSNum

/-- The operator `a + b` on numbers. -/
def add : JSNum → JSNum → JSNum
  | num a, num b => num (a + b)
  | _, _ => nan

/-- The operator `a - b`. -/
def sub : JSNum → JSNum → JSNum
  | num a, num b => num (a - b)
  | _, _ => nan

/-- The operator `a * b`. -/
def mul : JSNum → JSNum → JSNum
  | num a, num b => num (a * b)
  | _, _ => nan

/-- The operator `a / b`.  A zero divisor (where JavaScript yields an infinity
or `NaN`) is mapped to `nan`, the model having no infinities. -/
def div : JSNum → JSNum → JSNum
  | num a, num b => if b = 0 then nan else num (a / b)
  | _, _ => nan

/-- The comparison `a <= b`; false when either side is `NaN`. -/
def le : JSNum → JSNum → Bool
  | num a, num b => decide (a ≤ b)
  | _, _ => false

/-- The comparison `a > b`; false when either side is `NaN`. -/
def gt : JSNum → JSNum → Bool
  | num a, num b => decide (b < a)
  | _, _ => false

/-- The test `a === 0`. -/
def isZero : JSNum → Bool
  | num a => decide (a = 0)
  | nan => false

/-- The expression `x || 0` for a property read `x`: an absent property
(`undefined`), `NaN` and `0` are falsy and give `0`. -/
def orZero : Option JSNum → JSNum
  | some (num q) => if q = 0 then num 0 else num q
  | _ => num 0

/-- The function `Math.round`: nearest integer, ties towards `+∞`. -/
def round : JSNum → JSNum
  | num q => num (⌊q + 1 / 2⌋ : ℤ)
  | nan => nan

/-- Sum of a list of numbers, left to right from `0`. -/
def sum (l : List JSNum) : JSNum := l.foldl add (num 0)

end JSNum

/-! ## Objects as dictionaries -/

/-- Read of the own property `o[k]`: `none` stands for no own property. -/
def objGet {κ α : Type} [DecidableEq κ] : List (κ × α) → κ → Option α
  | [], _ => none
  | (k', v) :: rest, k => if k' = k then some v else objGet rest k

/-- Property write `o[k] = v`: an existing key keeps its position, a new key
is appended.  (JavaScript enumerates keys that are array indices first, in
ascending order.  The day numbers of `spendingMap` are such keys; its values
are read only through `Math.max`, which does not depend on their order.  A
category named like an array index would come first in `catTotals`; the
entries of `categoryData` are sorted by value afterwards.) -/
def objSet {κ α : Type} [DecidableEq κ] : List (κ × α) → κ → α → List (κ × α)
  | [], k, v => [(k, v)]
  | (k', v') :: rest, k, v =>
    if k' = k then (k', v) :: rest else (k', v') :: objSet rest k v

/-! ## Calendar -/

/-- A calendar date `YYYY-MM-DD` (month in `1..12`). -/
structure CivilDate where
  year : Int
  month : Int
  day : Int
deriving DecidableEq

/-- Gregorian leap-year rule. -/
def isLeapYear (y : Int) : Bool :=
  (y % 4 == 0 && y % 100 != 0) || y % 400 == 0

/-- Number of days of month `m` (in `1..12`) of year `y`. -/
def monthLength (y m : Int) : Int :=
  if m = 2 then (if isLeapYear y then 29 else 28)
  else if m = 4 ∨ m = 6 ∨ m = 9 ∨ m = 11 then 30
  else 31

/-- A date is valid when the month and the day exist. -/
def CivilDate.Valid (c : CivilDate) : Prop :=
  1 ≤ c.month ∧ c.month ≤ 12 ∧ 1 ≤ c.day ∧ c.day ≤ monthLength c.year c.month

instance (c : CivilDate) : Decidable c.Valid := by
  unfold CivilDate.Valid; infer_instance

/-- The day before `c`. -/
def prevDay (c : CivilDate) : CivilDate :=
  if 1 < c.day then ⟨c.year, c.month, c.day - 1⟩
  else if 1 < c.month then ⟨c.year, c.month - 1, monthLength c.year (c.month - 1)⟩
  else ⟨c.year - 1, 12, 31⟩

/-- The day after `c`. -/
def nextDay (c : CivilDate) : CivilDate :=
  if c.day < monthLength c.year c.month then ⟨c.year, c.month, c.day + 1⟩
  else if c.month < 12 then ⟨c.year, c.month + 1, 1⟩
  else ⟨c.year + 1, 1, 1⟩

/-- Shift a date by `k` days (backwards for negative `k`). -/
def addDays (c : CivilDate) (k : Int) : CivilDate :=
  if 0 ≤ k then nextDay^[k.toNat] c else prevDay^[(-k).toNat] c

/-- The abstract operation `MakeDay(year, month, date)` of ECMAScript with a
zero-based month that may lie outside `0..11` and a day-of-month that may lie
outside the month: the first day of the normalised month, shifted by
`date - 1` days. -/
def makeDay (year month0 date : Int) : CivilDate :=
  addDays ⟨year + month0 / 12, month0 % 12 + 1, 1⟩ (date - 1)

/-- The date after `d.setMonth(d.getMonth() - 1)`. -/
def setMonthBack (d : CivilDate) : CivilDate :=
  makeDay d.year ((d.month - 1) - 1) d.day

/-- The date after `d.setDate(today.getDate() - i)` on a copy `d` of `today`. -/
def setDateBack (today : CivilDate) (i : Nat) : CivilDate :=
  makeDay today.year (today.month - 1) (today.day - i)

/-- The prefix `YYYY-MM` of a date string (`slice(0, 7)`). -/
def monthKey (d : CivilDate) : Int × Int := (d.year, d.month)

/-- Days from 1970-01-01 to the given date (proleptic Gregorian). -/
def daysFromCivil (c : CivilDate) : Int :=
  let y := if c.month ≤ 2 then c.year - 1 else c.year
  let era := y / 400
  let yoe := y - era * 400
  let mp := if c.month > 2 then c.month - 3 else c.month + 9
  let doy := (153 * mp + 2) / 5 + c.day - 1
  let doe := yoe * 365 + yoe / 4 - yoe / 100 + doy
  era * 146097 + doe - 719468

/-- The value `new Date(t.date).getTime()`: milliseconds since the epoch of
midnight UTC of the date. -/
def getTime (c : CivilDate) : Int := 86400000 * daysFromCivil c

/-- The label `toLocaleString('default', { month: 'short' })` of a date in
month `m`. -/
def monthShort (m : Int) : String :=
  if m = 1 then "Jan" else if m = 2 then "Feb" else if m = 3 then "Mar"
  else if m = 4 then "Apr" else if m = 5 then "May" else if m = 6 then "Jun"
  else if m = 7 then "Jul" else if m = 8 then "Aug" else if m = 9 then "Sep"
  else if m = 10 then "Oct" else if m = 11 then "Nov" else if m = 12 then "Dec"
  else "Invalid Date"

/-! ## Transactions and the `stats` reduction -/

/-- The two variants of `Transaction.type`. -/
inductive TxType where
  | income : TxType
  | expense : TxType
deriving DecidableEq

/-- A transaction record.  `amount` is the number `parseFloat(t.amount)`:
`nan` when the stored amount does not parse. -/
structure Transaction where
  type : TxType
  amount : JSNum
  category : String
  date : CivilDate
  isRecurring : Bool
deriving DecidableEq

/-- One entry of `monthlyData` / `barData`. -/
structure MonthBucket where
  name : String
  income : JSNum
  expense : JSNum
  time : Int
deriving DecidableEq

/-- A value stored under a key of `catTotals`: a number, or a string (the
result of `+` on a function and a number, see `catTotalsStep`).  The text of
the string is not represented; it is never empty and does not read as a
number. -/
inductive CatVal where
  | num (n : JSNum) : CatVal
  | str : CatVal
deriving DecidableEq

/-- The conversion `ToNumber(v)` of a stored value: `NaN` for a string. -/
def CatVal.toNumber : CatVal → JSNum
  | .num n => n
  | .str => .nan

/-- The names of the function-valued members that the object literal `{}`
inherits from `Object.prototype`. -/
def objectPrototypeFunctions : List String :=
  ["constructor", "__defineGetter__", "__defineSetter__", "hasOwnProperty",
   "__lookupGetter__", "__lookupSetter__", "isPrototypeOf", "propertyIsEnumerable",
   "toString", "valueOf", "toLocaleString"]

/-- The statement `catTotals[t.category] = (catTotals[t.category] || 0) + val`
on the object literal `catTotals`, given by its own properties.

* An own number `x` is replaced by `(x || 0) + val`, an own string `s` by the
  string `s + val`.
* Without an own property the read falls through to `Object.prototype`: for
  `__proto__` it yields the prototype object, `+` makes it a string, and the
  write of a string to `__proto__` is ignored; for the name of an inherited
  function it yields that function, `+` makes it a string, and the write
  creates an own property holding the string.
* For every other name the read is `undefined` and `0 + val` is stored. -/
def catTotalsStep (catTotals : List (String × CatVal)) (category : String) (val : JSNum) :
    List (String × CatVal) :=
  match objGet catTotals category with
  | some (.num x) => objSet catTotals category (.num ((JSNum.orZero (some x)).add val))
  | some .str => objSet catTotals category .str
  | none =>
    if category = "__proto__" then catTotals
    else if category ∈ objectPrototypeFunctions then objSet catTotals category .str
    else objSet catTotals category (.num ((JSNum.orZero none).add val))

/-- The mutable variables of the `stats` callback that `transactions.forEach`
updates. -/
structure Acc where
  income : JSNum
  expense : JSNum
  catTotals : List (String × CatVal)
  monthlyData : List (String × MonthBucket)
  currentMonthExpense : JSNum
  currentMonthIncome : JSNum
  prevMonthExpense : JSNum
  prevMonthIncome : JSNum
  recurringList : List Transaction
  dailySpend : List (CivilDate × JSNum)

/-- The variables before the loop. -/
def Acc.init : Acc :=
  { income := .num 0, expense := .num 0, catTotals := [], monthlyData := [],
    currentMonthExpense := .num 0, currentMonthIncome := .num 0,
    prevMonthExpense := .num 0, prevMonthIncome := .num 0,
    recurringList := [], dailySpend := [] }

/-- The statement `monthlyData[month][t.type] += val`. -/
def MonthBucket.addTo (b : MonthBucket) (ty : TxType) (val : JSNum) : MonthBucket :=
  match ty with
  | .income => { b with income := b.income.add val }
  | .expense => { b with expense := b.expense.add val }

/-- The two statements on `monthlyData` at the end of the loop body. -/
def bucketStep (monthlyData : List (String × MonthBucket)) (t : Transaction) :
    List (String × MonthBucket) :=
  let month := monthShort t.date.month
  let md := match objGet monthlyData month with
    | some _ => monthlyData
    | none => objSet monthlyData month
        { name := month, income := .num 0, expense := .num 0, time := getTime t.date }
  match objGet md month with
  | some b => objSet md month (b.addTo t.type t.amount)
  | none => md

/-- The body of `transactions.forEach(t => ...)`. -/
def step (currentMonthStr prevMonthStr : Int × Int) (a : Acc) (t : Transaction) : Acc :=
  let val := t.amount
  let tMonth := monthKey t.date
  let a1 : Acc :=
    if t.isRecurring then { a with recurringList := a.recurringList ++ [t] } else a
  let a2 : Acc :=
    match t.type with
    | .income =>
      { a1 with
        income := a1.income.add val
        currentMonthIncome :=
          if tMonth = currentMonthStr then a1.currentMonthIncome.add val
          else a1.currentMonthIncome
        prevMonthIncome :=
          if tMonth = prevMonthStr then a1.prevMonthIncome.add val
          else a1.prevMonthIncome }
    | .expense =>
      { a1 with
        expense := a1.expense.add val
        catTotals := catTotalsStep a1.catTotals t.category val
        currentMonthExpense :=
          if tMonth = currentMonthStr then a1.currentMonthExpense.add val
          else a1.currentMonthExpense
        dailySpend :=
          if tMonth = currentMonthStr then
            objSet a1.dailySpend t.date
              ((JSNum.orZero (objGet a1.dailySpend t.date)).add val)
          else a1.dailySpend
        prevMonthExpense :=
          if tMonth = prevMonthStr then a1.prevMonthExpense.add val
          else a1.prevMonthExpense }
  { a2 with monthlyData := bucketStep a2.monthlyData t }

/-- The variables after `transactions.forEach`. -/
def accumulate (currentMonthStr prevMonthStr : Int × Int) (transactions : List Transaction) : Acc :=
  transactions.foldl (step currentMonthStr prevMonthStr) Acc.init

/-- The streak loop `for (let i = 1; i < 30; i++)`: `remaining` iterations are
left, the next offset is `i` and `streak` days have been counted. -/
def streakLoop (dailySpend : List (CivilDate × JSNum)) (dailyBudget : JSNum)
    (today : CivilDate) : Nat → Nat → Nat → Nat
  | 0, _, streak => streak
  | remaining + 1, i, streak =>
    let spent := JSNum.orZero (objGet dailySpend (setDateBack today i))
    if spent.le dailyBudget then streakLoop dailySpend dailyBudget today remaining (i + 1) (streak + 1)
    else streak

/-- The function `calcTrend(curr, prev)`. -/
def calcTrend (curr prev : JSNum) : JSNum :=
  if prev.isZero then (if curr.gt (.num 0) then .num 100 else .num 0)
  else (((curr.sub prev).div prev).mul (.num 100)).round

/-- The comparator result `b.value - a.value` as used by `Array.prototype.sort`
(a `NaN` result counts as `0`): `a` may stay before `b`. -/
def catBefore (a b : String × CatVal) : Prop :=
  match b.2.toNumber.sub a.2.toNumber with
  | .num q => q ≤ 0
  | .nan => True

instance : DecidableRel catBefore := fun a b => by
  unfold catBefore; cases b.2.toNumber.sub a.2.toNumber <;> infer_instance

/-- The comparator `a.time - b.time` of the `barData` sort. -/
def barBefore (a b : MonthBucket) : Prop := a.time - b.time ≤ 0

instance : DecidableRel barBefore := fun a b => by
  unfold barBefore; infer_instance

/-- The object returned by the `stats` callback. -/
structure Stats where
  income : JSNum
  expense : JSNum
  balance : JSNum
  categoryData : List (String × CatVal)
  barData : List MonthBucket
  currentMonthExpense : JSNum
  recurringList : List Transaction
  streak : Nat
  incomeTrend : JSNum
  expenseTrend : JSNum

/-- The key `currentMonthStr` for the evaluation date `now`. -/
def currentMonthStr (now : CivilDate) : Int × Int := monthKey now

/-- The key `prevMonthStr` for the evaluation date `now`. -/
def prevMonthStr (now : CivilDate) : Int × Int := monthKey (setMonthBack now)

/-- The `stats` callback of the main component, as a function of the
transaction list, the monthly budget and the evaluation date (`new Date()`).
`Array.prototype.sort` is stable; it is modelled by insertion sort. -/
def stats (transactions : List Transaction) (monthlyBudget : JSNum) (now : CivilDate) : Stats :=
  let a := accumulate (currentMonthStr now) (prevMonthStr now) transactions
  let dailyBudget := monthlyBudget.div (.num 30)
  { income := a.income
    expense := a.expense
    balance := a.income.sub a.expense
    categoryData := a.catTotals.insertionSort catBefore
    barData := (a.monthlyData.map Prod.snd).insertionSort barBefore
    currentMonthExpense := a.currentMonthExpense
    recurringList := a.recurringList
    streak := streakLoop a.dailySpend dailyBudget now 29 1 0
    incomeTrend := calcTrend a.currentMonthIncome a.prevMonthIncome
    expenseTrend := calcTrend a.currentMonthExpense a.prevMonthExpense }

/-! ## The loan calculator -/

/-- The function `Math.pow(b, e)` for a whole exponent `e >= 0`.  Other
exponents (whose power need not be rational) are outside the exact model and
mapped to `nan`. -/
def JSNum.pow : JSNum → JSNum → JSNum
  | .num b, .num e => if e.den = 1 ∧ 0 ≤ e.num then .num (b ^ e.num.toNat) else .nan
  | _, _ => .nan

/-- The three figures shown by `EMICalculator`. -/
structure EMIResult where
  emi : JSNum
  totalAmount : JSNum
  totalInterest : JSNum

/-- The computation of `EMICalculator`.  The arguments are the numbers
`parseFloat(principal)`, `parseFloat(rate)` and `parseFloat(years)`. -/
def emiCalculator (principal rate years : JSNum) : EMIResult :=
  let p := JSNum.orZero (some principal)
  let r := JSNum.orZero (some rate)
  let n := JSNum.orZero (some years)
  if p.gt (.num 0) && r.gt (.num 0) && n.gt (.num 0) then
    let monthlyRate := r.div (.num (12 * 100))
    let months := n.mul (.num 12)
    let emi := ((p.mul monthlyRate).mul (((JSNum.num 1).add monthlyRate).pow months)).div
      ((((JSNum.num 1).add monthlyRate).pow months).sub (.num 1))
    let totalAmount := emi.mul months
    { emi := emi, totalAmount := totalAmount, totalInterest := totalAmount.sub p }
  else
    { emi := .num 0, totalAmount := .num 0, totalInterest := .num 0 }

/-! ## Goal progress and budget gauge -/

/-- The function `Math.min(a, b)`. -/
def JSNum.min : JSNum → JSNum → JSNum
  | .num a, .num b => .num (Min.min a b)
  | _, _ => .nan

/-- The comparison `a >= b`; false when either side is `NaN`. -/
def JSNum.ge : JSNum → JSNum → Bool
  | .num a, .num b => decide (b ≤ a)
  | _, _ => false

/-- The amounts of a savings goal read by `GoalCard`. -/
structure Goal where
  targetAmount : JSNum
  currentAmount : JSNum

/-- The constant `percent` of `GoalCard`. -/
def goalPercent (goal : Goal) : JSNum :=
  JSNum.min ((goal.currentAmount.div goal.targetAmount).mul (.num 100)) (.num 100)

/-- The constant `isCompleted` of `GoalCard`. -/
def goalIsCompleted (goal : Goal) : Bool :=
  (goalPercent goal).ge (.num 100)

/-- The constant `budgetProgress` of the main component. -/
def budgetProgress (currentMonthExpense monthlyBudget : JSNum) : JSNum :=
  JSNum.min ((currentMonthExpense.div monthlyBudget).mul (.num 100)) (.num 100)

/-- The constant `budgetColor` of the main component. -/
def budgetColor (budgetProgress : JSNum) : String :=
  if budgetProgress.gt (.num 90) then "bg-rose-500"
  else if budgetProgress.gt (.num 70) then "bg-yellow-500"
  else "bg-emerald-500"

/-! ## The spending calendar -/

/-- The comparison `a < b`; false when either side is `NaN`. -/
def JSNum.lt : JSNum → JSNum → Bool
  | .num a, .num b => decide (a < b)
  | _, _ => false

/-- The function `Math.max(a, b)`. -/
def JSNum.max : JSNum → JSNum → JSNum
  | .num a, .num b => .num (Max.max a b)
  | _, _ => .nan

/-- One entry `{ day, color, spend }` of the array `days`. -/
structure HeatDay where
  day : Int
  color : String
  spend : JSNum
deriving DecidableEq

/-- The function `getDaysInMonth(y, m)`, that is `new Date(y, m + 1, 0).getDate()`
for a zero-based month `m`.  Years 0 to 99, which the `Date` constructor maps
into 1900 to 1999, are outside the model. -/
def getDaysInMonth (y m : Int) : Int := (makeDay y (m + 1) 0).day

/-- The calendar date that the host's local time shows at the instant
`new Date("YYYY-MM-DD")`, which is midnight UTC of the date `d`.  The host
zone is given by `utcOffset`, its offset from UTC in minutes at that instant
(positive east of Greenwich, the negative of `getTimezoneOffset()`): west of
Greenwich the local date is the day before `d`. -/
def localDate (utcOffset : Int) (d : CivilDate) : CivilDate :=
  addDays d (utcOffset / 1440)

/-- The body of `transactions.forEach` in `SpendingHeatmap`, for the selected
`year` and zero-based `month`; `zone` gives the host zone's offset from UTC at
midnight UTC of a date.  `getMonth`, `getFullYear` and `getDate` read the
local date. -/
def spendingMapStep (zone : CivilDate → Int) (year month : Int)
    (spendingMap : List (Int × JSNum)) (t : Transaction) : List (Int × JSNum) :=
  if t.type = .expense then
    let tDate := localDate (zone t.date) t.date
    if tDate.month - 1 = month ∧ tDate.year = year then
      objSet spendingMap tDate.day
        ((JSNum.orZero (objGet spendingMap tDate.day)).add t.amount)
    else spendingMap
  else spendingMap

/-- The object `spendingMap` after the loop. -/
def spendingMapOf (zone : CivilDate → Int) (transactions : List Transaction)
    (year month : Int) : List (Int × JSNum) :=
  transactions.foldl (spendingMapStep zone year month) []

/-- The constant `maxSpend = Math.max(...Object.values(spendingMap), 100)`. -/
def heatMaxSpend (spendingMap : List (Int × JSNum)) : JSNum :=
  (spendingMap.map Prod.snd).foldl JSNum.max (.num 100)

/-- The initial value of `color`: the neutral colour of a day without spend. -/
def noSpendColor (darkMode : Bool) : String :=
  if darkMode then "bg-slate-800" else "bg-slate-100"

/-- The colour chosen for a day in the loop over the days. -/
def heatColor (darkMode : Bool) (spend maxSpend : JSNum) : String :=
  if spend.gt (.num 0) then
    let intensity := spend.div maxSpend
    if intensity.lt (.num 0.2) then "bg-rose-100"
    else if intensity.lt (.num 0.5) then "bg-rose-300"
    else if intensity.lt (.num 0.8) then "bg-rose-500"
    else "bg-rose-700"
  else noSpendColor darkMode

/-- The array `days` built by `SpendingHeatmap` for the selected `year` and
zero-based `month`, in the host zone `zone`. -/
def spendingHeatmap (zone : CivilDate → Int) (transactions : List Transaction)
    (darkMode : Bool) (year month : Int) : List HeatDay :=
  let spendingMap := spendingMapOf zone transactions year month
  let maxSpend := heatMaxSpend spendingMap
  let daysInMonth := getDaysInMonth year month
  (List.range daysInMonth.toNat).map (fun (k : Nat) =>
    let i : Int := (k : Int) + 1
    let spend := JSNum.orZero (objGet spendingMap i)
    { day := i, color := heatColor darkMode spend maxSpend, spend := spend })

/-! ## Category catalog and form population -/

/-- The code points that `String.prototype.trim` strips: ECMAScript
`WhiteSpace` and `LineTerminator`. -/
def isJSWhitespace (c : Char) : Bool :=
  decide (c.toNat = 0x9 ∨ c.toNat = 0xA ∨ c.toNat = 0xB ∨ c.toNat = 0xC ∨ c.toNat = 0xD ∨
    c.toNat = 0x20 ∨ c.toNat = 0xA0 ∨ c.toNat = 0x1680 ∨
    (0x2000 ≤ c.toNat ∧ c.toNat ≤ 0x200A) ∨ c.toNat = 0x2028 ∨ c.toNat = 0x2029 ∨
    c.toNat = 0x202F ∨ c.toNat = 0x205F ∨ c.toNat = 0x3000 ∨ c.toNat = 0xFEFF)

/-- The method `String.prototype.trim`. -/
def jsTrim (s : String) : String :=
  ⟨((s.data.dropWhile isJSWhitespace).reverse.dropWhile isJSWhitespace).reverse⟩

/-- The initial value of the state `categories`. -/
def initialCategories : List String :=
  ["Food", "Transport", "Housing", "Utilities", "Entertainment", "Health", "Shopping", "Other"]

/-- The value of the state `categories` after `handleAddNewCategory`; `user`
tells whether a user is signed in. -/
def handleAddNewCategory (categories : List String) (newCategoryName : String) (user : Bool) :
    List String :=
  if jsTrim newCategoryName = "" ∨ user = false then categories
  else categories ++ [jsTrim newCategoryName]

/-- A value produced by `JSON.parse`; arrays and objects are not looked into. -/
inductive JSONVal where
  | null : JSONVal
  | bool (b : Bool) : JSONVal
  | num (q : ℚ) : JSONVal
  | str (s : String) : JSONVal
  | compound : JSONVal
deriving DecidableEq

/-- Truthiness of a parsed value. -/
def JSONVal.truthy : JSONVal → Bool
  | .null => false
  | .bool b => b
  | .num q => decide (q ≠ 0)
  | .str s => decide (s ≠ "")
  | .compound => true

/-- The expression `data.key || fallback` for a property read of the parsed
object: `none` is an absent key. -/
def orDefault (x : Option JSONVal) (fallback : JSONVal) : JSONVal :=
  match x with
  | some v => if v.truthy then v else fallback
  | none => fallback

/-- The keys of the parsed extraction result that the form population
reads. -/
structure ExtractionResult where
  amount : Option JSONVal
  type : Option JSONVal
  category : Option JSONVal
  description : Option JSONVal
  date : Option JSONVal

/-- The state `formData`. -/
structure FormData where
  type : JSONVal
  amount : JSONVal
  category : JSONVal
  description : JSONVal
  date : JSONVal
  isRecurring : Bool
  isSplit : Bool
  splitWith : String
  splitAmount : String

/-- The argument of `setFormData` in `handleMagicFill`, for the parsed result
`data` and today's date string `today`. -/
def handleMagicFill (formData : FormData) (data : ExtractionResult) (today : String) :
    FormData :=
  { formData with
    amount := orDefault data.amount (.str "")
    type := orDefault data.type (.str "expense")
    category := orDefault data.category (.str "Other")
    description := orDefault data.description (.str "")
    date := orDefault data.date (.str today) }

/-! ## Binary floating point

The definitions above compute with exact rationals.  This section gives
the numbers of the source as they are, IEEE 754 binary64 values with
`roundTiesToEven`, and the loan calculator and the totals of `stats` over
them.  It is used where rounding or overflow changes the outcome. -/

/-- Nearest integer to `x`, a tie going to the even neighbour. -/
def roundHalfEven (x : ℚ) : ℤ :=
  if x - ⌊x⌋ < 1 / 2 then ⌊x⌋
  else if 1 / 2 < x - ⌊x⌋ then ⌊x⌋ + 1
  else if ⌊x⌋ % 2 = 0 then ⌊x⌋ else ⌊x⌋ + 1

/-- A binary64 number: `NaN`, an infinity, or a finite value given by its
exact rational value.  The sign of a zero is not represented; a zero divisor
is taken as `+0`. -/
inductive Dbl where
  | nan : Dbl
  | posInf : Dbl
  | negInf : Dbl
  | fin (q : ℚ) : Dbl
deriving DecidableEq

/-- The exponent `e` such that the binary64 values around `q` are the
multiples of `2 ^ e`: the binade of `q`, not below that of the subnormal
numbers, less the 52 fraction bits. -/
def ulpExp (q : ℚ) : ℤ := max (Int.log 2 |q|) (-1022) - 52

namespace Dbl

/-- The binary64 value of the real number `q`: the nearest multiple of
`2 ^ ulpExp q`, ties to the even mantissa; a result of magnitude `2 ^ 1024`
or more overflows to an infinity. -/
def ofRat (q : ℚ) : Dbl :=
  let r : ℚ := (roundHalfEven (q / 2 ^ ulpExp q) : ℚ) * 2 ^ ulpExp q
  if (2 : ℚ) ^ (1024 : ℤ) ≤ |r| then (if 0 < q then posInf else negInf) else fin r

/-- The operator `-a`. -/
def neg : Dbl → Dbl
  | nan => nan
  | posInf => negInf
  | negInf => posInf
  | fin a => fin (-a)

/-- The operator `a + b`. -/
def add : Dbl → Dbl → Dbl
  | fin a, fin b => ofRat (a + b)
  | nan, _ => nan
  | _, nan => nan
  | posInf, negInf => nan
  | negInf, posInf => nan
  | posInf, _ => posInf
  | negInf, _ => negInf
  | fin _, posInf => posInf
  | fin _, negInf => negInf

/-- The operator `a - b`. -/
def sub (a b : Dbl) : Dbl := a.add b.neg

/-- The operator `a * b`. -/
def mul : Dbl → Dbl → Dbl
  | fin a, fin b => ofRat (a * b)
  | nan, _ => nan
  | _, nan => nan
  | posInf, fin b => if b = 0 then nan else if 0 < b then posInf else negInf
  | negInf, fin b => if b = 0 then nan else if 0 < b then negInf else posInf
  | fin a, posInf => if a = 0 then nan else if 0 < a then posInf else negInf
  | fin a, negInf => if a = 0 then nan else if 0 < a then negInf else posInf
  | posInf, posInf => posInf
  | negInf, negInf => posInf
  | posInf, negInf => negInf
  | negInf, posInf => negInf

/-- The operator `a / b`. -/
def div : Dbl → Dbl → Dbl
  | fin a, fin b =>
    if b = 0 then (if a = 0 then nan else if 0 < a then posInf else negInf)
    else ofRat (a / b)
  | nan, _ => nan
  | _, nan => nan
  | fin _, posInf => fin 0
  | fin _, negInf => fin 0
  | posInf, fin b => if 0 ≤ b then posInf else negInf
  | negInf, fin b => if 0 ≤ b then negInf else posInf
  | posInf, posInf => nan
  | posInf, negInf => nan
  | negInf, posInf => nan
  | negInf, negInf => nan

/-- The function `Math.pow(b, e)` for a finite base and a whole exponent
`e >= 0`, and for the base `+∞`.  The standard leaves the accuracy of
`Math.pow` to the implementation; the model takes the correctly rounded
power.  Other arguments are outside the model and mapped to `nan`. -/
def pow : Dbl → Dbl → Dbl
  | fin b, fin e => if e.den = 1 ∧ 0 ≤ e.num then ofRat (b ^ e.num.toNat) else nan
  | posInf, fin e => if 0 < e then posInf else if e = 0 then fin 1 else fin 0
  | _, _ => nan

/-- The comparison `a > b`; false when either side is `NaN`. -/
def gt : Dbl → Dbl → Bool
  | fin a, fin b => decide (b < a)
  | posInf, fin _ => true
  | posInf, negInf => true
  | fin _, negInf => true
  | _, _ => false

/-- The expression `x || 0` for a number `x`: `NaN` and `0` give `0`. -/
def orZero : Dbl → Dbl
  | nan => fin 0
  | x => x

/-- Sum of a list of numbers, left to right from `0`. -/
def sum (l : List Dbl) : Dbl := l.foldl add (fin 0)

end Dbl

/-- The binary64 number `parseFloat(t.amount)` for an amount whose decimal
text has the exact value held by the `JSNum`. -/
def JSNum.toDbl : JSNum → Dbl
  | .num q => Dbl.ofRat q
  | .nan => .nan

/-- The three figures shown by `EMICalculator`, as binary64 numbers. -/
structure EMIResultDbl where
  emi : Dbl
  totalAmount : Dbl
  totalInterest : Dbl
deriving DecidableEq

/-- The computation of `EMICalculator` in binary64 arithmetic.  The arguments
are the numbers `parseFloat(principal)`, `parseFloat(rate)` and
`parseFloat(years)`. -/
def emiCalculatorDbl (principal rate years : Dbl) : EMIResultDbl :=
  let p := principal.orZero
  let r := rate.orZero
  let n := years.orZero
  if p.gt (.fin 0) && r.gt (.fin 0) && n.gt (.fin 0) then
    let monthlyRate := r.div ((Dbl.fin 12).mul (.fin 100))
    let months := n.mul (.fin 12)
    let emi := ((p.mul monthlyRate).mul (((Dbl.fin 1).add monthlyRate).pow months)).div
      ((((Dbl.fin 1).add monthlyRate).pow months).sub (.fin 1))
    let totalAmount := emi.mul months
    { emi := emi, totalAmount := totalAmount, totalInterest := totalAmount.sub p }
  else
    { emi := .fin 0, totalAmount := .fin 0, totalInterest := .fin 0 }

/-- One entry of `monthlyData` / `barData` with binary64 amounts. -/
structure MonthBucketDbl where
  name : String
  income : Dbl
  expense : Dbl
  time : Int
deriving DecidableEq

/-- The variables `income`, `expense` and `monthlyData` of the `stats`
callback, as binary64 numbers. -/
structure AccDbl where
  income : Dbl
  expense : Dbl
  monthlyData : List (String × MonthBucketDbl)

/-- The statement `monthlyData[month][t.type] += val` in binary64
arithmetic. -/
def MonthBucketDbl.addTo (b : MonthBucketDbl) (ty : TxType) (val : Dbl) : MonthBucketDbl :=
  match ty with
  | .income => { b with income := b.income.add val }
  | .expense => { b with expense := b.expense.add val }

/-- The two statements on `monthlyData` at the end of the loop body, in
binary64 arithmetic. -/
def bucketStepDbl (monthlyData : List (String × MonthBucketDbl)) (t : Transaction) :
    List (String × MonthBucketDbl) :=
  let month := monthShort t.date.month
  let md := match objGet monthlyData month with
    | some _ => monthlyData
    | none => objSet monthlyData month
        { name := month, income := .fin 0, expense := .fin 0, time := getTime t.date }
  match objGet md month with
  | some b => objSet md month (b.addTo t.type t.amount.toDbl)
  | none => md

/-- The statements of the body of `transactions.forEach` that update
`income`, `expense` and `monthlyData`, in binary64 arithmetic. -/
def stepDbl (a : AccDbl) (t : Transaction) : AccDbl :=
  let val := t.amount.toDbl
  let a2 : AccDbl :=
    match t.type with
    | .income => { a with income := a.income.add val }
    | .expense => { a with expense := a.expense.add val }
  { a2 with monthlyData := bucketStepDbl a2.monthlyData t }

/-- The comparator `a.time - b.time` of the `barData` sort. -/
def barBeforeDbl (a b : MonthBucketDbl) : Prop := a.time - b.time ≤ 0

instance : DecidableRel barBeforeDbl := fun a b => by
  unfold barBeforeDbl; infer_instance

/-- The fields `income`, `expense`, `balance` and `barData` of the object
returned by the `stats` callback, as binary64 numbers. -/
structure StatsDbl where
  income : Dbl
  expense : Dbl
  balance : Dbl
  barData : List MonthBucketDbl

/-- The totals and the bar series of the `stats` callback in binary64
arithmetic.  They do not read the clock. -/
def statsDbl (transactions : List Transaction) : StatsDbl :=
  let a := transactions.foldl stepDbl { income := .fin 0, expense := .fin 0, monthlyData := [] }
  { income := a.income
    expense := a.expense
    balance := a.income.sub a.expense
    barData := (a.monthlyData.map Prod.snd).insertionSort barBeforeDbl }

/-! ## Definitions used in the statements and proofs -/

/-- The rational value of a number (`0` for `NaN`). -/
def JSNum.toQ : JSNum → ℚ
  | .num q => q
  | .nan => 0

/-- The rational value of a stored number (`0` for `NaN` and for a string). -/
def CatVal.toQ (v : CatVal) : ℚ := v.toNumber.toQ

/-- A stored value that is a number other than `NaN`. -/
def CatVal.IsNum (v : CatVal) : Prop := ∃ q : ℚ, v = .num (.num q)

/-- A category name that names no member of `Object.prototype`. -/
def plainKey (c : String) : Prop := c ≠ "__proto__" ∧ c ∉ objectPrototypeFunctions

instance (c : String) : Decidable (plainKey c) := by
  unfold plainKey; infer_instance

/-- Invariant of the loop linking `catTotals` and `expense`. -/
def CatInv (a : Acc) : Prop :=
  (∀ p ∈ a.catTotals, p.2.IsNum) ∧
    a.expense = .num (a.catTotals.map (fun p => CatVal.toQ p.2)).sum

/-- An expense whose category is `__proto__`. -/
def sampleProto : List Transaction :=
  [ ⟨.expense, .num 5, "__proto__", ⟨2024, 3, 2⟩, false⟩ ]

/-- An expense whose category is `constructor`, after an expense for food. -/
def sampleConstructor : List Transaction :=
  [ ⟨.expense, .num 3, "Food", ⟨2024, 3, 1⟩, false⟩,
    ⟨.expense, .num 5, "constructor", ⟨2024, 3, 2⟩, false⟩ ]

/-- Two expenses of one category and an income. -/
def sampleC1 : List Transaction :=
  [ ⟨.expense, .num 1000, "Food", ⟨2024, 3, 2⟩, false⟩,
    ⟨.income, .num 5000, "Salary", ⟨2024, 3, 1⟩, true⟩,
    ⟨.expense, .num 250, "Food", ⟨2024, 2, 27⟩, false⟩ ]

/-- The month before the month `k = (year, month)`. -/
def precedingMonth (k : Int × Int) : Int × Int :=
  if k.2 = 1 then (k.1 - 1, 12) else (k.1, k.2 - 1)

/-- One expense inside the month of 2024-03-31. -/
def sampleC2 : List Transaction :=
  [ ⟨.expense, .num 100, "Food", ⟨2024, 3, 10⟩, false⟩ ]

/-- Sum of the amounts of the transactions of type `ty` dated in the
`YYYY-MM` month `ym`, in list order. -/
def monthTotal (transactions : List Transaction) (ty : TxType) (ym : Int × Int) : JSNum :=
  JSNum.sum ((transactions.filter
    (fun t => decide (t.type = ty ∧ monthKey t.date = ym))).map (fun t => t.amount))

/-- Sum of the amounts of the transactions of type `ty` whose date has the
month label `name` (whatever the year), in list order. -/
def labelTotal (transactions : List Transaction) (ty : TxType) (name : String) : JSNum :=
  JSNum.sum ((transactions.filter
    (fun t => decide (t.type = ty ∧ monthShort t.date.month = name))).map (fun t => t.amount))

/-- The reading of claim C3: every bar entry holds the sums of one `YYYY-MM`
month. -/
def BarBucketsPerMonth (transactions : List Transaction) (barData : List MonthBucket) : Prop :=
  ∀ b ∈ barData, ∃ ym : Int × Int,
    b.income = monthTotal transactions .income ym ∧
    b.expense = monthTotal transactions .expense ym

/-- An expense in January 2024 and one in January 2025. -/
def sampleC3 : List Transaction :=
  [ ⟨.expense, .num 100, "Food", ⟨2024, 1, 10⟩, false⟩,
    ⟨.expense, .num 50, "Food", ⟨2025, 1, 20⟩, false⟩ ]

/-- The `monthlyData` object after the loop. -/
def bucketsOf (transactions : List Transaction) : List (String × MonthBucket) :=
  transactions.foldl bucketStep []

/-- The bucket created by `if (!monthlyData[month]) monthlyData[month] = ...`. -/
def freshBucket (t : Transaction) : MonthBucket :=
  { name := monthShort t.date.month, income := .num 0, expense := .num 0,
    time := getTime t.date }

/-- Three expenses of one category in March 2024; the second one has an
amount that does not parse. -/
def sampleC4 : List Transaction :=
  [ ⟨.expense, .num 100, "Food", ⟨2024, 3, 2⟩, false⟩,
    ⟨.expense, .nan, "Food", ⟨2024, 3, 3⟩, false⟩,
    ⟨.expense, .num 40, "Food", ⟨2024, 3, 4⟩, false⟩ ]

/-- The list `sampleC4` with the unparseable amount replaced by `0`. -/
def sampleC4Zero : List Transaction :=
  [ ⟨.expense, .num 100, "Food", ⟨2024, 3, 2⟩, false⟩,
    ⟨.expense, .num 0, "Food", ⟨2024, 3, 3⟩, false⟩,
    ⟨.expense, .num 40, "Food", ⟨2024, 3, 4⟩, false⟩ ]

/-- The values written under one key by the statement
`o[k] = (o[k] || 0) + v`, folded from an absent property. -/
def spendFold (vals : List JSNum) : Option JSNum :=
  vals.foldl (fun o v => some ((JSNum.orZero o).add v)) none

/-- The amounts that the loop adds to `dailySpend[d]`: those of the expenses
dated `d` whose month is the current month `cur`. -/
def spendEntries (cur : Int × Int) (transactions : List Transaction) (d : CivilDate) :
    List JSNum :=
  (transactions.filter
    (fun t => decide (t.type = .expense ∧ monthKey t.date = cur ∧ t.date = d))).map
    (fun t => t.amount)

/-- Total of the expenses dated `d`, as an exact number. -/
def dayExpense (transactions : List Transaction) (d : CivilDate) : ℚ :=
  ((transactions.filter (fun t => decide (t.type = .expense ∧ t.date = d))).map
    (fun t => t.amount.toQ)).sum

/-- The test `spent <= dailyBudget` of the streak loop at offset `i`. -/
def compliant (dailySpend : List (CivilDate × JSNum)) (dailyBudget : JSNum)
    (today : CivilDate) (i : Nat) : Bool :=
  (JSNum.orZero (objGet dailySpend (setDateBack today i))).le dailyBudget

/-- A linear order key of a date. -/
def CivilDate.ord (c : CivilDate) : Int := (c.year * 12 + c.month) * 32 + c.day

/-- The spend recorded in an exact-valued map for the date `i` days before
`today` (`0` if absent). -/
def spendAt (dailySpend : List (CivilDate × ℚ)) (today : CivilDate) (i : Nat) : ℚ :=
  (objGet dailySpend (setDateBack today i)).getD 0

/-- An exact-valued spend map as the object `dailySpend`. -/
def toDailySpend (dailySpend : List (CivilDate × ℚ)) : List (CivilDate × JSNum) :=
  dailySpend.map (fun p => (p.1, JSNum.num p.2))

/-- One expense of 500 three days before 2024-03-15. -/
def sampleC5 : List Transaction :=
  [ ⟨.expense, .num 500, "Food", ⟨2024, 3, 12⟩, false⟩ ]

/-- An expense of 5000 in February, inside the trailing window of 2024-03-05. -/
def sampleC5Prev : List Transaction :=
  [ ⟨.expense, .num 5000, "Rent", ⟨2024, 2, 24⟩, false⟩ ]

/-- An income yesterday and an expense today (2024-03-15). -/
def sampleC7 : List Transaction :=
  [ ⟨.income, .num 100, "Salary", ⟨2024, 3, 14⟩, false⟩,
    ⟨.expense, .num 50, "Food", ⟨2024, 3, 15⟩, false⟩ ]

/-- A large expense today (2024-03-15) after a small one two days before. -/
def sampleC8 : List Transaction :=
  [ ⟨.expense, .num 20, "Food", ⟨2024, 3, 13⟩, false⟩,
    ⟨.expense, .num 9000, "Rent", ⟨2024, 3, 15⟩, false⟩ ]

/-- The list `sampleC8` without the expense dated today. -/
def sampleC8Other : List Transaction :=
  [ ⟨.expense, .num 20, "Food", ⟨2024, 3, 13⟩, false⟩ ]

/-- The exact instalment for the default inputs 500000, 9.5 and 5. -/
def defaultEmi : ℚ :=
  500000 * (19 / 2400) * (2419 / 2400) ^ 60 / ((2419 / 2400) ^ 60 - 1)

/-- The instalment as the specification words it: `principal * i * (1+i)^m /
((1+i)^m - 1)` with `i = rate / 1200` and `m` months. -/
def emiFormula (principal rate : ℚ) (m : ℕ) : ℚ :=
  principal * (rate / 1200) * (1 + rate / 1200) ^ m / ((1 + rate / 1200) ^ m - 1)

/-- The divisor of the instalment quotient: `Math.pow(1 + monthlyRate, months) - 1`
for `r = parseFloat(rate) || 0` and `n = parseFloat(years) || 0`. -/
def emiDenominator (r n : JSNum) : JSNum :=
  (((JSNum.num 1).add (r.div (.num (12 * 100)))).pow (n.mul (.num 12))).sub (.num 1)

/-- The operator `a / b` with a zero divisor reported as `none`. -/
def JSNum.divChecked (a b : JSNum) : Option JSNum :=
  if b = .num 0 then none else some (a.div b)

/-- The function `calcTrend` with every division checked for a zero divisor. -/
def calcTrendChecked (curr prev : JSNum) : Option JSNum :=
  if prev.isZero then some (if curr.gt (.num 0) then .num 100 else .num 0)
  else ((curr.sub prev).divChecked prev).map (fun q => (q.mul (.num 100)).round)

/-- The computation of `EMICalculator` with every division checked for a zero
divisor. -/
def emiCalculatorChecked (principal rate years : JSNum) : Option EMIResult :=
  let p := JSNum.orZero (some principal)
  let r := JSNum.orZero (some rate)
  let n := JSNum.orZero (some years)
  if p.gt (.num 0) && r.gt (.num 0) && n.gt (.num 0) then
    (r.divChecked (.num (12 * 100))).bind (fun monthlyRate =>
      let months := n.mul (.num 12)
      (((p.mul monthlyRate).mul (((JSNum.num 1).add monthlyRate).pow months)).divChecked
        ((((JSNum.num 1).add monthlyRate).pow months).sub (.num 1))).map (fun emi =>
          let totalAmount := emi.mul months
          { emi := emi, totalAmount := totalAmount, totalInterest := totalAmount.sub p }))
  else
    some { emi := .num 0, totalAmount := .num 0, totalInterest := .num 0 }

/-- A parsed input that is `NaN` or not positive. -/
def JSNum.notPositive : JSNum → Prop
  | .num q => q ≤ 0
  | .nan => True

/-- The specification's `clamp(x, lo, hi)`. -/
def clamp (x lo hi : ℚ) : ℚ := max lo (Min.min x hi)

/-- Completion as the specification words it: the unclamped ratio
`currentAmount / targetAmount` is at least `1`. -/
def completedByRatio (currentAmount targetAmount : ℚ) : Prop :=
  1 ≤ currentAmount / targetAmount

/-- The host zone UTC. -/
def utc : CivilDate → Int := fun _ => 0

/-- A host zone five hours behind UTC throughout (Eastern Standard Time). -/
def utcMinusFive : CivilDate → Int := fun _ => -300

/-- The amounts that the calendar adds to `spendingMap[d]`: those of the
expenses whose local date is day `d` of the selected year and zero-based
month. -/
def heatEntries (zone : CivilDate → Int) (year month : Int) (transactions : List Transaction)
    (d : Int) : List JSNum :=
  (transactions.filter (fun t => decide (t.type = .expense ∧
    ((localDate (zone t.date) t.date).month - 1 = month ∧
      (localDate (zone t.date) t.date).year = year) ∧
    (localDate (zone t.date) t.date).day = d))).map (fun t => t.amount)

/-- Total of the expenses whose local date is day `d` of the selected year and
zero-based month, as an exact number. -/
def dayTotal (zone : CivilDate → Int) (transactions : List Transaction) (year month : Int)
    (d : Int) : ℚ :=
  ((heatEntries zone year month transactions d).map JSNum.toQ).sum

/-- An expense of 50 on 2024-03-10. -/
def sampleC15 : List Transaction :=
  [ ⟨.expense, .num 50, "Food", ⟨2024, 3, 10⟩, false⟩ ]

/-- Expenses of 1000 and 900 on two days of March 2024, and an income. -/
def sampleC15Two : List Transaction :=
  [ ⟨.expense, .num 1000, "Rent", ⟨2024, 3, 10⟩, false⟩,
    ⟨.income, .num 7000, "Salary", ⟨2024, 3, 11⟩, false⟩,
    ⟨.expense, .num 900, "Travel", ⟨2024, 3, 11⟩, false⟩ ]

/-- The order of the values after the category sort, the comparison
`a.value >= b.value`: it fails when a side is `NaN` and when a string stands
against a number.  (Two strings, which JavaScript compares as texts, are not
taken as ordered.) -/
def valueGe (a b : String × CatVal) : Prop := a.2.toNumber.ge b.2.toNumber = true

instance : DecidableRel valueGe := fun a b => by
  unfold valueGe; infer_instance

/-- Expenses of three categories, entered in an order that is not the order
of their totals. -/
def sampleC20 : List Transaction :=
  [ ⟨.expense, .num 100, "Food", ⟨2024, 3, 2⟩, false⟩,
    ⟨.expense, .num 1000, "Rent", ⟨2024, 3, 1⟩, false⟩,
    ⟨.expense, .num 50, "Food", ⟨2024, 3, 4⟩, false⟩,
    ⟨.expense, .num 300, "Travel", ⟨2024, 3, 3⟩, false⟩ ]

/-- An expense whose amount does not parse, beside an expense of another
category. -/
def sampleC20NaN : List Transaction :=
  [ ⟨.expense, .nan, "Food", ⟨2024, 3, 2⟩, false⟩,
    ⟨.expense, .num 5, "Rent", ⟨2024, 3, 1⟩, false⟩ ]

/-- The amounts of the transactions of type `ty`, in list order. -/
def amountsOf (transactions : List Transaction) (ty : TxType) : List JSNum :=
  (transactions.filter (fun t => decide (t.type = ty))).map (fun t => t.amount)

/-- The amounts of the transactions of type `ty` dated in the month `ym`, in
list order. -/
def monthAmountsOf (transactions : List Transaction) (ty : TxType) (ym : Int × Int) :
    List JSNum :=
  (transactions.filter (fun t => decide (t.type = ty ∧ monthKey t.date = ym))).map
    (fun t => t.amount)

/-- An income, a recurring expense and a recurring income. -/
def sampleC24 : List Transaction :=
  [ ⟨.income, .num 100, "Salary", ⟨2024, 3, 14⟩, false⟩,
    ⟨.expense, .num 50, "Netflix", ⟨2024, 3, 15⟩, true⟩,
    ⟨.income, .num 70, "Rent", ⟨2024, 2, 1⟩, true⟩ ]

/-- The field `b[ty]` of a bucket. -/
def bucketField (ty : TxType) (b : MonthBucket) : JSNum :=
  match ty with
  | .income => b.income
  | .expense => b.expense

/-- The amounts that the loop adds to `catTotals[c]`: those of the expenses of
category `c`, in list order. -/
def catEntries (transactions : List Transaction) (c : String) : List JSNum :=
  (transactions.filter (fun t => decide (t.type = .expense ∧ t.category = c))).map
    (fun t => t.amount)

/-- The list `sampleC1` in another order. -/
def sampleC25 : List Transaction :=
  [ ⟨.expense, .num 250, "Food", ⟨2024, 2, 27⟩, false⟩,
    ⟨.expense, .num 1000, "Food", ⟨2024, 3, 2⟩, false⟩,
    ⟨.income, .num 5000, "Salary", ⟨2024, 3, 1⟩, true⟩ ]

/-- The initial value of the state `formData` on 2024-03-15. -/
def sampleForm : FormData :=
  { type := .str "expense", amount := .str "", category := .str "Food", description := .str "",
    date := .str "2024-03-15", isRecurring := false, isSplit := false, splitWith := "",
    splitAmount := "" }

/-- An extraction result carrying only the key `amount`, with value `0`. -/
def sampleC28 : ExtractionResult :=
  { amount := some (.num 0), type := none, category := none, description := none,
    date := none }

/-- The year of a date in the calendar that starts with March. -/
def shiftedYear (c : CivilDate) : Int := if c.month ≤ 2 then c.year - 1 else c.year

/-- The month of a date counted from March (`0`) to February (`11`). -/
def shiftedMonth (c : CivilDate) : Int := if c.month > 2 then c.month - 3 else c.month + 9

/-- The day of a date within the year that starts with March, from `0`. -/
def dayOfShiftedYear (c : CivilDate) : Int := (153 * shiftedMonth c + 2) / 5 + c.day - 1

/-- Number of leap days up to year `y` in the proleptic Gregorian calendar. -/
def leapCount (y : Int) : Int := y / 4 - y / 100 + y / 400

/-- Order of `YYYY-MM` keys: `k₁` is not later than `k₂`. -/
def monthLe (k₁ k₂ : Int × Int) : Prop := k₁.1 < k₂.1 ∨ (k₁.1 = k₂.1 ∧ k₁.2 ≤ k₂.2)

/-- Transactions of December 2023, January 2024 and March 2024 in another
order. -/
def sampleC21 : List Transaction :=
  [ ⟨.expense, .num 100, "Food", ⟨2024, 3, 10⟩, false⟩,
    ⟨.income, .num 900, "Salary", ⟨2023, 12, 1⟩, false⟩,
    ⟨.expense, .num 50, "Food", ⟨2024, 1, 20⟩, false⟩ ]

/-- March 2024 with an unparseable amount on day 5, 40 on day 10 and 400 on
day 15. -/
def sampleC14 : List Transaction :=
  [ ⟨.expense, .nan, "Food", ⟨2024, 3, 5⟩, false⟩,
    ⟨.expense, .num 40, "Food", ⟨2024, 3, 10⟩, false⟩,
    ⟨.expense, .num 400, "Rent", ⟨2024, 3, 15⟩, false⟩ ]

/-- The list `sampleC14` with the unparseable amount replaced by `0`. -/
def sampleC14Zero : List Transaction :=
  [ ⟨.expense, .num 0, "Food", ⟨2024, 3, 5⟩, false⟩,
    ⟨.expense, .num 40, "Food", ⟨2024, 3, 10⟩, false⟩,
    ⟨.expense, .num 400, "Rent", ⟨2024, 3, 15⟩, false⟩ ]

/-- One expense of 500 dated 2024-03-01. -/
def sampleC16 : List Transaction :=
  [ ⟨.expense, .num 500, "Food", ⟨2024, 3, 1⟩, false⟩ ]

/-- The binary64 value of the literal `0.1`. -/
def d0_1 : ℚ := 3602879701896397 / 2 ^ 55

/-- The binary64 value of the literal `0.2`. -/
def d0_2 : ℚ := 3602879701896397 / 2 ^ 54

/-- The binary64 value of the literal `0.3`. -/
def d0_3 : ℚ := 5404319552844595 / 2 ^ 54

/-- The binary64 value printed as `0.30000000000000004`. -/
def d0_30000000000000004 : ℚ := 1351079888211149 / 2 ^ 52

/-- The binary64 value of the literal `0.4`. -/
def d0_4 : ℚ := 3602879701896397 / 2 ^ 53

/-- The binary64 value of the literal `0.5`. -/
def d0_5 : ℚ := 1 / 2 ^ 1

/-- The binary64 value of the literal `0.6`. -/
def d0_6 : ℚ := 5404319552844595 / 2 ^ 53

/-- The binary64 value printed as `0.6000000000000001`, the successor of
`0.6`. -/
def d0_6000000000000001 : ℚ := 1351079888211149 / 2 ^ 51

/-- The binary64 value of the literal `1e-14`. -/
def rateTiny : ℚ := 6338253001141147 / 2 ^ 99

/-- The binary64 quotient `1e-14 / 1200`, printed as `8.333333333333334e-18`. -/
def monthlyRateTiny : ℚ := 5408642560973779 / 2 ^ 109

/-- The binary64 product `500000 * (1e-14 / 1200)`, printed as
`4.166666666666667e-12`. -/
def paymentTiny : ℚ := 2579041748511209 / 2 ^ 89

/-- The binary64 quotient `1000000 / 1200`, printed as `833.3333333333334`. -/
def monthlyRateHuge : ℚ := 7330077518506667 / 2 ^ 43

/-- The binary64 sum `1 + 1000000 / 1200`, printed as `834.3333333333334`. -/
def growthHuge : ℚ := 7338873611528875 / 2 ^ 43

/-- The binary64 product `500000 * (1000000 / 1200)`, printed as
`416666666.6666667`. -/
def paymentHuge : ℚ := 6990506666666667 / 2 ^ 24

/-- Expenses of 0.1, 0.2 and 0.3. -/
def sampleC25Dbl : List Transaction :=
  [ ⟨.expense, .num 0.1, "Food", ⟨2024, 3, 1⟩, false⟩,
    ⟨.expense, .num 0.2, "Food", ⟨2024, 3, 2⟩, false⟩,
    ⟨.expense, .num 0.3, "Food", ⟨2024, 3, 3⟩, false⟩ ]

/-- The list `sampleC25Dbl` in reverse order. -/
def sampleC25DblRev : List Transaction :=
  [ ⟨.expense, .num 0.3, "Food", ⟨2024, 3, 3⟩, false⟩,
    ⟨.expense, .num 0.2, "Food", ⟨2024, 3, 2⟩, false⟩,
    ⟨.expense, .num 0.1, "Food", ⟨2024, 3, 1⟩, false⟩ ]

/-- An unparseable amount followed by 100, in one category. -/
def sampleC25NaN : List Transaction :=
  [ ⟨.expense, .nan, "Food", ⟨2024, 3, 1⟩, false⟩,
    ⟨.expense, .num 100, "Food", ⟨2024, 3, 2⟩, false⟩ ]

/-- The list `sampleC25NaN` in reverse order. -/
def sampleC25NaNRev : List Transaction :=
  [ ⟨.expense, .num 100, "Food", ⟨2024, 3, 2⟩, false⟩,
    ⟨.expense, .nan, "Food", ⟨2024, 3, 1⟩, false⟩ ]

/-- Incomes of 0.3 in January, 0.2 in February and 0.1 in January. -/
def sampleC29 : List Transaction :=
  [ ⟨.income, .num 0.3, "Salary", ⟨2024, 1, 10⟩, false⟩,
    ⟨.income, .num 0.2, "Salary", ⟨2024, 2, 10⟩, false⟩,
    ⟨.income, .num 0.1, "Salary", ⟨2024, 1, 20⟩, false⟩ ]

/-- The divisor of the instalment quotient in binary64 arithmetic:
`Math.pow(1 + monthlyRate, months) - 1` for `r = parseFloat(rate) || 0` and
`n = parseFloat(years) || 0`. -/
def emiDenominatorDbl (r n : Dbl) : Dbl :=
  (((Dbl.fin 1).add (r.div ((Dbl.fin 12).mul (.fin 100)))).pow (n.mul (.fin 12))).sub (.fin 1)

/-! ## Auxiliary facts -/

theorem JSNum.orZero_some_num (q : ℚ) : JSNum.orZero (some (.num q)) = .num q := by
  show (if q = 0 then JSNum.num 0 else JSNum.num q) = JSNum.num q
  split_ifs with h
  · rw [h]
  · rfl

@[simp] theorem JSNum.toQ_num (q : ℚ) : JSNum.toQ (.num q) = q := rfl

theorem JSNum.ne_nan_iff (x : JSNum) : x ≠ .nan ↔ ∃ q, x = .num q := by
  cases x <;> simp

/-- On numbers that are not `NaN`, the left-to-right sum is the exact sum. -/
theorem JSNum.foldl_add_num (l : List JSNum) (h : ∀ x ∈ l, x ≠ JSNum.nan) (q : ℚ) :
    l.foldl JSNum.add (.num q) = .num (q + (l.map JSNum.toQ).sum) := by
  induction l generalizing q with
  | nil => simp
  | cons x xs ih =>
    have hx : x ≠ JSNum.nan := h x (List.mem_cons_self _ _)
    obtain ⟨r, rfl⟩ := (JSNum.ne_nan_iff x).1 hx
    have hxs : ∀ y ∈ xs, y ≠ JSNum.nan := fun y hy => h y (List.mem_cons_of_mem _ hy)
    simp only [List.foldl_cons, JSNum.add, List.map_cons, List.sum_cons, JSNum.toQ]
    rw [ih hxs, add_assoc]

theorem JSNum.sum_num (l : List JSNum) (h : ∀ x ∈ l, x ≠ JSNum.nan) :
    JSNum.sum l = .num (l.map JSNum.toQ).sum := by
  unfold JSNum.sum
  rw [JSNum.foldl_add_num l h, zero_add]

theorem mem_objSet {κ α : Type} [DecidableEq κ] (l : List (κ × α)) (k : κ) (v : α)
    (p : κ × α) (hp : p ∈ objSet l k v) : p ∈ l ∨ p.2 = v := by
  induction l with
  | nil =>
    simp only [objSet, List.mem_singleton] at hp
    right; rw [hp]
  | cons x xs ih =>
    obtain ⟨k', v'⟩ := x
    simp only [objSet] at hp
    split_ifs at hp with h
    · rcases List.mem_cons.1 hp with h1 | h1
      · right; rw [h1]
      · left; exact List.mem_cons_of_mem _ h1
    · rcases List.mem_cons.1 hp with h1 | h1
      · left; rw [h1]; exact List.mem_cons_self _ _
      · rcases ih h1 with h2 | h2
        · left; exact List.mem_cons_of_mem _ h2
        · right; exact h2

/-- Adding `v` under key `k` (the statement `o[k] = (o[k] || 0) + v`) raises
the sum of the values by `v`. -/
theorem sum_objSet_add {κ : Type} [DecidableEq κ] (l : List (κ × JSNum)) (k : κ) (v : ℚ)
    (h : ∀ p ∈ l, p.2 ≠ JSNum.nan) :
    ((objSet l k ((JSNum.orZero (objGet l k)).add (.num v))).map (fun p => JSNum.toQ p.2)).sum
      = (l.map (fun p => JSNum.toQ p.2)).sum + v := by
  induction l with
  | nil => simp [objSet, objGet, JSNum.orZero, JSNum.add, JSNum.toQ]
  | cons x xs ih =>
    obtain ⟨k', x⟩ := x
    have hx : x ≠ JSNum.nan := h (k', x) (List.mem_cons_self _ _)
    obtain ⟨r, rfl⟩ := (JSNum.ne_nan_iff x).1 hx
    have hxs : ∀ p ∈ xs, p.2 ≠ JSNum.nan := fun p hp => h p (List.mem_cons_of_mem _ hp)
    by_cases hk : k' = k
    · simp only [objSet, objGet, if_pos hk, JSNum.orZero_some_num, JSNum.add, List.map_cons,
        List.sum_cons, JSNum.toQ_num]
      ring
    · simp only [objSet, objGet, if_neg hk, List.map_cons, List.sum_cons, JSNum.toQ_num]
      rw [ih hxs]
      ring

theorem step_expense (c p : Int × Int) (a : Acc) (t : Transaction) :
    (step c p a t).expense =
      match t.type with
      | .income => a.expense
      | .expense => a.expense.add t.amount := by
  rcases t with ⟨ty, amt, cat, d, r⟩
  cases ty <;> cases r <;> simp [step]

/-! ### Calendar facts -/

theorem iterate_nextDay (y m : Int) (n : Nat) (d : Int) (h : d + n ≤ monthLength y m) :
    nextDay^[n] ⟨y, m, d⟩ = ⟨y, m, d + n⟩ := by
  induction n generalizing d with
  | zero => simp
  | succ n ih =>
    rw [Function.iterate_succ_apply]
    have h1 : d < monthLength y m := by push_cast at h; omega
    have h2 : nextDay ⟨y, m, d⟩ = ⟨y, m, d + 1⟩ := by
      simp only [nextDay, if_pos h1]
    rw [h2, ih (d + 1) (by push_cast at h ⊢; omega)]
    congr 1
    push_cast
    ring

theorem makeDay_in_month (y m d : Int) (hm1 : 1 ≤ m) (hm2 : m ≤ 12) (hd1 : 1 ≤ d)
    (hd2 : d ≤ monthLength y m) : makeDay y (m - 1) d = ⟨y, m, d⟩ := by
  have e1 : (m - 1) / 12 = 0 := by omega
  have e2 : (m - 1) % 12 + 1 = m := by omega
  have e3 : (0 : Int) ≤ d - 1 := by omega
  simp only [makeDay, addDays, e1, e2, if_pos e3, add_zero]
  rw [iterate_nextDay y m _ 1 (by rw [Int.toNat_of_nonneg e3]; omega)]
  rw [Int.toNat_of_nonneg e3]
  congr 1
  ring

/-- Away from the end of the month `setMonth(getMonth() - 1)` lands in the
preceding month: this needs the day of the month to exist there. -/
theorem prevMonthStr_eq_precedingMonth (now : CivilDate) (hv : now.Valid)
    (hd : now.day ≤ monthLength (precedingMonth (currentMonthStr now)).1
      (precedingMonth (currentMonthStr now)).2) :
    prevMonthStr now = precedingMonth (currentMonthStr now) := by
  obtain ⟨y, m, d⟩ := now
  obtain ⟨hm1, hm2, hd1, hd2⟩ := hv
  simp only [currentMonthStr, monthKey, precedingMonth, prevMonthStr, setMonthBack] at *
  by_cases h1 : m = 1
  · subst h1
    simp only [if_true] at hd ⊢
    have : makeDay y (1 - 1 - 1) d = ⟨y - 1, 12, d⟩ := by
      have e1 : ((1 : Int) - 1 - 1) / 12 = -1 := by decide
      have e2 : ((1 : Int) - 1 - 1) % 12 + 1 = 12 := by decide
      have e3 : (0 : Int) ≤ d - 1 := by omega
      have e0 : y + -1 = y - 1 := by ring
      simp only [makeDay, addDays, if_pos e3, e1, e2, e0]
      rw [iterate_nextDay _ _ _ 1 (by rw [Int.toNat_of_nonneg e3]; omega)]
      rw [Int.toNat_of_nonneg e3]
      congr 1
      ring
    rw [this]
  · simp only [if_neg h1] at hd ⊢
    have := makeDay_in_month y (m - 1) d (by omega) (by omega) hd1 hd
    rw [this]

/-- Claim C2 (failing input). On 2024-03-31 `setMonth(2 - 1)` asks for
February 31st, which overflows to 2 March: `prevMonthStr` equals
`currentMonthStr` instead of naming February, and an expense of the current
month is accumulated into `prevMonthExpense` as well. -/
theorem prevMonthStr_on_march_31 :
    setMonthBack ⟨2024, 3, 31⟩ = ⟨2024, 3, 2⟩ ∧
    prevMonthStr ⟨2024, 3, 31⟩ = currentMonthStr ⟨2024, 3, 31⟩ ∧
    prevMonthStr ⟨2024, 3, 31⟩ ≠ precedingMonth (currentMonthStr ⟨2024, 3, 31⟩) ∧
    (accumulate (currentMonthStr ⟨2024, 3, 31⟩) (prevMonthStr ⟨2024, 3, 31⟩)
      sampleC2).prevMonthExpense = .num 100 ∧
    (accumulate (currentMonthStr ⟨2024, 3, 31⟩) (prevMonthStr ⟨2024, 3, 31⟩)
      sampleC2).currentMonthExpense = .num 100 := by
  have h1 : setMonthBack ⟨2024, 3, 31⟩ = ⟨2024, 3, 2⟩ := by
    set_option maxRecDepth 100000 in decide
  have h2 : prevMonthStr ⟨2024, 3, 31⟩ = (2024, 3) := by
    simp only [prevMonthStr, h1, monthKey]
  refine ⟨h1, ?_, ?_, ?_, ?_⟩
  · rw [h2]; rfl
  · rw [h2]; decide
  · rw [h2]
    simp [accumulate, step, sampleC2, currentMonthStr, monthKey, Acc.init, JSNum.add]
  · rw [h2]
    simp [accumulate, step, sampleC2, currentMonthStr, monthKey, Acc.init, JSNum.add]

/-! ### Dictionary facts -/

theorem objGet_objSet {κ α : Type} [DecidableEq κ] (l : List (κ × α)) (k : κ) (v : α) (k' : κ) :
    objGet (objSet l k v) k' = if k = k' then some v else objGet l k' := by
  induction l with
  | nil => simp [objSet, objGet]
  | cons x xs ih =>
    obtain ⟨a, x⟩ := x
    by_cases h : a = k
    · subst h
      simp only [objSet, objGet, if_true]
      split_ifs <;> rfl
    · simp only [objSet, objGet, if_neg h, ih]
      by_cases h2 : a = k'
      · have h3 : ¬ k = k' := fun e => h (h2.trans e.symm)
        simp [h2, h3]
      · simp [h2]

theorem objGet_eq_none_iff {κ α : Type} [DecidableEq κ] (l : List (κ × α)) (k : κ) :
    objGet l k = none ↔ k ∉ l.map Prod.fst := by
  induction l with
  | nil => simp [objGet]
  | cons x xs ih =>
    obtain ⟨a, x⟩ := x
    by_cases h : a = k
    · simp [objGet, h]
    · have h' : ¬ k = a := fun e => h e.symm
      simp only [objGet, if_neg h, ih, List.map_cons, List.mem_cons, not_or]
      tauto

theorem keys_objSet {κ α : Type} [DecidableEq κ] (l : List (κ × α)) (k : κ) (v : α) :
    (objSet l k v).map Prod.fst =
      if k ∈ l.map Prod.fst then l.map Prod.fst else l.map Prod.fst ++ [k] := by
  induction l with
  | nil => simp [objSet]
  | cons x xs ih =>
    obtain ⟨a, x⟩ := x
    by_cases h : a = k
    · subst h
      simp [objSet]
    · have h' : ¬ k = a := fun e => h e.symm
      simp only [objSet, if_neg h, List.map_cons, ih, List.mem_cons, h', false_or]
      split_ifs <;> simp

theorem objGet_of_mem {κ α : Type} [DecidableEq κ] (l : List (κ × α))
    (hn : (l.map Prod.fst).Nodup) (k : κ) (v : α) (h : (k, v) ∈ l) : objGet l k = some v := by
  induction l with
  | nil => simp at h
  | cons x xs ih =>
    obtain ⟨a, x⟩ := x
    simp only [List.map_cons, List.nodup_cons] at hn
    rcases List.mem_cons.1 h with h1 | h1
    · injection h1 with e1 e2
      subst e1 e2
      simp [objGet]
    · have hk : k ∈ xs.map Prod.fst := List.mem_map.2 ⟨(k, v), h1, rfl⟩
      have hne : ¬ a = k := fun e => hn.1 (e ▸ hk)
      simp only [objGet, if_neg hne]
      exact ih hn.2 h1

theorem JSNum.sum_append_singleton (l : List JSNum) (x : JSNum) :
    JSNum.sum (l ++ [x]) = (JSNum.sum l).add x := by
  simp [JSNum.sum, List.foldl_append]

/-! ### The monthly buckets -/

theorem step_monthlyData (c p : Int × Int) (a : Acc) (t : Transaction) :
    (step c p a t).monthlyData = bucketStep a.monthlyData t := by
  rcases t with ⟨ty, amt, cat, d, r⟩
  cases ty <;> cases r <;> simp [step]

theorem foldl_step_monthlyData (c p : Int × Int) (l : List Transaction) (a : Acc) :
    (l.foldl (step c p) a).monthlyData = l.foldl bucketStep a.monthlyData := by
  induction l generalizing a with
  | nil => rfl
  | cons t ts ih => simp only [List.foldl_cons, ih, step_monthlyData]

theorem accumulate_monthlyData (c p : Int × Int) (l : List Transaction) :
    (accumulate c p l).monthlyData = bucketsOf l :=
  foldl_step_monthlyData c p l Acc.init

theorem bucketStep_eq (md : List (String × MonthBucket)) (t : Transaction) :
    bucketStep md t = objSet
      (match objGet md (monthShort t.date.month) with
        | some _ => md
        | none => objSet md (monthShort t.date.month) (freshBucket t))
      (monthShort t.date.month)
      (((objGet md (monthShort t.date.month)).getD (freshBucket t)).addTo t.type t.amount) := by
  simp only [bucketStep, freshBucket]
  cases h : objGet md (monthShort t.date.month) with
  | none => simp [objGet_objSet]
  | some b => simp [h]

theorem objGet_bucketStep (md : List (String × MonthBucket)) (t : Transaction) (k : String) :
    objGet (bucketStep md t) k =
      if monthShort t.date.month = k then
        some (((objGet md (monthShort t.date.month)).getD (freshBucket t)).addTo t.type t.amount)
      else objGet md k := by
  rw [bucketStep_eq, objGet_objSet]
  split_ifs with h
  · rfl
  · cases h2 : objGet md (monthShort t.date.month) with
    | none => simp [objGet_objSet, h]
    | some b => rfl

theorem keys_bucketStep (md : List (String × MonthBucket)) (t : Transaction) :
    (bucketStep md t).map Prod.fst =
      if monthShort t.date.month ∈ md.map Prod.fst then md.map Prod.fst
      else md.map Prod.fst ++ [monthShort t.date.month] := by
  rw [bucketStep_eq, keys_objSet]
  cases h2 : objGet md (monthShort t.date.month) with
  | none =>
    have hn := (objGet_eq_none_iff md _).1 h2
    simp [keys_objSet, hn]
  | some b =>
    have hn : monthShort t.date.month ∈ md.map Prod.fst := by
      by_contra hc
      rw [(objGet_eq_none_iff md _).2 hc] at h2
      exact Option.noConfusion h2
    simp [hn]

theorem bucketsOf_append (l : List Transaction) (t : Transaction) :
    bucketsOf (l ++ [t]) = bucketStep (bucketsOf l) t := by
  simp [bucketsOf, List.foldl_append]

theorem labelTotal_append (l : List Transaction) (t : Transaction) (ty : TxType) (k : String) :
    labelTotal (l ++ [t]) ty k =
      if t.type = ty ∧ monthShort t.date.month = k then (labelTotal l ty k).add t.amount
      else labelTotal l ty k := by
  unfold labelTotal
  rw [List.filter_append]
  split_ifs with h
  · have : [t].filter (fun t => decide (t.type = ty ∧ monthShort t.date.month = k)) = [t] := by
      simp [List.filter, h]
    rw [this, List.map_append, List.map_singleton, JSNum.sum_append_singleton]
  · have : [t].filter (fun t => decide (t.type = ty ∧ monthShort t.date.month = k)) = [] := by
      simp [List.filter, h]
    rw [this, List.append_nil]

theorem keys_bucketsOf (l : List Transaction) :
    ((bucketsOf l).map Prod.fst).Nodup ∧
      ∀ k, k ∈ (bucketsOf l).map Prod.fst ↔ ∃ t ∈ l, monthShort t.date.month = k := by
  induction l using List.reverseRecOn with
  | nil => simp [bucketsOf]
  | append_singleton l t ih =>
    obtain ⟨ih1, ih2⟩ := ih
    rw [bucketsOf_append, keys_bucketStep]
    split_ifs with h
    · refine ⟨ih1, fun k => ?_⟩
      rw [ih2 k]
      constructor
      · rintro ⟨s, hs, e⟩
        exact ⟨s, List.mem_append_left _ hs, e⟩
      · rintro ⟨s, hs, e⟩
        rcases List.mem_append.1 hs with h1 | h1
        · exact ⟨s, h1, e⟩
        · rw [List.mem_singleton] at h1
          subst h1
          exact (ih2 k).1 (e ▸ h)
    · refine ⟨?_, fun k => ?_⟩
      · rw [List.nodup_append]
        refine ⟨ih1, List.nodup_singleton _, ?_⟩
        intro a ha hb
        rw [List.mem_singleton] at hb
        exact h (hb ▸ ha)
      · rw [List.mem_append, ih2 k, List.mem_singleton]
        constructor
        · rintro (⟨s, hs, e⟩ | e)
          · exact ⟨s, List.mem_append_left _ hs, e⟩
          · exact ⟨t, List.mem_append_right _ (List.mem_singleton_self t), e.symm⟩
        · rintro ⟨s, hs, e⟩
          rcases List.mem_append.1 hs with h1 | h1
          · exact Or.inl ⟨s, h1, e⟩
          · rw [List.mem_singleton] at h1
            subst h1
            exact Or.inr e.symm
theorem labelTotal_of_absent (l : List Transaction) (ty : TxType) (k : String)
    (h : ∀ t ∈ l, monthShort t.date.month ≠ k) : labelTotal l ty k = .num 0 := by
  unfold labelTotal
  have : l.filter (fun t => decide (t.type = ty ∧ monthShort t.date.month = k)) = [] := by
    rw [List.filter_eq_nil_iff]
    intro t ht
    simp [h t ht]
  rw [this]
  rfl

theorem addTo_totals (b : MonthBucket) (l : List Transaction) (t : Transaction)
    (h1 : b.name = monthShort t.date.month)
    (h2 : b.income = labelTotal l .income (monthShort t.date.month))
    (h3 : b.expense = labelTotal l .expense (monthShort t.date.month)) :
    (b.addTo t.type t.amount).name = monthShort t.date.month ∧
    (b.addTo t.type t.amount).income = labelTotal (l ++ [t]) .income (monthShort t.date.month) ∧
    (b.addTo t.type t.amount).expense
      = labelTotal (l ++ [t]) .expense (monthShort t.date.month) := by
  rw [labelTotal_append, labelTotal_append]
  cases hty : t.type with
  | income => simp [MonthBucket.addTo, h1, h2, h3]
  | expense => simp [MonthBucket.addTo, h1, h2, h3]

theorem values_bucketsOf (l : List Transaction) (k : String) (b : MonthBucket)
    (h : objGet (bucketsOf l) k = some b) :
    b.name = k ∧ b.income = labelTotal l .income k ∧ b.expense = labelTotal l .expense k := by
  induction l using List.reverseRecOn generalizing k b with
  | nil => simp [bucketsOf, objGet] at h
  | append_singleton l t ih =>
    rw [bucketsOf_append, objGet_bucketStep] at h
    split_ifs at h with e
    · subst e
      injection h with h
      subst h
      cases h0 : objGet (bucketsOf l) (monthShort t.date.month) with
      | none =>
        have hk := (objGet_eq_none_iff _ _).1 h0
        have habs : ∀ s ∈ l, monthShort s.date.month ≠ monthShort t.date.month :=
          fun s hs e => hk (((keys_bucketsOf l).2 _).2 ⟨s, hs, e⟩)
        simp only [Option.getD_none]
        exact addTo_totals (freshBucket t) l t rfl
          (by rw [labelTotal_of_absent l _ _ habs]; rfl)
          (by rw [labelTotal_of_absent l _ _ habs]; rfl)
      | some b0 =>
        obtain ⟨i1, i2, i3⟩ := ih _ _ h0
        simp only [Option.getD_some]
        exact addTo_totals b0 l t i1 i2 i3
    · obtain ⟨i1, i2, i3⟩ := ih _ _ h
      refine ⟨i1, ?_, ?_⟩
      · rw [labelTotal_append, if_neg (fun hc => e hc.2)]
        exact i2
      · rw [labelTotal_append, if_neg (fun hc => e hc.2)]
        exact i3

theorem mem_objGet {κ α : Type} [DecidableEq κ] (l : List (κ × α)) (k : κ) (v : α)
    (h : objGet l k = some v) : (k, v) ∈ l := by
  induction l with
  | nil => simp [objGet] at h
  | cons x xs ih =>
    obtain ⟨a, x⟩ := x
    simp only [objGet] at h
    split_ifs at h with e
    · injection h with h
      subst h e
      exact List.mem_cons_self _ _
    · exact List.mem_cons_of_mem _ (ih h)

theorem names_bucketsOf (l : List Transaction) :
    ((bucketsOf l).map Prod.snd).map (fun b => b.name) = (bucketsOf l).map Prod.fst := by
  rw [List.map_map]
  apply List.map_congr_left
  intro p hp
  obtain ⟨k, b⟩ := p
  exact (values_bucketsOf l k b (objGet_of_mem _ (keys_bucketsOf l).1 k b hp)).1

/-- Claim C3 (counterexample). An expense of 100 in January 2024 and one of 50
in January 2025 end in a single `Jan` entry with expense 150, which is the
sum of no single `YYYY-MM` month. -/
theorem barData_merges_years :
    (stats sampleC3 (.num 3000) ⟨2025, 2, 10⟩).barData
      = [⟨"Jan", .num 0, .num 150, 1704844800000⟩] ∧
    ¬ BarBucketsPerMonth sampleC3 (stats sampleC3 (.num 3000) ⟨2025, 2, 10⟩).barData := by
  have h : (stats sampleC3 (.num 3000) ⟨2025, 2, 10⟩).barData
      = [⟨"Jan", .num 0, .num 150, 1704844800000⟩] := by
    simp only [stats, accumulate_monthlyData]
    have hb : bucketsOf sampleC3 = [("Jan", ⟨"Jan", .num 0, .num 150, 1704844800000⟩)] := by
      simp [bucketsOf, sampleC3, bucketStep, objGet, objSet, monthShort, MonthBucket.addTo,
        JSNum.add, getTime, daysFromCivil]
      norm_num
    rw [hb]
    rfl
  refine ⟨h, ?_⟩
  rw [h]
  intro hc
  obtain ⟨ym, -, h2⟩ := hc _ (List.mem_singleton_self _)
  simp only [monthTotal, sampleC3, monthKey] at h2
  by_cases e1 : ((2024 : Int), (1 : Int)) = ym
  · subst e1
    simp [List.filter, JSNum.sum, JSNum.add] at h2
  · by_cases e2 : ((2025 : Int), (1 : Int)) = ym
    · subst e2
      simp [List.filter, JSNum.sum, JSNum.add] at h2
    · simp [List.filter, e1, e2, JSNum.sum] at h2

/-- Claim C3 (amended). The bar series is bucketed by month label: the entries
of `barData` have pairwise different names, each entry holds the sums over all
transactions whose date carries its label, whatever the year, and every
transaction's label has an entry. -/
theorem barData_by_label (transactions : List Transaction) (monthlyBudget : JSNum)
    (now : CivilDate) :
    ((stats transactions monthlyBudget now).barData.map (fun b => b.name)).Nodup ∧
    (∀ b ∈ (stats transactions monthlyBudget now).barData,
      b.income = labelTotal transactions .income b.name ∧
      b.expense = labelTotal transactions .expense b.name ∧
      ∃ t ∈ transactions, monthShort t.date.month = b.name) ∧
    (∀ t ∈ transactions, ∃ b ∈ (stats transactions monthlyBudget now).barData,
      b.name = monthShort t.date.month) := by
  have hperm := List.perm_insertionSort barBefore ((bucketsOf transactions).map Prod.snd)
  obtain ⟨hnd, hkeys⟩ := keys_bucketsOf transactions
  have hmem : ∀ b, b ∈ (bucketsOf transactions).map Prod.snd →
      objGet (bucketsOf transactions) b.name = some b := by
    intro b hb
    obtain ⟨p, hp, rfl⟩ := List.mem_map.1 hb
    obtain ⟨k, b⟩ := p
    have hg := objGet_of_mem _ hnd k b hp
    rw [(values_bucketsOf transactions k b hg).1]
    exact hg
  simp only [stats, accumulate_monthlyData]
  refine ⟨?_, ?_, ?_⟩
  · rw [(hperm.map _).nodup_iff, names_bucketsOf]
    exact hnd
  · intro b hb
    have hg := hmem b (hperm.mem_iff.1 hb)
    obtain ⟨-, i2, i3⟩ := values_bucketsOf transactions _ b hg
    refine ⟨i2, i3, (hkeys b.name).1 ?_⟩
    exact List.mem_map.2 ⟨(b.name, b), mem_objGet _ _ _ hg, rfl⟩
  · intro t ht
    have hk : monthShort t.date.month ∈ (bucketsOf transactions).map Prod.fst :=
      (hkeys _).2 ⟨t, ht, rfl⟩
    obtain ⟨p, hp, e⟩ := List.mem_map.1 hk
    obtain ⟨k, b⟩ := p
    have hg := objGet_of_mem _ hnd k b hp
    refine ⟨b, hperm.mem_iff.2 (List.mem_map.2 ⟨(k, b), hp, rfl⟩), ?_⟩
    rw [(values_bucketsOf transactions k b hg).1]
    exact e

/-! ### Unparseable amounts -/

/-- Claim C4 (failing input). With an unparseable amount between two expenses
the totals become `NaN` and the category sum restarts after it, whereas the
same list with amount `0` gives 140 everywhere. -/
theorem nan_amount_not_zero :
    (stats sampleC4 (.num 3000) ⟨2024, 3, 10⟩).expense = .nan ∧
    (stats sampleC4 (.num 3000) ⟨2024, 3, 10⟩).balance = .nan ∧
    (stats sampleC4 (.num 3000) ⟨2024, 3, 10⟩).currentMonthExpense = .nan ∧
    (stats sampleC4 (.num 3000) ⟨2024, 3, 10⟩).categoryData = [("Food", .num (.num 40))] ∧
    (stats sampleC4Zero (.num 3000) ⟨2024, 3, 10⟩).expense = .num 140 ∧
    (stats sampleC4Zero (.num 3000) ⟨2024, 3, 10⟩).balance = .num (-140) ∧
    (stats sampleC4Zero (.num 3000) ⟨2024, 3, 10⟩).currentMonthExpense = .num 140 ∧
    (stats sampleC4Zero (.num 3000) ⟨2024, 3, 10⟩).categoryData = [("Food", .num (.num 140))] := by
  refine ⟨?_, ?_, ?_, ?_, ?_, ?_, ?_, ?_⟩
  · simp [stats, accumulate, step, sampleC4, Acc.init, JSNum.add]
  · simp [stats, accumulate, step, sampleC4, Acc.init, JSNum.add, JSNum.sub]
  · simp [stats, accumulate, step, sampleC4, Acc.init, JSNum.add, currentMonthStr, monthKey]
  · simp [stats, accumulate, step, sampleC4, Acc.init, JSNum.add, objGet, objSet, JSNum.orZero,
      catTotalsStep]
  · simp [stats, accumulate, step, sampleC4Zero, Acc.init, JSNum.add]
    norm_num
  · simp [stats, accumulate, step, sampleC4Zero, Acc.init, JSNum.add, JSNum.sub]
    norm_num
  · simp [stats, accumulate, step, sampleC4Zero, Acc.init, JSNum.add, currentMonthStr, monthKey]
    norm_num
  · simp [stats, accumulate, step, sampleC4Zero, Acc.init, JSNum.add, objGet, objSet,
      JSNum.orZero, catTotalsStep]
    norm_num

/-! ### The streak loop -/

theorem streakLoop_succ (ds : List (CivilDate × JSNum)) (db : JSNum) (today : CivilDate)
    (r i s : Nat) :
    streakLoop ds db today (r + 1) i s =
      if compliant ds db today i then streakLoop ds db today r (i + 1) (s + 1) else s := rfl

/-- If the `n` offsets from `i` on are compliant and the loop either ends
there or meets a day over budget, it counts exactly `n` more days. -/
theorem streakLoop_eq (ds : List (CivilDate × JSNum)) (db : JSNum) (today : CivilDate)
    (n r i s : Nat) (hn : n ≤ r)
    (hok : ∀ j, i ≤ j → j < i + n → compliant ds db today j = true)
    (hstop : n < r → compliant ds db today (i + n) = false) :
    streakLoop ds db today r i s = s + n := by
  induction n generalizing r i s with
  | zero =>
    cases r with
    | zero => rfl
    | succ r =>
      have h := hstop (Nat.succ_pos r)
      rw [streakLoop_succ]
      simp only [Nat.add_zero] at h
      simp [h]
  | succ n ih =>
    cases r with
    | zero => omega
    | succ r =>
      rw [streakLoop_succ, hok i (le_refl i) (by omega)]
      simp only [if_true]
      rw [ih r (i + 1) (s + 1) (by omega) (fun j h1 h2 => hok j (by omega) (by omega))
        (fun h => by
          have := hstop (by omega)
          rw [show i + 1 + n = i + (n + 1) by omega]
          exact this)]
      omega

/-- What the loop returns: it counts compliant offsets from `i` on and stops
at the first one over budget or after `r` iterations. -/
theorem streakLoop_spec (ds : List (CivilDate × JSNum)) (db : JSNum) (today : CivilDate)
    (r i s : Nat) :
    s ≤ streakLoop ds db today r i s ∧ streakLoop ds db today r i s ≤ s + r ∧
    (∀ j, i ≤ j → j < i + (streakLoop ds db today r i s - s) →
      compliant ds db today j = true) ∧
    (streakLoop ds db today r i s < s + r →
      compliant ds db today (i + (streakLoop ds db today r i s - s)) = false) := by
  induction r generalizing i s with
  | zero =>
    refine ⟨le_refl _, le_refl _, ?_, ?_⟩
    · intro j h1 h2
      simp only [streakLoop, Nat.sub_self, Nat.add_zero] at h2
      omega
    · intro h
      simp only [streakLoop, Nat.add_zero, lt_self_iff_false] at h
  | succ r ih =>
    rw [streakLoop_succ]
    cases hc : compliant ds db today i with
    | false =>
      simp only [Bool.false_eq_true, if_false, Nat.sub_self, Nat.add_zero]
      refine ⟨le_refl _, by omega, ?_, fun _ => hc⟩
      intro j h1 h2
      omega
    | true =>
      simp only [if_true]
      obtain ⟨h1, h2, h3, h4⟩ := ih (i + 1) (s + 1)
      refine ⟨by omega, by omega, ?_, ?_⟩
      · intro j hj1 hj2
        by_cases e : j = i
        · rw [e]; exact hc
        · exact h3 j (by omega) (by omega)
      · intro h
        have := h4 (by omega)
        rw [show i + (streakLoop ds db today r (i + 1) (s + 1) - s)
            = i + 1 + (streakLoop ds db today r (i + 1) (s + 1) - (s + 1)) by omega]
        exact this

theorem streakLoop_congr (ds1 ds2 : List (CivilDate × JSNum)) (db : JSNum) (today : CivilDate)
    (r i s : Nat)
    (h : ∀ j, i ≤ j → j < i + r →
      objGet ds1 (setDateBack today j) = objGet ds2 (setDateBack today j)) :
    streakLoop ds1 db today r i s = streakLoop ds2 db today r i s := by
  induction r generalizing i s with
  | zero => rfl
  | succ r ih =>
    rw [streakLoop_succ, streakLoop_succ]
    have e : compliant ds1 db today i = compliant ds2 db today i := by
      simp only [compliant, h i (le_refl i) (by omega)]
    rw [e, ih (i + 1) (s + 1) (fun j h1 h2 => h j (by omega) (by omega))]

/-! ### The daily spend map -/

theorem step_dailySpend (c p : Int × Int) (a : Acc) (t : Transaction) :
    (step c p a t).dailySpend =
      if t.type = .expense ∧ monthKey t.date = c then
        objSet a.dailySpend t.date ((JSNum.orZero (objGet a.dailySpend t.date)).add t.amount)
      else a.dailySpend := by
  rcases t with ⟨ty, amt, cat, d, r⟩
  cases ty <;> cases r <;> simp [step]

theorem accumulate_append (c p : Int × Int) (l : List Transaction) (t : Transaction) :
    accumulate c p (l ++ [t]) = step c p (accumulate c p l) t := by
  simp [accumulate, List.foldl_append]

theorem spendFold_append (l : List JSNum) (v : JSNum) :
    spendFold (l ++ [v]) = some ((JSNum.orZero (spendFold l)).add v) := by
  simp [spendFold, List.foldl_append]

theorem spendEntries_append (c : Int × Int) (l : List Transaction) (t : Transaction)
    (d : CivilDate) :
    spendEntries c (l ++ [t]) d =
      if t.type = .expense ∧ monthKey t.date = c ∧ t.date = d then
        spendEntries c l d ++ [t.amount]
      else spendEntries c l d := by
  unfold spendEntries
  rw [List.filter_append]
  split_ifs with h
  · have : [t].filter
        (fun t => decide (t.type = .expense ∧ monthKey t.date = c ∧ t.date = d)) = [t] := by
      simp only [List.filter, decide_eq_true h]
    rw [this, List.map_append, List.map_singleton]
  · have : [t].filter
        (fun t => decide (t.type = .expense ∧ monthKey t.date = c ∧ t.date = d)) = [] := by
      simp only [List.filter, decide_eq_false h]
    rw [this, List.append_nil]

/-- The entry `dailySpend[d]` after the loop. -/
theorem objGet_dailySpend (c p : Int × Int) (l : List Transaction) (d : CivilDate) :
    objGet (accumulate c p l).dailySpend d = spendFold (spendEntries c l d) := by
  induction l using List.reverseRecOn with
  | nil => rfl
  | append_singleton l t ih =>
    rw [accumulate_append, step_dailySpend, spendEntries_append]
    by_cases h1 : t.type = .expense ∧ monthKey t.date = c
    · rw [if_pos h1, objGet_objSet]
      by_cases h2 : t.date = d
      · rw [if_pos h2, if_pos ⟨h1.1, h1.2, h2⟩, spendFold_append, ← ih, h2]
      · rw [if_neg h2, if_neg (fun hc => h2 hc.2.2), ih]
    · rw [if_neg h1, if_neg (fun hc => h1 ⟨hc.1, hc.2.1⟩), ih]

/-! ### Dates before today -/

theorem monthLength_bounds (y m : Int) : 28 ≤ monthLength y m ∧ monthLength y m ≤ 31 := by
  unfold monthLength
  split_ifs <;> omega

theorem prevDay_ord (c : CivilDate) (hm : 1 ≤ c.month) (hd : 1 ≤ c.day) :
    (prevDay c).ord < c.ord ∧ 1 ≤ (prevDay c).month ∧ 1 ≤ (prevDay c).day := by
  have hb := monthLength_bounds c.year (c.month - 1)
  unfold prevDay
  split_ifs with h1 h2
  · simp only [CivilDate.ord]
    omega
  · simp only [CivilDate.ord]
    omega
  · simp only [CivilDate.ord]
    omega

theorem iterate_prevDay_ord (n : Nat) (c : CivilDate) (hm : 1 ≤ c.month) (hd : 1 ≤ c.day) :
    (prevDay^[n] c).ord + n ≤ c.ord ∧ 1 ≤ (prevDay^[n] c).month ∧ 1 ≤ (prevDay^[n] c).day := by
  induction n generalizing c with
  | zero => simp [hm, hd]
  | succ n ih =>
    rw [Function.iterate_succ_apply]
    obtain ⟨h1, h2, h3⟩ := prevDay_ord c hm hd
    obtain ⟨i1, i2, i3⟩ := ih (prevDay c) h2 h3
    refine ⟨?_, i2, i3⟩
    push_cast
    omega

theorem setDateBack_eq (now : CivilDate) (hv : now.Valid) (i : Nat) :
    setDateBack now i = addDays ⟨now.year, now.month, 1⟩ (now.day - i - 1) := by
  obtain ⟨hm1, hm2, -, -⟩ := hv
  have e1 : (now.month - 1) / 12 = 0 := by omega
  have e2 : (now.month - 1) % 12 + 1 = now.month := by omega
  simp only [setDateBack, makeDay, e1, e2, add_zero]

/-- Offsets below the day of the month stay inside the month. -/
theorem setDateBack_of_lt (now : CivilDate) (hv : now.Valid) (i : Nat) (hi : (i : Int) < now.day) :
    setDateBack now i = ⟨now.year, now.month, now.day - i⟩ := by
  obtain ⟨hm1, hm2, hd1, hd2⟩ := hv
  have := makeDay_in_month now.year now.month (now.day - i) hm1 hm2 (by omega) (by omega)
  simpa [setDateBack] using this

/-- Offsets from the day of the month on leave the month. -/
theorem setDateBack_of_ge (now : CivilDate) (hv : now.Valid) (i : Nat) (hi : now.day ≤ (i : Int)) :
    (setDateBack now i).ord < (CivilDate.mk now.year now.month 1).ord ∧
      1 ≤ (setDateBack now i).day := by
  rw [setDateBack_eq now hv]
  have hneg : ¬ (0 : Int) ≤ now.day - i - 1 := by omega
  simp only [addDays, if_neg hneg]
  obtain ⟨h1, -, h3⟩ := iterate_prevDay_ord (-(now.day - ↑i - 1)).toNat
    ⟨now.year, now.month, 1⟩ hv.1 (le_refl _)
  refine ⟨?_, h3⟩
  have : (1 : Int) ≤ ((-(now.day - ↑i - 1)).toNat : Int) := by
    rw [Int.toNat_of_nonneg (by omega)]
    omega
  omega

theorem setDateBack_ne_self (now : CivilDate) (hv : now.Valid) (i : Nat) (hi : 1 ≤ i) :
    setDateBack now i ≠ now := by
  by_cases h : (i : Int) < now.day
  · rw [setDateBack_of_lt now hv i h]
    intro hc
    have := congrArg CivilDate.day hc
    simp only at this
    omega
  · obtain ⟨h1, -⟩ := setDateBack_of_ge now hv i (by omega)
    intro hc
    rw [hc] at h1
    simp only [CivilDate.ord] at h1
    have := hv.2.2.1
    omega

theorem monthKey_setDateBack_of_ge (now : CivilDate) (hv : now.Valid) (i : Nat)
    (hi : now.day ≤ (i : Int)) : monthKey (setDateBack now i) ≠ monthKey now := by
  obtain ⟨h1, h2⟩ := setDateBack_of_ge now hv i hi
  intro hc
  simp only [monthKey, Prod.mk.injEq] at hc
  simp only [CivilDate.ord, hc.1, hc.2] at h1
  omega

/-! ### Exact daily totals -/

theorem orZero_spendFold (vals : List JSNum) (h : ∀ x ∈ vals, x ≠ JSNum.nan) :
    JSNum.orZero (spendFold vals) = .num (vals.map JSNum.toQ).sum := by
  induction vals using List.reverseRecOn with
  | nil => simp [spendFold, JSNum.orZero]
  | append_singleton l v ih =>
    have hv : v ≠ JSNum.nan := h v (by simp)
    obtain ⟨q, rfl⟩ := (JSNum.ne_nan_iff v).1 hv
    rw [spendFold_append, ih (fun x hx => h x (List.mem_append_left _ hx))]
    simp [JSNum.add, JSNum.orZero_some_num]

theorem spendEntries_ne_nan (c : Int × Int) (l : List Transaction) (d : CivilDate)
    (h : ∀ t ∈ l, t.amount ≠ JSNum.nan) : ∀ x ∈ spendEntries c l d, x ≠ JSNum.nan := by
  intro x hx
  obtain ⟨t, ht, rfl⟩ := List.mem_map.1 hx
  exact h t (List.mem_filter.1 ht).1

theorem spendEntries_sum (c : Int × Int) (l : List Transaction) (d : CivilDate) :
    ((spendEntries c l d).map JSNum.toQ).sum =
      if monthKey d = c then dayExpense l d else 0 := by
  unfold spendEntries dayExpense
  rw [List.map_map]
  split_ifs with h
  · have : l.filter (fun t => decide (t.type = .expense ∧ monthKey t.date = c ∧ t.date = d))
        = l.filter (fun t => decide (t.type = .expense ∧ t.date = d)) := by
      apply List.filter_congr
      intro t _
      by_cases e : t.date = d
      · simp [e, h]
      · simp [e]
    rw [this]
    rfl
  · have : l.filter (fun t => decide (t.type = .expense ∧ monthKey t.date = c ∧ t.date = d))
        = [] := by
      rw [List.filter_eq_nil_iff]
      intro t _
      by_cases e : t.date = d
      · simp [e, h]
      · simp [e]
    rw [this]
    rfl

/-- With exact amounts, the value `dailySpend[d] || 0` read by the streak loop
is the day's expense total when `d` lies in the current month, and `0`
otherwise. -/
theorem spent_eq (c p : Int × Int) (l : List Transaction) (d : CivilDate)
    (h : ∀ t ∈ l, t.amount ≠ JSNum.nan) :
    JSNum.orZero (objGet (accumulate c p l).dailySpend d) =
      .num (if monthKey d = c then dayExpense l d else 0) := by
  rw [objGet_dailySpend, orZero_spendFold _ (spendEntries_ne_nan c l d h), spendEntries_sum]

theorem div_thirty (b : ℚ) : (JSNum.num b).div (.num 30) = .num (b / 30) := by
  simp [JSNum.div]

/-! ### The streak -/

theorem stats_streak (l : List Transaction) (b : JSNum) (now : CivilDate) :
    (stats l b now).streak =
      streakLoop (accumulate (currentMonthStr now) (prevMonthStr now) l).dailySpend
        (b.div (.num 30)) now 29 1 0 := rfl

theorem compliant_accumulate (l : List Transaction) (b : ℚ) (now : CivilDate) (i : Nat)
    (h : ∀ t ∈ l, t.amount ≠ JSNum.nan) :
    compliant (accumulate (currentMonthStr now) (prevMonthStr now) l).dailySpend
        (.num (b / 30)) now i =
      decide ((if monthKey (setDateBack now i) = currentMonthStr now
        then dayExpense l (setDateBack now i) else 0) ≤ b / 30) := by
  simp only [compliant, spent_eq _ _ l _ h, JSNum.le]

theorem objGet_toDailySpend (ds : List (CivilDate × ℚ)) (d : CivilDate) :
    JSNum.orZero (objGet (toDailySpend ds) d) = .num ((objGet ds d).getD 0) := by
  induction ds with
  | nil => rfl
  | cons x xs ih =>
    obtain ⟨k, q⟩ := x
    by_cases h : k = d
    · simp [toDailySpend, objGet, h, JSNum.orZero_some_num]
    · simpa [toDailySpend, objGet, h] using ih

/-- Claim C5 (counterexample). On 2024-03-05 with budget 3000 an expense of
5000 dated ten days earlier (2024-02-24) is the only day over the daily budget
of 100, yet the streak is 29 and not 9: the day lies in the previous month and
is never recorded in `dailySpend`. -/
theorem streak_ignores_previous_month :
    setDateBack ⟨2024, 3, 5⟩ 10 = ⟨2024, 2, 24⟩ ∧
    (3000 : ℚ) / 30 < dayExpense sampleC5Prev (setDateBack ⟨2024, 3, 5⟩ 10) ∧
    (∀ j : Nat, 1 ≤ j → j ≤ 29 → j ≠ 10 →
      dayExpense sampleC5Prev (setDateBack ⟨2024, 3, 5⟩ j) ≤ (3000 : ℚ) / 30) ∧
    (stats sampleC5Prev (.num 3000) ⟨2024, 3, 5⟩).streak = 29 ∧
    (stats sampleC5Prev (.num 3000) ⟨2024, 3, 5⟩).streak ≠ 10 - 1 := by
  have hd : setDateBack ⟨2024, 3, 5⟩ 10 = ⟨2024, 2, 24⟩ := by
    set_option maxRecDepth 100000 in decide
  have hinj : ∀ j : Fin 30, setDateBack ⟨2024, 3, 5⟩ j.val = ⟨2024, 2, 24⟩ → j.val = 10 := by
    set_option maxRecDepth 100000 in decide
  have hday : ∀ d : CivilDate, dayExpense sampleC5Prev d
      = if (⟨2024, 2, 24⟩ : CivilDate) = d then 5000 else 0 := by
    intro d
    by_cases e : (⟨2024, 2, 24⟩ : CivilDate) = d
    · simp [dayExpense, sampleC5Prev, List.filter, e]
    · simp [dayExpense, sampleC5Prev, List.filter, e]
  have hs : (stats sampleC5Prev (.num 3000) ⟨2024, 3, 5⟩).streak = 29 := by
    rw [stats_streak, div_thirty]
    have := streakLoop_eq
      (accumulate (currentMonthStr ⟨2024, 3, 5⟩) (prevMonthStr ⟨2024, 3, 5⟩)
        sampleC5Prev).dailySpend (.num (3000 / 30)) ⟨2024, 3, 5⟩ 29 29 1 0 (le_refl _)
      (fun j _ _ => by
        rw [compliant_accumulate _ _ _ _ (by simp [sampleC5Prev]), hday]
        by_cases e : (⟨2024, 2, 24⟩ : CivilDate) = setDateBack ⟨2024, 3, 5⟩ j
        · rw [← e]
          norm_num [monthKey, currentMonthStr]
        · norm_num [e])
      (fun h => absurd h (lt_irrefl _))
    simpa using this
  refine ⟨hd, ?_, ?_, hs, ?_⟩
  · rw [hd, hday]
    norm_num
  · intro j h1 h2 h3
    rw [hday]
    have hne : ¬ (⟨2024, 2, 24⟩ : CivilDate) = setDateBack ⟨2024, 3, 5⟩ j :=
      fun e => h3 (hinj ⟨j, by omega⟩ e.symm)
    norm_num [hne]
  · rw [hs]
    decide

/-- Claim C5 (amended). Let every amount be a number and the budget positive.
If the date `k` days before the evaluation date lies in the evaluation date's
calendar month, its expense total exceeds `monthlyBudget / 30` and no other
day of the trailing window exceeds it, then the streak is `k - 1`. -/
theorem streak_single_overrun (transactions : List Transaction) (monthlyBudget : ℚ)
    (now : CivilDate) (k : Nat)
    (hnum : ∀ t ∈ transactions, t.amount ≠ JSNum.nan)
    (hb : 0 < monthlyBudget) (hk1 : 1 ≤ k) (hk2 : k ≤ 29)
    (hcur : monthKey (setDateBack now k) = monthKey now)
    (hover : monthlyBudget / 30 < dayExpense transactions (setDateBack now k))
    (hothers : ∀ j : Nat, 1 ≤ j → j ≤ 29 → j ≠ k →
      dayExpense transactions (setDateBack now j) ≤ monthlyBudget / 30) :
    (stats transactions (.num monthlyBudget) now).streak = k - 1 := by
  rw [stats_streak, div_thirty]
  have hpos : (0 : ℚ) ≤ monthlyBudget / 30 := by positivity
  have hcur' : monthKey (setDateBack now k) = currentMonthStr now := hcur
  have := streakLoop_eq
    (accumulate (currentMonthStr now) (prevMonthStr now) transactions).dailySpend
    (.num (monthlyBudget / 30)) now (k - 1) 29 1 0 (by omega)
    (fun j h1 h2 => by
      rw [compliant_accumulate _ _ _ _ hnum, decide_eq_true_iff]
      split_ifs
      · exact hothers j h1 (by omega) (by omega)
      · exact hpos)
    (fun _ => by
      rw [show 1 + (k - 1) = k by omega, compliant_accumulate _ _ _ _ hnum,
        decide_eq_false_iff_not, if_pos hcur', not_le]
      exact hover)
  simpa using this

/-- Claim C6. For an exact spend map the loop returns the largest `k` in
`0..29` whose offsets `1..k` are all within `monthlyBudget / 30` (absent days
count as `0`, equality is compliant); below 29 the next day is over it. -/
theorem streak_characterisation (dailySpend : List (CivilDate × ℚ)) (monthlyBudget : ℚ)
    (today : CivilDate) :
    streakLoop (toDailySpend dailySpend) ((JSNum.num monthlyBudget).div (.num 30)) today 29 1 0
      ≤ 29 ∧
    (∀ i : Nat, 1 ≤ i →
      i ≤ streakLoop (toDailySpend dailySpend) ((JSNum.num monthlyBudget).div (.num 30))
        today 29 1 0 →
      spendAt dailySpend today i ≤ monthlyBudget / 30) ∧
    (streakLoop (toDailySpend dailySpend) ((JSNum.num monthlyBudget).div (.num 30)) today 29 1 0
        < 29 →
      monthlyBudget / 30 < spendAt dailySpend today
        (streakLoop (toDailySpend dailySpend) ((JSNum.num monthlyBudget).div (.num 30))
          today 29 1 0 + 1)) ∧
    (∀ k : Nat, k ≤ 29 →
      (∀ i : Nat, 1 ≤ i → i ≤ k → spendAt dailySpend today i ≤ monthlyBudget / 30) →
      k ≤ streakLoop (toDailySpend dailySpend) ((JSNum.num monthlyBudget).div (.num 30))
        today 29 1 0) := by
  rw [div_thirty]
  have hc : ∀ i, compliant (toDailySpend dailySpend) (.num (monthlyBudget / 30)) today i
      = decide (spendAt dailySpend today i ≤ monthlyBudget / 30) := by
    intro i
    simp only [compliant, objGet_toDailySpend, JSNum.le, spendAt]
  obtain ⟨-, h2, h3, h4⟩ :=
    streakLoop_spec (toDailySpend dailySpend) (.num (monthlyBudget / 30)) today 29 1 0
  have a1 : ∀ i : Nat, 1 ≤ i →
      i ≤ streakLoop (toDailySpend dailySpend) (.num (monthlyBudget / 30)) today 29 1 0 →
      spendAt dailySpend today i ≤ monthlyBudget / 30 := by
    intro i hi1 hi2
    have := h3 i hi1 (by omega)
    rw [hc, decide_eq_true_iff] at this
    exact this
  have a2 : streakLoop (toDailySpend dailySpend) (.num (monthlyBudget / 30)) today 29 1 0 < 29 →
      monthlyBudget / 30 < spendAt dailySpend today
        (streakLoop (toDailySpend dailySpend) (.num (monthlyBudget / 30)) today 29 1 0 + 1) := by
    intro hlt
    have := h4 (by omega)
    rw [hc, decide_eq_false_iff_not, not_le, Nat.sub_zero, Nat.add_comm] at this
    exact this
  refine ⟨by omega, a1, a2, ?_⟩
  intro k hk hall
  by_contra hcon
  have hlt : streakLoop (toDailySpend dailySpend) (.num (monthlyBudget / 30)) today 29 1 0
      < 29 := by omega
  have := hall _ (by omega) (by omega : streakLoop (toDailySpend dailySpend)
    (.num (monthlyBudget / 30)) today 29 1 0 + 1 ≤ k)
  exact absurd (a2 hlt) (not_lt.2 this)

/-- Claim C7. With a positive budget and no expense dated in the trailing
window (offsets 1 to 29), the streak is 29. -/
theorem streak_empty_history (transactions : List Transaction) (monthlyBudget : ℚ)
    (now : CivilDate) (hb : 0 < monthlyBudget)
    (hempty : ∀ t ∈ transactions, t.type = .expense →
      ∀ i : Nat, 1 ≤ i → i ≤ 29 → t.date ≠ setDateBack now i) :
    (stats transactions (.num monthlyBudget) now).streak = 29 := by
  rw [stats_streak, div_thirty]
  have hpos : (0 : ℚ) ≤ monthlyBudget / 30 := by positivity
  have := streakLoop_eq
    (accumulate (currentMonthStr now) (prevMonthStr now) transactions).dailySpend
    (.num (monthlyBudget / 30)) now 29 29 1 0 (le_refl _)
    (fun j h1 h2 => by
      have hnil : spendEntries (currentMonthStr now) transactions (setDateBack now j) = [] := by
        unfold spendEntries
        rw [List.map_eq_nil_iff, List.filter_eq_nil_iff]
        intro t ht
        have := hempty t ht
        simp only [decide_eq_true_eq, not_and]
        intro e1 _
        exact this e1 j h1 (by omega)
      simp only [compliant, objGet_dailySpend, hnil, spendFold, List.foldl_nil, JSNum.orZero,
        JSNum.le, decide_eq_true_eq]
      exact hpos)
    (fun h => absurd h (lt_irrefl _))
  simpa using this

/-- Claim C8. Two transaction lists that agree on all transactions not dated
on the evaluation date give the same streak. -/
theorem streak_independent_of_today (transactions₁ transactions₂ : List Transaction)
    (monthlyBudget : JSNum) (now : CivilDate) (hv : now.Valid)
    (h : transactions₁.filter (fun t => decide (t.date ≠ now))
      = transactions₂.filter (fun t => decide (t.date ≠ now))) :
    (stats transactions₁ monthlyBudget now).streak
      = (stats transactions₂ monthlyBudget now).streak := by
  have key : ∀ (l : List Transaction) (d : CivilDate), d ≠ now →
      spendEntries (currentMonthStr now) l d
        = spendEntries (currentMonthStr now) (l.filter (fun t => decide (t.date ≠ now))) d := by
    intro l d hd
    unfold spendEntries
    rw [List.filter_filter]
    congr 1
    apply List.filter_congr
    intro t _
    by_cases e : t.date = d
    · simp [e, hd]
    · simp [e]
  rw [stats_streak, stats_streak]
  apply streakLoop_congr
  intro j h1 _
  have hne := setDateBack_ne_self now hv j h1
  rw [objGet_dailySpend, objGet_dailySpend, key _ _ hne, key transactions₂ _ hne, h]

theorem streak_single_overrun_witness :
    (0 : ℚ) < 3000 ∧
    monthKey (setDateBack ⟨2024, 3, 15⟩ 3) = monthKey ⟨2024, 3, 15⟩ ∧
    (3000 : ℚ) / 30 < dayExpense sampleC5 (setDateBack ⟨2024, 3, 15⟩ 3) ∧
    (stats sampleC5 (.num 3000) ⟨2024, 3, 15⟩).streak = 3 - 1 := by
  have hd : setDateBack ⟨2024, 3, 15⟩ 3 = ⟨2024, 3, 12⟩ := by
    set_option maxRecDepth 100000 in decide
  have hinj : ∀ j : Fin 30, setDateBack ⟨2024, 3, 15⟩ j.val = ⟨2024, 3, 12⟩ → j.val = 3 := by
    set_option maxRecDepth 100000 in decide
  have hday : ∀ d : CivilDate, dayExpense sampleC5 d
      = if (⟨2024, 3, 12⟩ : CivilDate) = d then 500 else 0 := by
    intro d
    by_cases e : (⟨2024, 3, 12⟩ : CivilDate) = d
    · simp [dayExpense, sampleC5, List.filter, e]
    · simp [dayExpense, sampleC5, List.filter, e]
  have hcur : monthKey (setDateBack ⟨2024, 3, 15⟩ 3) = monthKey ⟨2024, 3, 15⟩ := by
    rw [hd]
    rfl
  have hover : (3000 : ℚ) / 30 < dayExpense sampleC5 (setDateBack ⟨2024, 3, 15⟩ 3) := by
    rw [hd, hday]
    norm_num
  exact ⟨by norm_num, hcur, hover,
    streak_single_overrun sampleC5 3000 ⟨2024, 3, 15⟩ 3 (by simp [sampleC5]) (by norm_num)
      (by decide) (by decide) hcur hover
      (fun j h1 h2 h3 => by
        rw [hday]
        have hne : ¬ (⟨2024, 3, 12⟩ : CivilDate) = setDateBack ⟨2024, 3, 15⟩ j :=
          fun e => h3 (hinj ⟨j, by omega⟩ e.symm)
        norm_num [hne])⟩

theorem streak_empty_history_witness :
    (0 : ℚ) < 3000 ∧ (stats sampleC7 (.num 3000) ⟨2024, 3, 15⟩).streak = 29 :=
  ⟨by norm_num,
    streak_empty_history sampleC7 3000 ⟨2024, 3, 15⟩ (by norm_num)
      (fun t ht hty i h1 _ => by
        simp only [sampleC7, List.mem_cons, List.mem_singleton, List.not_mem_nil, or_false] at ht
        rcases ht with rfl | rfl
        · exact absurd hty (by decide)
        · exact (setDateBack_ne_self ⟨2024, 3, 15⟩ (by decide) i h1).symm)⟩

theorem streak_independent_of_today_witness :
    (CivilDate.mk 2024 3 15).Valid ∧
    (stats sampleC8 (.num 3000) ⟨2024, 3, 15⟩).streak
      = (stats sampleC8Other (.num 3000) ⟨2024, 3, 15⟩).streak :=
  ⟨by decide,
    streak_independent_of_today sampleC8 sampleC8Other (.num 3000) ⟨2024, 3, 15⟩ (by decide)
      (by simp [sampleC8, sampleC8Other, List.filter])⟩

/-! ### Trend -/

theorem calcTrend_num (c p : ℚ) :
    calcTrend (.num c) (.num p) =
      if p = 0 then (if 0 < c then .num 100 else .num 0)
      else .num (⌊(c - p) / p * 100 + 1 / 2⌋ : ℤ) := by
  unfold calcTrend
  by_cases hp : p = 0
  · by_cases hc : 0 < c
    · simp [JSNum.isZero, JSNum.gt, hp, hc]
    · simp [JSNum.isZero, JSNum.gt, hp, hc]
  · simp [JSNum.isZero, JSNum.sub, JSNum.div, JSNum.mul, JSNum.round, hp]

/-- Claim C9. On numbers `calcTrend` is 100 for `previous = 0 < current`, 0 for
`previous = 0` and `current <= 0`, and otherwise an integer within one half of
`(current - previous) / previous * 100`; the four sample values hold, and the
two trends of `stats` are `calcTrend` of the month sub-totals. -/
theorem calcTrend_spec (current previous : ℚ) (transactions : List Transaction)
    (monthlyBudget : JSNum) (now : CivilDate) :
    (previous = 0 → 0 < current → calcTrend (.num current) (.num previous) = .num 100) ∧
    (previous = 0 → current ≤ 0 → calcTrend (.num current) (.num previous) = .num 0) ∧
    (previous ≠ 0 → ∃ n : ℤ, calcTrend (.num current) (.num previous) = .num n ∧
      |(n : ℚ) - (current - previous) / previous * 100| ≤ 1 / 2) ∧
    calcTrend (.num 0) (.num 0) = .num 0 ∧
    calcTrend (.num 100) (.num 0) = .num 100 ∧
    calcTrend (.num 80) (.num 100) = .num (-20) ∧
    calcTrend (.num 150) (.num 100) = .num 50 ∧
    (stats transactions monthlyBudget now).incomeTrend =
      calcTrend
        (accumulate (currentMonthStr now) (prevMonthStr now) transactions).currentMonthIncome
        (accumulate (currentMonthStr now) (prevMonthStr now) transactions).prevMonthIncome ∧
    (stats transactions monthlyBudget now).expenseTrend =
      calcTrend
        (accumulate (currentMonthStr now) (prevMonthStr now) transactions).currentMonthExpense
        (accumulate (currentMonthStr now) (prevMonthStr now) transactions).prevMonthExpense := by
  refine ⟨?_, ?_, ?_, ?_, ?_, ?_, ?_, rfl, rfl⟩
  · intro hp hc
    rw [calcTrend_num, if_pos hp, if_pos hc]
  · intro hp hc
    rw [calcTrend_num, if_pos hp, if_neg (not_lt.2 hc)]
  · intro hp
    refine ⟨⌊(current - previous) / previous * 100 + 1 / 2⌋, ?_, ?_⟩
    · rw [calcTrend_num, if_neg hp]
    · have h1 := Int.floor_le ((current - previous) / previous * 100 + 1 / 2)
      have h2 := Int.lt_floor_add_one ((current - previous) / previous * 100 + 1 / 2)
      rw [abs_le]
      constructor <;> linarith
  · rw [calcTrend_num]
    norm_num
  · rw [calcTrend_num]
    norm_num
  · rw [calcTrend_num]
    have : ⌊((80 : ℚ) - 100) / 100 * 100 + 1 / 2⌋ = -20 := by
      rw [Int.floor_eq_iff]
      norm_num
    norm_num [this]
  · rw [calcTrend_num]
    have : ⌊((150 : ℚ) - 100) / 100 * 100 + 1 / 2⌋ = 50 := by
      rw [Int.floor_eq_iff]
      norm_num
    norm_num [this]

/-! ### The loan calculator at its default inputs -/

theorem emi_default :
    (emiCalculator (.num 500000) (.num (19 / 2)) (.num 5)).emi = .num defaultEmi := by
  have h60 : Int.toNat 60 = 60 := rfl
  simp only [emiCalculator, JSNum.orZero_some_num, JSNum.gt, JSNum.div, JSNum.mul, JSNum.add,
    JSNum.sub, JSNum.pow]
  norm_num [defaultEmi, h60]

/-- Claim C10 (counterexample). For 500000, 9.5 and 5 the instalment is below
10511, so it is not within 1 of 10512. -/
theorem emi_default_not_near_10512 :
    ¬ ∃ e : ℚ, (emiCalculator (.num 500000) (.num (19 / 2)) (.num 5)).emi = .num e ∧
      10511 ≤ e ∧ e ≤ 10513 := by
  rintro ⟨e, h1, h2, -⟩
  rw [emi_default] at h1
  injection h1 with h1
  rw [← h1] at h2
  norm_num [defaultEmi] at h2

/-- Claim C10 (amended). For 500000, 9.5 and 5 the instalment is within 1 of
10501. -/
theorem emi_default_near_10501 :
    ∃ e : ℚ, (emiCalculator (.num 500000) (.num (19 / 2)) (.num 5)).emi = .num e ∧
      10500 ≤ e ∧ e ≤ 10502 := by
  refine ⟨defaultEmi, emi_default, ?_, ?_⟩
  · norm_num [defaultEmi]
  · norm_num [defaultEmi]

/-! ### The loan calculator in general -/

theorem JSNum.pow_natCast (b : ℚ) (m : ℕ) :
    (JSNum.num b).pow (.num (m : ℚ)) = .num (b ^ m) := by
  simp [JSNum.pow]

theorem one_lt_growth (rate : ℚ) (m : ℕ) (hr : 0 < rate) (hm : 0 < m) :
    1 < (1 + rate / (12 * 100)) ^ m := by
  have h1 : (1 : ℚ) < 1 + rate / (12 * 100) := by
    have : 0 < rate / (12 * 100) := by positivity
    linarith
  exact one_lt_pow₀ h1 (Nat.pos_iff_ne_zero.1 hm)

theorem months_pos (years : ℚ) (m : ℕ) (hy : 0 < years) (hm : years * 12 = m) : 0 < m := by
  have h : (0 : ℚ) < (m : ℚ) := by rw [← hm]; positivity
  exact_mod_cast h

/-- The result of the calculator on positive numbers with a whole number of
months. -/
theorem emiCalculator_num (principal rate years : ℚ) (m : ℕ) (hp : 0 < principal)
    (hr : 0 < rate) (hy : 0 < years) (hm : years * 12 = m) :
    (emiCalculator (.num principal) (.num rate) (.num years)).emi
        = .num (emiFormula principal rate m) ∧
    (emiCalculator (.num principal) (.num rate) (.num years)).totalAmount
        = .num (emiFormula principal rate m * m) ∧
    (emiCalculator (.num principal) (.num rate) (.num years)).totalInterest
        = .num (emiFormula principal rate m * m - principal) := by
  have hg := one_lt_growth rate m hr (months_pos years m hy hm)
  have h1200 : (12 : ℚ) * 100 ≠ 0 := by norm_num
  have e1200 : rate / (12 * 100) = rate / 1200 := by norm_num
  rw [e1200] at hg
  have hne : (1 + rate / 1200) ^ m - 1 ≠ 0 := by linarith
  simp only [emiCalculator, JSNum.orZero_some_num, JSNum.gt, hp, hr, hy, decide_True,
    Bool.and_self, if_true, JSNum.div, JSNum.mul, JSNum.add, JSNum.sub, if_neg h1200, hm,
    JSNum.pow_natCast, emiFormula, e1200, if_neg hne]
  exact ⟨trivial, trivial, trivial⟩

/-- Claim C11. For positive principal, rate and years with `years * 12 = m`
months, the calculator returns the closed form `principal * i * (1+i)^m /
((1+i)^m - 1)` with `i = rate / 1200`, the total `emi * m` and the interest
`total - principal`. -/
theorem emi_closed_form (principal rate years : ℚ) (m : ℕ) (hp : 0 < principal)
    (hr : 0 < rate) (hy : 0 < years) (hm : years * 12 = m) :
    (emiCalculator (.num principal) (.num rate) (.num years)).emi
        = .num (emiFormula principal rate m) ∧
    (emiCalculator (.num principal) (.num rate) (.num years)).totalAmount
        = .num (emiFormula principal rate m * m) ∧
    (emiCalculator (.num principal) (.num rate) (.num years)).totalInterest
        = .num (emiFormula principal rate m * m - principal) ∧
    (emiCalculator (.num principal) (.num rate) (.num years)).totalInterest
        = ((emiCalculator (.num principal) (.num rate) (.num years)).totalAmount).sub
            (.num principal) := by
  obtain ⟨h1, h2, h3⟩ := emiCalculator_num principal rate years m hp hr hy hm
  refine ⟨h1, h2, h3, ?_⟩
  rw [h2, h3]
  rfl

theorem emi_closed_form_witness :
    (emiCalculator (.num 200000) (.num 12) (.num 2)).emi = .num (emiFormula 200000 12 24) ∧
    (emiCalculator (.num 200000) (.num 12) (.num 2)).totalAmount
        = .num (emiFormula 200000 12 24 * (24 : ℕ)) ∧
    (emiCalculator (.num 200000) (.num 12) (.num 2)).totalInterest
        = .num (emiFormula 200000 12 24 * (24 : ℕ) - 200000) ∧
    (emiCalculator (.num 200000) (.num 12) (.num 2)).totalInterest
        = ((emiCalculator (.num 200000) (.num 12) (.num 2)).totalAmount).sub (.num 200000) :=
  emi_closed_form 200000 12 2 24 (by norm_num) (by norm_num) (by norm_num) (by norm_num)

theorem guard_of_notPositive (x : JSNum) (h : x.notPositive) :
    (JSNum.orZero (some x)).gt (.num 0) = false := by
  cases x with
  | nan => simp [JSNum.orZero, JSNum.gt]
  | num q =>
    have hq : ¬ (0 : ℚ) < q := not_lt.2 h
    simp [JSNum.orZero_some_num, JSNum.gt, hq]

theorem emiCalculator_of_guard_false (principal rate years : JSNum)
    (h : ((JSNum.orZero (some principal)).gt (.num 0) &&
      (JSNum.orZero (some rate)).gt (.num 0) &&
      (JSNum.orZero (some years)).gt (.num 0)) = false) :
    emiCalculator principal rate years
      = { emi := .num 0, totalAmount := .num 0, totalInterest := .num 0 } := by
  simp only [emiCalculator, h, Bool.false_eq_true, if_false]

/-- Claim C12. If the principal, the rate or the years is `NaN` or not
positive, the three outputs are `0`; the calculator is a total function, so
nothing is raised. -/
theorem emi_zero_of_invalid (principal rate years : JSNum)
    (h : principal.notPositive ∨ rate.notPositive ∨ years.notPositive) :
    (emiCalculator principal rate years).emi = .num 0 ∧
    (emiCalculator principal rate years).totalAmount = .num 0 ∧
    (emiCalculator principal rate years).totalInterest = .num 0 := by
  have hg : ((JSNum.orZero (some principal)).gt (.num 0) &&
      (JSNum.orZero (some rate)).gt (.num 0) &&
      (JSNum.orZero (some years)).gt (.num 0)) = false := by
    rcases h with h | h | h
    · simp [guard_of_notPositive _ h]
    · simp [guard_of_notPositive _ h]
    · simp [guard_of_notPositive _ h]
  rw [emiCalculator_of_guard_false _ _ _ hg]
  exact ⟨rfl, rfl, rfl⟩

theorem emi_zero_of_invalid_witness :
    ((emiCalculator (.num 500000) (.num 0) (.num 5)).emi = .num 0 ∧
      (emiCalculator (.num 500000) (.num 0) (.num 5)).totalAmount = .num 0 ∧
      (emiCalculator (.num 500000) (.num 0) (.num 5)).totalInterest = .num 0) ∧
    ((emiCalculator (.num 500000) (.num (19 / 2)) (.num 0)).emi = .num 0 ∧
      (emiCalculator (.num 500000) (.num (19 / 2)) (.num 0)).totalAmount = .num 0 ∧
      (emiCalculator (.num 500000) (.num (19 / 2)) (.num 0)).totalInterest = .num 0) ∧
    ((emiCalculator .nan (.num (19 / 2)) (.num 5)).emi = .num 0 ∧
      (emiCalculator .nan (.num (19 / 2)) (.num 5)).totalAmount = .num 0 ∧
      (emiCalculator .nan (.num (19 / 2)) (.num 5)).totalInterest = .num 0) :=
  ⟨emi_zero_of_invalid (.num 500000) (.num 0) (.num 5) (Or.inr (Or.inl (le_refl (0 : ℚ)))),
    emi_zero_of_invalid (.num 500000) (.num (19 / 2)) (.num 0)
      (Or.inr (Or.inr (le_refl (0 : ℚ)))),
    emi_zero_of_invalid .nan (.num (19 / 2)) (.num 5) (Or.inl trivial)⟩

theorem divChecked_of_ne (a b : JSNum) (h : b ≠ .num 0) :
    a.divChecked b = some (a.div b) := by
  simp [JSNum.divChecked, h]

theorem pow_sub_one_ne_zero (b e : JSNum) (hb : ∀ q, b = .num q → 1 < q)
    (he : ∀ q, e = .num q → 0 < q) : (b.pow e).sub (.num 1) ≠ .num 0 := by
  cases b with
  | nan => simp [JSNum.pow, JSNum.sub]
  | num x =>
    cases e with
    | nan => simp [JSNum.pow, JSNum.sub]
    | num y =>
      have hx := hb x rfl
      have hy := he y rfl
      by_cases hw : y.den = 1 ∧ 0 ≤ y.num
      · have hn : y.num.toNat ≠ 0 := by
          have : 0 < y.num := Rat.num_pos.2 hy
          omega
        have := one_lt_pow₀ hx hn
        simp only [JSNum.pow, if_pos hw, JSNum.sub, ne_eq, JSNum.num.injEq]
        linarith
      · simp only [JSNum.pow, if_neg hw, JSNum.sub]
        intro h
        cases h

/-- With exact arithmetic and every division checked, `calcTrend` and the loan
calculator never meet a zero divisor and return what the unchecked code
returns; for positive inputs with a whole number of months the divisor of the
instalment is a positive number. -/
theorem divisions_checked (curr prev principal rate years : JSNum) (r y : ℚ) (m : ℕ) :
    calcTrendChecked curr prev = some (calcTrend curr prev) ∧
    emiCalculatorChecked principal rate years = some (emiCalculator principal rate years) ∧
    (0 < r → 0 < y → y * 12 = m →
      ∃ d : ℚ, emiDenominator (.num r) (.num y) = .num d ∧ 0 < d ∧
        d = (1 + r / 1200) ^ (12 * y).num.toNat - 1) := by
  refine ⟨?_, ?_, ?_⟩
  · unfold calcTrendChecked calcTrend
    cases hz : prev.isZero with
    | true => simp
    | false =>
      have hne : prev ≠ .num 0 := by
        intro e
        rw [e] at hz
        simp [JSNum.isZero] at hz
      simp [divChecked_of_ne _ _ hne]
  · cases hg : ((JSNum.orZero (some principal)).gt (.num 0) &&
        (JSNum.orZero (some rate)).gt (.num 0) &&
        (JSNum.orZero (some years)).gt (.num 0)) with
    | false =>
      rw [emiCalculator_of_guard_false _ _ _ hg]
      simp only [emiCalculatorChecked, hg, Bool.false_eq_true, if_false]
    | true =>
      have hg' := hg
      simp only [Bool.and_eq_true] at hg'
      obtain ⟨⟨-, hr⟩, hn⟩ := hg'
      have h1200 : JSNum.num (12 * 100) ≠ .num 0 := by
        simp
      have hden : ((((JSNum.num 1).add ((JSNum.orZero (some rate)).div (.num (12 * 100)))).pow
          ((JSNum.orZero (some years)).mul (.num 12))).sub (.num 1)) ≠ .num 0 := by
        apply pow_sub_one_ne_zero
        · intro q hq
          cases hr' : JSNum.orZero (some rate) with
          | nan => rw [hr'] at hr; simp [JSNum.gt] at hr
          | num x =>
            rw [hr'] at hr hq
            simp only [JSNum.gt, decide_eq_true_eq] at hr
            have hx : (0 : ℚ) < x / (12 * 100) := by positivity
            have e : (JSNum.num x).div (.num (12 * 100)) = .num (x / (12 * 100)) := by
              simp [JSNum.div]
            rw [e] at hq
            simp only [JSNum.add] at hq
            injection hq with hq
            linarith
        · intro q hq
          cases hn' : JSNum.orZero (some years) with
          | nan => rw [hn'] at hn; simp [JSNum.gt] at hn
          | num x =>
            rw [hn'] at hn hq
            simp only [JSNum.gt, decide_eq_true_eq] at hn
            simp only [JSNum.mul] at hq
            injection hq with hq
            rw [← hq]
            positivity
      simp only [emiCalculatorChecked, emiCalculator, hg, if_true, divChecked_of_ne _ _ h1200,
        Option.some_bind, divChecked_of_ne _ _ hden, Option.map_some']
  · intro hr hy hm
    have hg := one_lt_growth r m hr (months_pos y m hy hm)
    have e1200 : r / (12 * 100) = r / 1200 := by norm_num
    rw [e1200] at hg
    have hm' : 12 * y = (m : ℚ) := by rw [← hm]; ring
    refine ⟨(1 + r / 1200) ^ m - 1, ?_, by linarith, ?_⟩
    · have h1200 : (12 : ℚ) * 100 ≠ 0 := by norm_num
      simp only [emiDenominator, JSNum.div, if_neg h1200, JSNum.add, JSNum.mul, hm,
        JSNum.pow_natCast, JSNum.sub, e1200]
    · rw [hm', Rat.num_natCast, Int.toNat_natCast]

/-- Claim C13 (amended). With exact arithmetic, `calcTrend` never divides by
zero, and for a whole number of years the loan calculator never does: with
every division checked both return what the unchecked code returns, and for a
positive rate and at least one year the divisor `(1 + rate/1200)^(12*years) - 1`
of the instalment is a positive number. -/
theorem no_zero_divisor (curr prev principal rate : JSNum) (years : ℕ) (r : ℚ) :
    calcTrendChecked curr prev = some (calcTrend curr prev) ∧
    emiCalculatorChecked principal rate (.num years)
      = some (emiCalculator principal rate (.num years)) ∧
    (0 < r → 0 < years →
      ∃ d : ℚ, emiDenominator (.num r) (.num years) = .num d ∧ 0 < d ∧
        d = (1 + r / 1200) ^ (12 * years) - 1) := by
  obtain ⟨h1, h2, h3⟩ :=
    divisions_checked curr prev principal rate (.num years) r years (years * 12)
  refine ⟨h1, h2, ?_⟩
  intro hr hy
  obtain ⟨d, hd1, hd2, hd3⟩ := h3 hr (by exact_mod_cast hy) (by push_cast; ring)
  refine ⟨d, hd1, hd2, ?_⟩
  rw [hd3]
  have e : (12 * (years : ℚ)) = ((12 * years : ℕ) : ℚ) := by
    push_cast
    ring
  rw [e, Rat.num_natCast, Int.toNat_natCast]

/-! ### Goal progress and budget gauge -/

theorem goalPercent_num (c t : ℚ) (ht : t ≠ 0) :
    goalPercent ⟨.num t, .num c⟩ = .num (Min.min (c / t * 100) 100) := by
  simp [goalPercent, JSNum.div, JSNum.mul, JSNum.min, ht]

theorem budgetProgress_num (e b : ℚ) (hb : b ≠ 0) :
    budgetProgress (.num e) (.num b) = .num (Min.min (e / b * 100) 100) := by
  simp [budgetProgress, JSNum.div, JSNum.mul, JSNum.min, hb]

theorem clamp_of_nonneg (x : ℚ) (hx : 0 ≤ x) : clamp x 0 100 = Min.min x 100 := by
  unfold clamp
  exact max_eq_right (le_min hx (by norm_num))

/-- Claim C17. For a positive target and a non-negative current amount the
percent is `clamp(current / target * 100, 0, 100)`, hence within 0 and 100; a
goal at its target, or at one and a half times its target, shows 100 and is
completed. -/
theorem goal_percent_clamped (currentAmount targetAmount : ℚ) (ht : 0 < targetAmount)
    (hc : 0 ≤ currentAmount) :
    goalPercent ⟨.num targetAmount, .num currentAmount⟩
      = .num (clamp (currentAmount / targetAmount * 100) 0 100) ∧
    0 ≤ clamp (currentAmount / targetAmount * 100) 0 100 ∧
    clamp (currentAmount / targetAmount * 100) 0 100 ≤ 100 ∧
    goalPercent ⟨.num targetAmount, .num targetAmount⟩ = .num 100 ∧
    goalIsCompleted ⟨.num targetAmount, .num targetAmount⟩ = true ∧
    goalPercent ⟨.num targetAmount, .num (1.5 * targetAmount)⟩ = .num 100 ∧
    goalIsCompleted ⟨.num targetAmount, .num (1.5 * targetAmount)⟩ = true := by
  have hne : targetAmount ≠ 0 := ne_of_gt ht
  have hx : 0 ≤ currentAmount / targetAmount * 100 := by positivity
  have h1 : targetAmount / targetAmount * 100 = 100 := by
    rw [div_self hne]
    norm_num
  have h2 : 1.5 * targetAmount / targetAmount * 100 = 150 := by
    rw [mul_div_assoc, div_self hne]
    norm_num
  have p1 : goalPercent ⟨.num targetAmount, .num targetAmount⟩ = .num 100 := by
    rw [goalPercent_num _ _ hne, h1, min_self]
  have p2 : goalPercent ⟨.num targetAmount, .num (1.5 * targetAmount)⟩ = .num 100 := by
    rw [goalPercent_num _ _ hne, h2]
    norm_num
  refine ⟨?_, ?_, ?_, p1, ?_, p2, ?_⟩
  · rw [goalPercent_num _ _ hne, clamp_of_nonneg _ hx]
  · rw [clamp_of_nonneg _ hx]
    exact le_min hx (by norm_num)
  · rw [clamp_of_nonneg _ hx]
    exact min_le_right _ _
  · simp [goalIsCompleted, p1, JSNum.ge]
  · simp [goalIsCompleted, p2, JSNum.ge]

theorem goal_percent_clamped_witness :
    goalPercent ⟨.num 4000, .num 1000⟩ = .num (clamp (1000 / 4000 * 100) 0 100) ∧
    0 ≤ clamp ((1000 : ℚ) / 4000 * 100) 0 100 ∧
    clamp ((1000 : ℚ) / 4000 * 100) 0 100 ≤ 100 ∧
    goalPercent ⟨.num 4000, .num 4000⟩ = .num 100 ∧
    goalIsCompleted ⟨.num 4000, .num 4000⟩ = true ∧
    goalPercent ⟨.num 4000, .num (1.5 * 4000)⟩ = .num 100 ∧
    goalIsCompleted ⟨.num 4000, .num (1.5 * 4000)⟩ = true :=
  goal_percent_clamped 1000 4000 (by norm_num) (by norm_num)

/-- Claim C18. For a positive target, `isCompleted` computed from the clamped
percent holds exactly when the unclamped ratio is at least `1`. -/
theorem goal_completed_iff_ratio (currentAmount targetAmount : ℚ) (ht : 0 < targetAmount) :
    goalIsCompleted ⟨.num targetAmount, .num currentAmount⟩ = true
      ↔ completedByRatio currentAmount targetAmount := by
  have hne : targetAmount ≠ 0 := ne_of_gt ht
  simp only [goalIsCompleted, goalPercent_num _ _ hne, JSNum.ge, decide_eq_true_eq,
    completedByRatio, le_min_iff, le_refl, and_true]
  constructor
  · intro h
    linarith
  · intro h
    linarith

theorem goal_completed_iff_ratio_witness :
    (goalIsCompleted ⟨.num 4000, .num 5000⟩ = true ↔ completedByRatio 5000 4000) ∧
    (goalIsCompleted ⟨.num 4000, .num 3999⟩ = true ↔ completedByRatio 3999 4000) :=
  ⟨goal_completed_iff_ratio 5000 4000 (by norm_num),
    goal_completed_iff_ratio 3999 4000 (by norm_num)⟩

/-- Claim C19. For a non-negative month expense and a positive budget the
progress is `clamp(expense / budget * 100, 0, 100)`; the colour is critical
exactly above 90, warning exactly in `(70, 90]` and healthy exactly up to
70. -/
theorem budget_gauge (currentMonthExpense monthlyBudget : ℚ) (he : 0 ≤ currentMonthExpense)
    (hb : 0 < monthlyBudget) :
    budgetProgress (.num currentMonthExpense) (.num monthlyBudget)
      = .num (clamp (currentMonthExpense / monthlyBudget * 100) 0 100) ∧
    (budgetColor (budgetProgress (.num currentMonthExpense) (.num monthlyBudget)) = "bg-rose-500"
      ↔ 90 < clamp (currentMonthExpense / monthlyBudget * 100) 0 100) ∧
    (budgetColor (budgetProgress (.num currentMonthExpense) (.num monthlyBudget))
        = "bg-yellow-500"
      ↔ 70 < clamp (currentMonthExpense / monthlyBudget * 100) 0 100 ∧
        clamp (currentMonthExpense / monthlyBudget * 100) 0 100 ≤ 90) ∧
    (budgetColor (budgetProgress (.num currentMonthExpense) (.num monthlyBudget))
        = "bg-emerald-500"
      ↔ clamp (currentMonthExpense / monthlyBudget * 100) 0 100 ≤ 70) ∧
    budgetColor (.num 90) = "bg-yellow-500" ∧
    budgetColor (.num 70) = "bg-emerald-500" := by
  have hne : monthlyBudget ≠ 0 := ne_of_gt hb
  have hx : 0 ≤ currentMonthExpense / monthlyBudget * 100 := by positivity
  have hp : budgetProgress (.num currentMonthExpense) (.num monthlyBudget)
      = .num (clamp (currentMonthExpense / monthlyBudget * 100) 0 100) := by
    rw [budgetProgress_num _ _ hne, clamp_of_nonneg _ hx]
  rw [hp]
  generalize clamp (currentMonthExpense / monthlyBudget * 100) 0 100 = x
  refine ⟨rfl, ?_, ?_, ?_, ?_, ?_⟩
  · by_cases h1 : (90 : ℚ) < x
    · simp [budgetColor, JSNum.gt, h1]
    · by_cases h2 : (70 : ℚ) < x
      · simp [budgetColor, JSNum.gt, h1, h2]
      · simp [budgetColor, JSNum.gt, h1, h2]
  · by_cases h1 : (90 : ℚ) < x
    · have : ¬ x ≤ 90 := not_le.2 h1
      simp [budgetColor, JSNum.gt, h1, this]
    · by_cases h2 : (70 : ℚ) < x
      · simp [budgetColor, JSNum.gt, h1, h2, not_lt.1 h1]
      · simp [budgetColor, JSNum.gt, h1, h2]
  · by_cases h1 : (90 : ℚ) < x
    · have : ¬ x ≤ 70 := by
        intro h
        linarith
      simp [budgetColor, JSNum.gt, h1, this]
    · by_cases h2 : (70 : ℚ) < x
      · simp [budgetColor, JSNum.gt, h1, h2]
      · simp [budgetColor, JSNum.gt, h1, h2, not_lt.1 h2]
  · norm_num [budgetColor, JSNum.gt]
  · norm_num [budgetColor, JSNum.gt]

theorem budget_gauge_witness :
    budgetProgress (.num 18500) (.num 20000) = .num (clamp (18500 / 20000 * 100) 0 100) ∧
    (budgetColor (budgetProgress (.num 18500) (.num 20000)) = "bg-rose-500"
      ↔ 90 < clamp ((18500 : ℚ) / 20000 * 100) 0 100) ∧
    (budgetColor (budgetProgress (.num 18500) (.num 20000)) = "bg-yellow-500"
      ↔ 70 < clamp ((18500 : ℚ) / 20000 * 100) 0 100 ∧
        clamp ((18500 : ℚ) / 20000 * 100) 0 100 ≤ 90) ∧
    (budgetColor (budgetProgress (.num 18500) (.num 20000)) = "bg-emerald-500"
      ↔ clamp ((18500 : ℚ) / 20000 * 100) 0 100 ≤ 70) ∧
    budgetColor (.num 90) = "bg-yellow-500" ∧
    budgetColor (.num 70) = "bg-emerald-500" :=
  budget_gauge 18500 20000 (by norm_num) (by norm_num)

/-! ### The spending calendar -/

/-- In the zone UTC the local date is the date itself. -/
@[simp] theorem localDate_utc (d : CivilDate) : localDate (utc d) d = d := by
  simp [localDate, utc, addDays]

theorem spendingMapOf_append (zone : CivilDate → Int) (l : List Transaction) (t : Transaction)
    (y m : Int) :
    spendingMapOf zone (l ++ [t]) y m = spendingMapStep zone y m (spendingMapOf zone l y m) t := by
  simp [spendingMapOf, List.foldl_append]

theorem heatEntries_append (zone : CivilDate → Int) (y m : Int) (l : List Transaction)
    (t : Transaction) (d : Int) :
    heatEntries zone y m (l ++ [t]) d =
      if t.type = .expense ∧
          ((localDate (zone t.date) t.date).month - 1 = m ∧
            (localDate (zone t.date) t.date).year = y) ∧
          (localDate (zone t.date) t.date).day = d then
        heatEntries zone y m l d ++ [t.amount]
      else heatEntries zone y m l d := by
  unfold heatEntries
  rw [List.filter_append]
  split_ifs with h
  · have : [t].filter (fun t => decide (t.type = .expense ∧
        ((localDate (zone t.date) t.date).month - 1 = m ∧
          (localDate (zone t.date) t.date).year = y) ∧
        (localDate (zone t.date) t.date).day = d)) = [t] := by
      simp only [List.filter, decide_eq_true h]
    rw [this, List.map_append, List.map_singleton]
  · have : [t].filter (fun t => decide (t.type = .expense ∧
        ((localDate (zone t.date) t.date).month - 1 = m ∧
          (localDate (zone t.date) t.date).year = y) ∧
        (localDate (zone t.date) t.date).day = d)) = [] := by
      simp only [List.filter, decide_eq_false h]
    rw [this, List.append_nil]

/-- The entry `spendingMap[d]` after the loop. -/
theorem objGet_spendingMap (zone : CivilDate → Int) (y m : Int) (l : List Transaction) (d : Int) :
    objGet (spendingMapOf zone l y m) d = spendFold (heatEntries zone y m l d) := by
  induction l using List.reverseRecOn with
  | nil => rfl
  | append_singleton l t ih =>
    rw [spendingMapOf_append zone, heatEntries_append zone]
    unfold spendingMapStep
    by_cases h1 : t.type = .expense
    · by_cases h2 : (localDate (zone t.date) t.date).month - 1 = m ∧
          (localDate (zone t.date) t.date).year = y
      · rw [if_pos h1, if_pos h2, objGet_objSet]
        by_cases h3 : (localDate (zone t.date) t.date).day = d
        · rw [if_pos h3, if_pos ⟨h1, h2, h3⟩, spendFold_append, ← ih, h3]
        · rw [if_neg h3, if_neg (fun hc => h3 hc.2.2), ih]
      · rw [if_pos h1, if_neg h2, if_neg (fun hc => h2 hc.2.1), ih]
    · rw [if_neg h1, if_neg (fun hc => h1 hc.1), ih]

theorem nodup_keys_objSet {κ α : Type} [DecidableEq κ] (l : List (κ × α)) (k : κ) (v : α)
    (h : (l.map Prod.fst).Nodup) : ((objSet l k v).map Prod.fst).Nodup := by
  rw [keys_objSet]
  split_ifs with hk
  · exact h
  · rw [List.nodup_append]
    refine ⟨h, List.nodup_singleton _, ?_⟩
    intro a ha hb
    rw [List.mem_singleton] at hb
    exact hk (hb ▸ ha)

theorem nodup_keys_spendingMap (zone : CivilDate → Int) (y m : Int) (l : List Transaction) :
    ((spendingMapOf zone l y m).map Prod.fst).Nodup := by
  induction l using List.reverseRecOn with
  | nil => simp [spendingMapOf]
  | append_singleton l t ih =>
    rw [spendingMapOf_append zone]
    simp only [spendingMapStep]
    split_ifs
    · exact nodup_keys_objSet _ _ _ ih
    · exact ih
    · exact ih

theorem heatEntries_ne_nan (zone : CivilDate → Int) (y m : Int) (l : List Transaction) (d : Int)
    (h : ∀ t ∈ l, t.amount ≠ JSNum.nan) : ∀ x ∈ heatEntries zone y m l d, x ≠ JSNum.nan := by
  intro x hx
  obtain ⟨t, ht, rfl⟩ := List.mem_map.1 hx
  exact h t (List.mem_filter.1 ht).1

theorem spendFold_num (vals : List JSNum) (h : ∀ x ∈ vals, x ≠ JSNum.nan) (v : JSNum)
    (hv : spendFold vals = some v) : v = .num (vals.map JSNum.toQ).sum := by
  induction vals using List.reverseRecOn with
  | nil => simp [spendFold] at hv
  | append_singleton l x _ =>
    have hx : x ≠ JSNum.nan := h x (by simp)
    obtain ⟨q, rfl⟩ := (JSNum.ne_nan_iff x).1 hx
    rw [spendFold_append, orZero_spendFold l (fun z hz => h z (List.mem_append_left _ hz))] at hv
    injection hv with hv
    rw [← hv]
    simp [JSNum.add]

/-- With exact amounts the value `spendingMap[i] || 0` is the day's total. -/
theorem heat_spend_eq (zone : CivilDate → Int) (y m : Int) (l : List Transaction) (d : Int)
    (h : ∀ t ∈ l, t.amount ≠ JSNum.nan) :
    JSNum.orZero (objGet (spendingMapOf zone l y m) d) = .num (dayTotal zone l y m d) := by
  rw [objGet_spendingMap zone, orZero_spendFold _ (heatEntries_ne_nan zone y m l d h)]
  rfl

/-- With exact amounts every stored value is the total of its day. -/
theorem spendingMap_value (zone : CivilDate → Int) (y m : Int) (l : List Transaction)
    (h : ∀ t ∈ l, t.amount ≠ JSNum.nan)
    (p : Int × JSNum) (hp : p ∈ spendingMapOf zone l y m) : p.2 = .num (dayTotal zone l y m p.1) := by
  obtain ⟨k, v⟩ := p
  have hg := objGet_of_mem _ (nodup_keys_spendingMap zone y m l) k v hp
  rw [objGet_spendingMap zone] at hg
  exact spendFold_num _ (heatEntries_ne_nan zone y m l k h) v hg

theorem dayTotal_of_absent (zone : CivilDate → Int) (y m : Int) (l : List Transaction) (d : Int)
    (h : objGet (spendingMapOf zone l y m) d = none) : dayTotal zone l y m d = 0 := by
  rw [objGet_spendingMap zone] at h
  have : heatEntries zone y m l d = [] := by
    rcases List.eq_nil_or_concat (heatEntries zone y m l d) with e | ⟨xs, x, e⟩
    · exact e
    · rw [e, List.concat_eq_append, spendFold_append] at h
      exact Option.noConfusion h
  simp [dayTotal, this]

theorem foldl_max_spec (l : List JSNum) (h : ∀ x ∈ l, x ≠ JSNum.nan) (a : ℚ) :
    ∃ M : ℚ, l.foldl JSNum.max (.num a) = .num M ∧ a ≤ M ∧ (∀ x ∈ l, x.toQ ≤ M) ∧
      (M = a ∨ ∃ x ∈ l, M = x.toQ) := by
  induction l generalizing a with
  | nil => exact ⟨a, rfl, le_refl _, by simp, Or.inl rfl⟩
  | cons x xs ih =>
    have hx : x ≠ JSNum.nan := h x (List.mem_cons_self _ _)
    obtain ⟨q, rfl⟩ := (JSNum.ne_nan_iff x).1 hx
    obtain ⟨M, h1, h2, h3, h4⟩ := ih (fun z hz => h z (List.mem_cons_of_mem _ hz)) (Max.max a q)
    refine ⟨M, ?_, le_trans (le_max_left _ _) h2, ?_, ?_⟩
    · simpa [List.foldl_cons, JSNum.max] using h1
    · intro z hz
      rcases List.mem_cons.1 hz with e | e
      · rw [e]
        exact le_trans (le_max_right _ _) h2
      · exact h3 z e
    · rcases h4 with e | ⟨z, hz, e⟩
      · rcases max_choice a q with c | c
        · left; rw [e, c]
        · right
          exact ⟨.num q, List.mem_cons_self _ _, by rw [e, c]; rfl⟩
      · right
        exact ⟨z, List.mem_cons_of_mem _ hz, e⟩

/-- With exact amounts `maxSpend` is the larger of 100 and the largest daily
total of the selected month. -/
theorem heatMaxSpend_spec (zone : CivilDate → Int) (y m : Int) (l : List Transaction)
    (h : ∀ t ∈ l, t.amount ≠ JSNum.nan) :
    ∃ M : ℚ, heatMaxSpend (spendingMapOf zone l y m) = .num M ∧ 100 ≤ M ∧
      (∀ d, dayTotal zone l y m d ≤ M) ∧ (M = 100 ∨ ∃ d, M = dayTotal zone l y m d) := by
  have hvals : ∀ x ∈ (spendingMapOf zone l y m).map Prod.snd, x ≠ JSNum.nan := by
    intro x hx
    obtain ⟨p, hp, rfl⟩ := List.mem_map.1 hx
    rw [spendingMap_value zone y m l h p hp]
    simp
  obtain ⟨M, h1, h2, h3, h4⟩ := foldl_max_spec _ hvals 100
  refine ⟨M, h1, h2, ?_, ?_⟩
  · intro d
    cases hg : objGet (spendingMapOf zone l y m) d with
    | none =>
      rw [dayTotal_of_absent zone y m l d hg]
      linarith
    | some v =>
      have hmem := mem_objGet _ _ _ hg
      have hv := spendingMap_value zone y m l h (d, v) hmem
      have := h3 v (List.mem_map.2 ⟨(d, v), hmem, rfl⟩)
      simp only at hv
      rw [hv] at this
      exact this
  · rcases h4 with e | ⟨x, hx, e⟩
    · exact Or.inl e
    · obtain ⟨p, hp, rfl⟩ := List.mem_map.1 hx
      right
      refine ⟨p.1, ?_⟩
      rw [e, spendingMap_value zone y m l h p hp]
      rfl

theorem mem_spendingHeatmap (zone : CivilDate → Int) (l : List Transaction) (dm : Bool)
    (y m : Int) (e : HeatDay) :
    e ∈ spendingHeatmap zone l dm y m ↔
      ∃ k : Nat, k < (getDaysInMonth y m).toNat ∧
        e = { day := (k : Int) + 1,
              color := heatColor dm (JSNum.orZero (objGet (spendingMapOf zone l y m) ((k : Int) + 1)))
                (heatMaxSpend (spendingMapOf zone l y m)),
              spend := JSNum.orZero (objGet (spendingMapOf zone l y m) ((k : Int) + 1)) } := by
  simp only [spendingHeatmap, List.mem_map, List.mem_range]
  constructor
  · rintro ⟨k, hk, rfl⟩
    exact ⟨k, hk, rfl⟩
  · rintro ⟨k, hk, rfl⟩
    exact ⟨k, hk, rfl⟩

theorem heatColor_num (dm : Bool) (s M : ℚ) (hM : M ≠ 0) :
    heatColor dm (.num s) (.num M) =
      if 0 < s then
        (if s / M < 0.2 then "bg-rose-100"
         else if s / M < 0.5 then "bg-rose-300"
         else if s / M < 0.8 then "bg-rose-500"
         else "bg-rose-700")
      else noSpendColor dm := by
  simp only [heatColor, JSNum.gt, JSNum.div, if_neg hM, JSNum.lt, decide_eq_true_eq]

theorem getDaysInMonth_eq (y m : Int) (h0 : 0 ≤ m) (h1 : m ≤ 11) :
    getDaysInMonth y m = monthLength y (m + 1) := by
  have hneg : ¬ (0 : Int) ≤ 0 - 1 := by decide
  have ht : (-((0 : Int) - 1)).toNat = 1 := by decide
  simp only [getDaysInMonth, makeDay, addDays, if_neg hneg, ht, Function.iterate_one]
  by_cases h : m = 11
  · subst h
    have e1 : ((11 : Int) + 1) / 12 = 1 := by decide
    have e2 : ((11 : Int) + 1) % 12 + 1 = 1 := by decide
    simp only [e1, e2, prevDay, lt_self_iff_false, if_false]
    simp [monthLength]
  · have e1 : (m + 1) / 12 = 0 := by omega
    have e2 : (m + 1) % 12 + 1 = m + 2 := by omega
    have e3 : (1 : Int) < m + 2 := by omega
    have e4 : m + 2 - 1 = m + 1 := by omega
    simp only [e1, e2, prevDay, lt_self_iff_false, if_false, if_pos e3, add_zero, e4]

/-- With exact amounts, the entries of the calendar: one per day `1 ..
daysInMonth`, carrying the day's total and the colour computed from it. -/
theorem heatmap_entry (zone : CivilDate → Int) (l : List Transaction) (dm : Bool) (y m : Int)
    (h : ∀ t ∈ l, t.amount ≠ JSNum.nan) (e : HeatDay) :
    e ∈ spendingHeatmap zone l dm y m ↔
      1 ≤ e.day ∧ e.day ≤ getDaysInMonth y m ∧ e.spend = .num (dayTotal zone l y m e.day) ∧
        e.color = heatColor dm (.num (dayTotal zone l y m e.day))
          (heatMaxSpend (spendingMapOf zone l y m)) := by
  rw [mem_spendingHeatmap zone]
  constructor
  · rintro ⟨k, hk, rfl⟩
    dsimp only
    rw [heat_spend_eq zone y m l _ h]
    exact ⟨by omega, by omega, rfl, rfl⟩
  · rintro ⟨h1, h2, h3, h4⟩
    refine ⟨(e.day - 1).toNat, by omega, ?_⟩
    have hd : (((e.day - 1).toNat : Int)) + 1 = e.day := by omega
    rw [hd, heat_spend_eq zone y m l _ h]
    cases e
    simp only at h3 h4
    rw [h3, h4]

theorem tier_strings (dm : Bool) :
    noSpendColor dm ∉ ["bg-rose-100", "bg-rose-300", "bg-rose-500", "bg-rose-700"] := by
  cases dm <;> decide

/-- The tiers of the calendar on exact amounts: `maxSpend` is the larger of
100 and the largest daily total `M`; a day with total `s > 0` is coloured by
`s / M` against the thresholds 0.2, 0.5 and 0.8, a day with `s = 0` gets the
neutral colour, which is none of the four spend colours, and a month without
spend is neutral throughout.  Days are those of the host's local dates. -/
theorem heatmap_tiers (zone : CivilDate → Int) (transactions : List Transaction)
    (darkMode : Bool) (year month : Int)
    (hnum : ∀ t ∈ transactions, t.amount ≠ JSNum.nan) :
    ∃ M : ℚ, heatMaxSpend (spendingMapOf zone transactions year month) = .num M ∧ 100 ≤ M ∧
      (∀ d, dayTotal zone transactions year month d ≤ M) ∧
      (M = 100 ∨ ∃ d, M = dayTotal zone transactions year month d) ∧
      (∀ e ∈ spendingHeatmap zone transactions darkMode year month,
        e.spend = .num (dayTotal zone transactions year month e.day) ∧
        (0 < dayTotal zone transactions year month e.day →
          dayTotal zone transactions year month e.day / M < 0.2 → e.color = "bg-rose-100") ∧
        (0 < dayTotal zone transactions year month e.day →
          0.2 ≤ dayTotal zone transactions year month e.day / M →
          dayTotal zone transactions year month e.day / M < 0.5 → e.color = "bg-rose-300") ∧
        (0 < dayTotal zone transactions year month e.day →
          0.5 ≤ dayTotal zone transactions year month e.day / M →
          dayTotal zone transactions year month e.day / M < 0.8 → e.color = "bg-rose-500") ∧
        (0 < dayTotal zone transactions year month e.day →
          0.8 ≤ dayTotal zone transactions year month e.day / M → e.color = "bg-rose-700") ∧
        (dayTotal zone transactions year month e.day = 0 → e.color = noSpendColor darkMode)) ∧
      noSpendColor darkMode ∉ ["bg-rose-100", "bg-rose-300", "bg-rose-500", "bg-rose-700"] ∧
      ((∀ d, dayTotal zone transactions year month d = 0) →
        ∀ e ∈ spendingHeatmap zone transactions darkMode year month,
          e.color = noSpendColor darkMode) := by
  obtain ⟨M, h1, h2, h3, h4⟩ := heatMaxSpend_spec zone year month transactions hnum
  have hM : M ≠ 0 := by
    intro e
    rw [e] at h2
    norm_num at h2
  have hcol : ∀ e ∈ spendingHeatmap zone transactions darkMode year month,
      e.color = if 0 < dayTotal zone transactions year month e.day then
        (if dayTotal zone transactions year month e.day / M < 0.2 then "bg-rose-100"
         else if dayTotal zone transactions year month e.day / M < 0.5 then "bg-rose-300"
         else if dayTotal zone transactions year month e.day / M < 0.8 then "bg-rose-500"
         else "bg-rose-700")
      else noSpendColor darkMode := by
    intro e he
    obtain ⟨-, -, -, hc⟩ := (heatmap_entry zone transactions darkMode year month hnum e).1 he
    rw [hc, h1, heatColor_num _ _ _ hM]
  refine ⟨M, h1, h2, h3, h4, ?_, tier_strings darkMode, ?_⟩
  · intro e he
    obtain ⟨-, -, hs, -⟩ := (heatmap_entry zone transactions darkMode year month hnum e).1 he
    have hc := hcol e he
    refine ⟨hs, ?_, ?_, ?_, ?_, ?_⟩
    · intro p1 p2
      rw [hc, if_pos p1, if_pos p2]
    · intro p1 p2 p3
      rw [hc, if_pos p1, if_neg (not_lt.2 p2), if_pos p3]
    · intro p1 p2 p3
      have q2 : ¬ dayTotal zone transactions year month e.day / M < 0.2 := by
        intro hq
        norm_num at hq p2
        linarith
      rw [hc, if_pos p1, if_neg q2, if_neg (not_lt.2 p2), if_pos p3]
    · intro p1 p2
      have q2 : ¬ dayTotal zone transactions year month e.day / M < 0.2 := by
        intro hq
        norm_num at hq p2
        linarith
      have q3 : ¬ dayTotal zone transactions year month e.day / M < 0.5 := by
        intro hq
        norm_num at hq p2
        linarith
      rw [hc, if_pos p1, if_neg q2, if_neg q3, if_neg (not_lt.2 p2)]
    · intro p0
      rw [hc, p0, if_neg (lt_irrefl _)]
  · intro hz e he
    rw [hcol e he, hz, if_neg (lt_irrefl _)]

theorem foldl_spendingMapStep_filter (zone : CivilDate → Int) (y m : Int) (l : List Transaction)
    (acc : List (Int × JSNum)) :
    l.foldl (spendingMapStep zone y m) acc =
      (l.filter (fun t => decide (t.type = .expense ∧
        (localDate (zone t.date) t.date).month - 1 = m ∧
        (localDate (zone t.date) t.date).year = y))).foldl
        (spendingMapStep zone y m) acc := by
  induction l generalizing acc with
  | nil => rfl
  | cons t ts ih =>
    by_cases h : t.type = .expense ∧ (localDate (zone t.date) t.date).month - 1 = m ∧
        (localDate (zone t.date) t.date).year = y
    · rw [List.filter_cons_of_pos (by simpa using h)]
      simp only [List.foldl_cons]
      exact ih _
    · rw [List.filter_cons_of_neg (by simpa using h)]
      simp only [List.foldl_cons]
      have : spendingMapStep zone y m acc t = acc := by
        simp only [spendingMapStep]
        split_ifs with a b
        · exact absurd ⟨a, b⟩ h
        · rfl
        · rfl
      rw [this]
      exact ih _

/-- The days of the calendar on exact amounts, for a month in `0..11`: it has
one entry per day `1, 2, ..., daysInMonth` in this order, the number of days
is that of the calendar month (28 to 31, 29 for a leap February), the spend of
a day is the sum of the expenses whose local date is that day, and dropping
incomes and transactions whose local date lies in another month or year
changes nothing. -/
theorem heatmap_days (zone : CivilDate → Int) (transactions : List Transaction)
    (darkMode : Bool) (year month : Int)
    (hnum : ∀ t ∈ transactions, t.amount ≠ JSNum.nan) (h0 : 0 ≤ month) (h1 : month ≤ 11) :
    (spendingHeatmap zone transactions darkMode year month).map (fun e => e.day)
      = (List.range (monthLength year (month + 1)).toNat).map (fun (k : Nat) => (k : Int) + 1) ∧
    ((spendingHeatmap zone transactions darkMode year month).length : Int)
      = monthLength year (month + 1) ∧
    28 ≤ monthLength year (month + 1) ∧ monthLength year (month + 1) ≤ 31 ∧
    (month = 1 → isLeapYear year = true →
      (spendingHeatmap zone transactions darkMode year month).length = 29) ∧
    (∀ e ∈ spendingHeatmap zone transactions darkMode year month,
      e.spend = .num (dayTotal zone transactions year month e.day)) ∧
    spendingHeatmap zone transactions darkMode year month
      = spendingHeatmap zone (transactions.filter (fun t =>
          decide (t.type = .expense ∧ (localDate (zone t.date) t.date).month - 1 = month ∧
            (localDate (zone t.date) t.date).year = year)))
        darkMode year month := by
  have hb := monthLength_bounds year (month + 1)
  have hlen : (spendingHeatmap zone transactions darkMode year month).length
      = (monthLength year (month + 1)).toNat := by
    simp [spendingHeatmap, getDaysInMonth_eq year month h0 h1]
  refine ⟨?_, ?_, hb.1, hb.2, ?_, ?_, ?_⟩
  · simp only [spendingHeatmap, getDaysInMonth_eq year month h0 h1, List.map_map]
    rfl
  · rw [hlen]
    omega
  · intro hm hl
    rw [hlen, hm]
    have : monthLength year (1 + 1) = 29 := by
      simp [monthLength, hl]
    rw [this]
    rfl
  · intro e he
    exact ((heatmap_entry zone transactions darkMode year month hnum e).1 he).2.2.1
  · have : spendingMapOf zone transactions year month
        = spendingMapOf zone (transactions.filter (fun t =>
            decide (t.type = .expense ∧ (localDate (zone t.date) t.date).month - 1 = month ∧
              (localDate (zone t.date) t.date).year = year)))
          year month := foldl_spendingMapStep_filter zone year month transactions []
    simp only [spendingHeatmap, ← this]

theorem dayTotal_sampleC15 (d : Int) :
    dayTotal utc sampleC15 2024 2 d = if (10 : Int) = d then 50 else 0 := by
  by_cases e : (10 : Int) = d
  · simp [dayTotal, heatEntries, sampleC15, List.filter, e, localDate_utc]
  · simp [dayTotal, heatEntries, sampleC15, List.filter, e, localDate_utc]

theorem dayTotal_sampleC15Two (d : Int) :
    dayTotal utc sampleC15Two 2024 2 d = if (10 : Int) = d then 1000 else if (11 : Int) = d then 900
      else 0 := by
  by_cases e : (10 : Int) = d
  · subst e
    simp [dayTotal, heatEntries, sampleC15Two, List.filter]
  · by_cases e2 : (11 : Int) = d
    · subst e2
      simp [dayTotal, heatEntries, sampleC15Two, List.filter]
    · simp [dayTotal, heatEntries, sampleC15Two, List.filter, e, e2]

/-- Claim C15 (counterexample). A single expense of 50 on 2024-03-10 makes day
10 the day of the month's maximum (positive) spend, yet `maxSpend` is the floor
100, the intensity is 0.5 and the day is coloured with the third tier, not the
darkest.  With 1000 on day 10 and 900 on day 11, day 11 is below the maximum
and is coloured darkest as well. -/
theorem heatmap_peak_not_darkest :
    (∀ d, dayTotal utc sampleC15 2024 2 d ≤ dayTotal utc sampleC15 2024 2 10) ∧
    0 < dayTotal utc sampleC15 2024 2 10 ∧
    (⟨10, "bg-rose-500", .num 50⟩ : HeatDay) ∈ spendingHeatmap utc sampleC15 false 2024 2 ∧
    (∀ e ∈ spendingHeatmap utc sampleC15 false 2024 2, e.day = 10 → e.color ≠ "bg-rose-700") ∧
    dayTotal utc sampleC15Two 2024 2 11 < dayTotal utc sampleC15Two 2024 2 10 ∧
    (⟨11, "bg-rose-700", .num 900⟩ : HeatDay) ∈ spendingHeatmap utc sampleC15Two false 2024 2 := by
  have hnum : ∀ t ∈ sampleC15, t.amount ≠ JSNum.nan := by simp [sampleC15]
  have hmax : heatMaxSpend (spendingMapOf utc sampleC15 2024 2) = .num 100 := by
    norm_num [heatMaxSpend, spendingMapOf, spendingMapStep, sampleC15, objSet, objGet,
      JSNum.orZero, JSNum.add, JSNum.max]
  have hcol : heatColor false (.num 50) (.num 100) = "bg-rose-500" := by
    rw [heatColor_num _ _ _ (by norm_num)]
    norm_num
  have hnum2 : ∀ t ∈ sampleC15Two, t.amount ≠ JSNum.nan := by simp [sampleC15Two]
  have hmax2 : heatMaxSpend (spendingMapOf utc sampleC15Two 2024 2) = .num 1000 := by
    norm_num [heatMaxSpend, spendingMapOf, spendingMapStep, sampleC15Two, objSet, objGet,
      JSNum.orZero, JSNum.add, JSNum.max]
  have hcol2 : heatColor false (.num 900) (.num 1000) = "bg-rose-700" := by
    rw [heatColor_num _ _ _ (by norm_num)]
    norm_num
  have hd : getDaysInMonth 2024 2 = 31 := by
    rw [getDaysInMonth_eq 2024 2 (by decide) (by decide)]
    decide
  refine ⟨?_, ?_, ?_, ?_, ?_, ?_⟩
  · intro d
    rw [dayTotal_sampleC15 d, dayTotal_sampleC15 10, if_pos rfl]
    split_ifs <;> norm_num
  · rw [dayTotal_sampleC15, if_pos rfl]
    norm_num
  · rw [heatmap_entry utc sampleC15 false 2024 2 hnum]
    dsimp only
    rw [hd, dayTotal_sampleC15, if_pos rfl, hmax, hcol]
    simp
  · intro e he h10
    obtain ⟨-, -, -, hc⟩ := (heatmap_entry utc sampleC15 false 2024 2 hnum e).1 he
    rw [hc, h10, dayTotal_sampleC15, if_pos rfl, hmax, hcol]
    decide
  · rw [dayTotal_sampleC15Two 11, dayTotal_sampleC15Two 10, if_pos rfl,
      if_neg (by decide), if_pos rfl]
    norm_num
  · rw [heatmap_entry utc sampleC15Two false 2024 2 hnum2]
    dsimp only
    rw [hd, dayTotal_sampleC15Two, if_neg (by decide), if_pos rfl, hmax2, hcol2]
    simp

/-- Claim C15 (amended). With exact amounts, if day `d0` of the month has the
largest daily total and this total is at least 80, then `d0` is coloured
darkest; a day is coloured darkest exactly when its total is at least
`0.8 * max(100, total of d0)`. -/
theorem heatmap_peak_darkest (zone : CivilDate → Int) (transactions : List Transaction) (darkMode : Bool)
    (year month : Int) (d0 : Int)
    (hnum : ∀ t ∈ transactions, t.amount ≠ JSNum.nan) (h0 : 0 ≤ month) (h1 : month ≤ 11)
    (hd1 : 1 ≤ d0) (hd2 : d0 ≤ monthLength year (month + 1))
    (hmax : ∀ d, dayTotal zone transactions year month d ≤ dayTotal zone transactions year month d0)
    (h80 : 80 ≤ dayTotal zone transactions year month d0) :
    (∃ e ∈ spendingHeatmap zone transactions darkMode year month, e.day = d0) ∧
    (∀ e ∈ spendingHeatmap zone transactions darkMode year month,
      e.day = d0 → e.color = "bg-rose-700") ∧
    (∀ e ∈ spendingHeatmap zone transactions darkMode year month,
      e.color = "bg-rose-700" ↔
        0.8 * max 100 (dayTotal zone transactions year month d0)
          ≤ dayTotal zone transactions year month e.day) := by
  obtain ⟨M, m1, m2, m3, m4⟩ := heatMaxSpend_spec zone year month transactions hnum
  have hM : M = max 100 (dayTotal zone transactions year month d0) := by
    apply le_antisymm
    · rcases m4 with e | ⟨d, e⟩
      · rw [e]
        exact le_max_left _ _
      · rw [e]
        exact le_trans (hmax d) (le_max_right _ _)
    · exact max_le m2 (m3 d0)
  have hpos : 0 < M := by linarith
  have hne : M ≠ 0 := ne_of_gt hpos
  have hiff : ∀ e ∈ spendingHeatmap zone transactions darkMode year month,
      (e.color = "bg-rose-700" ↔ 0.8 * M ≤ dayTotal zone transactions year month e.day) := by
    intro e he
    obtain ⟨-, -, -, hc⟩ := (heatmap_entry zone transactions darkMode year month hnum e).1 he
    rw [hc, m1, heatColor_num _ _ _ hne]
    have key : ∀ s : ℚ, (s / M < 0.8 ↔ s < 0.8 * M) := fun s => div_lt_iff₀ hpos
    have hns : noSpendColor darkMode ≠ "bg-rose-700" := by
      cases darkMode <;> decide
    by_cases p1 : 0 < dayTotal zone transactions year month e.day
    · by_cases p2 : dayTotal zone transactions year month e.day / M < 0.2
      · have q : dayTotal zone transactions year month e.day / M < 0.8 := by
          norm_num at p2 ⊢
          linarith
        rw [if_pos p1, if_pos p2]
        constructor
        · intro h
          exact absurd h (by decide)
        · intro h
          exact absurd ((key _).1 q) (not_lt.2 h)
      · by_cases p3 : dayTotal zone transactions year month e.day / M < 0.5
        · have q : dayTotal zone transactions year month e.day / M < 0.8 := by
            norm_num at p3 ⊢
            linarith
          rw [if_pos p1, if_neg p2, if_pos p3]
          constructor
          · intro h
            exact absurd h (by decide)
          · intro h
            exact absurd ((key _).1 q) (not_lt.2 h)
        · by_cases p4 : dayTotal zone transactions year month e.day / M < 0.8
          · rw [if_pos p1, if_neg p2, if_neg p3, if_pos p4]
            constructor
            · intro h
              exact absurd h (by decide)
            · intro h
              exact absurd ((key _).1 p4) (not_lt.2 h)
          · rw [if_pos p1, if_neg p2, if_neg p3, if_neg p4]
            constructor
            · intro _
              exact not_lt.1 (fun hc => p4 ((key _).2 hc))
            · intro _
              rfl
    · rw [if_neg p1]
      constructor
      · intro h
        exact absurd h hns
      · intro h
        have : 0 < 0.8 * M := by positivity
        exact absurd (lt_of_lt_of_le this h) p1
  refine ⟨?_, ?_, ?_⟩
  · refine ⟨⟨d0, heatColor darkMode (.num (dayTotal zone transactions year month d0))
      (heatMaxSpend (spendingMapOf zone transactions year month)),
      .num (dayTotal zone transactions year month d0)⟩, ?_, rfl⟩
    rw [heatmap_entry zone transactions darkMode year month hnum, getDaysInMonth_eq year month h0 h1]
    exact ⟨hd1, hd2, rfl, rfl⟩
  · intro e he hd
    rw [hiff e he, hd, hM]
    rcases max_choice 100 (dayTotal zone transactions year month d0) with c | c
    · rw [c]
      linarith
    · rw [c]
      have : 0 ≤ dayTotal zone transactions year month d0 := by linarith
      linarith
  · intro e he
    rw [hiff e he, hM]

theorem heatmap_peak_darkest_witness :
    (∃ e ∈ spendingHeatmap utc sampleC15Two false 2024 2, e.day = 10) ∧
    (∀ e ∈ spendingHeatmap utc sampleC15Two false 2024 2, e.day = 10 → e.color = "bg-rose-700") ∧
    (∀ e ∈ spendingHeatmap utc sampleC15Two false 2024 2,
      e.color = "bg-rose-700" ↔
        0.8 * max 100 (dayTotal utc sampleC15Two 2024 2 10) ≤ dayTotal utc sampleC15Two 2024 2 e.day) :=
  heatmap_peak_darkest utc sampleC15Two false 2024 2 10 (by simp [sampleC15Two]) (by decide)
    (by decide) (by decide) (by decide)
    (fun d => by
      rw [dayTotal_sampleC15Two d, dayTotal_sampleC15Two 10, if_pos rfl]
      split_ifs <;> norm_num)
    (by
      rw [dayTotal_sampleC15Two, if_pos rfl]
      norm_num)

/-! ### The category totals -/

theorem step_catTotals (c p : Int × Int) (a : Acc) (t : Transaction) :
    (step c p a t).catTotals =
      match t.type with
      | .income => a.catTotals
      | .expense => catTotalsStep a.catTotals t.category t.amount := by
  rcases t with ⟨ty, amt, cat, d, r⟩
  cases ty <;> cases r <;> simp [step]

/-- Writing `v` under key `k` changes the sum of a field by the difference
between `v` and the value replaced. -/
theorem sum_objSet_sub {κ α : Type} [DecidableEq κ] (f : α → ℚ) (l : List (κ × α)) (k : κ)
    (v : α) :
    ((objSet l k v).map (fun p => f p.2)).sum
      = (l.map (fun p => f p.2)).sum + f v - ((objGet l k).map f).getD 0 := by
  induction l with
  | nil => simp [objSet, objGet]
  | cons x xs ih =>
    obtain ⟨k', x⟩ := x
    by_cases hk : k' = k
    · simp only [objSet, objGet, if_pos hk, List.map_cons, List.sum_cons, Option.map_some',
        Option.getD_some]
      ring
    · simp only [objSet, objGet, if_neg hk, List.map_cons, List.sum_cons, ih]
      ring

/-- On numeric totals and a category that names no inherited member, the
statement on `catTotals` adds the amount to the category's total. -/
theorem catTotalsStep_num (l : List (String × CatVal)) (k : String) (v : ℚ)
    (hvals : ∀ p ∈ l, p.2.IsNum) (hk : plainKey k) :
    catTotalsStep l k (.num v) =
      objSet l k (.num (.num (((objGet l k).map CatVal.toQ).getD 0 + v))) := by
  unfold catTotalsStep
  cases h : objGet l k with
  | none =>
    simp [hk.1, hk.2, JSNum.orZero, JSNum.add]
  | some w =>
    obtain ⟨q, hq⟩ := hvals (k, w) (mem_objGet l k w h)
    simp only at hq
    subst hq
    simp [JSNum.orZero_some_num, JSNum.add, CatVal.toQ, CatVal.toNumber]

/-- The statement on `catTotals` for a category that names no inherited
member, when the own property read is known. -/
theorem catTotalsStep_of_get (l : List (String × CatVal)) (k : String) (v : JSNum)
    (o : Option JSNum) (h : objGet l k = o.map CatVal.num) (hk : plainKey k) :
    catTotalsStep l k v = objSet l k (.num ((JSNum.orZero o).add v)) := by
  unfold catTotalsStep
  rw [h]
  cases o with
  | none => simp [hk.1, hk.2]
  | some x => rfl

/-- The statement on `catTotals` leaves the object alone or writes one key. -/
theorem catTotalsStep_cases (l : List (String × CatVal)) (k : String) (v : JSNum) :
    catTotalsStep l k v = l ∨ ∃ x, catTotalsStep l k v = objSet l k x := by
  unfold catTotalsStep
  cases objGet l k with
  | none =>
    simp only
    split_ifs
    · exact Or.inl rfl
    · exact Or.inr ⟨_, rfl⟩
    · exact Or.inr ⟨_, rfl⟩
  | some w =>
    cases w with
    | num x => exact Or.inr ⟨_, rfl⟩
    | str => exact Or.inr ⟨_, rfl⟩

theorem catInv_step (c p : Int × Int) (a : Acc) (t : Transaction) (ht : t.amount ≠ JSNum.nan)
    (hk : t.type = .expense → plainKey t.category) (ha : CatInv a) :
    CatInv (step c p a t) := by
  obtain ⟨v, hv⟩ := (JSNum.ne_nan_iff _).1 ht
  obtain ⟨h1, h2⟩ := ha
  unfold CatInv
  rw [step_expense, step_catTotals]
  cases hty : t.type with
  | income => exact ⟨h1, h2⟩
  | expense =>
    simp only
    rw [hv, catTotalsStep_num _ _ _ h1 (hk hty)]
    refine ⟨?_, ?_⟩
    · intro q hq
      rcases mem_objSet _ _ _ _ hq with h3 | h3
      · exact h1 q h3
      · exact ⟨_, h3⟩
    · rw [sum_objSet_sub, h2]
      simp only [JSNum.add, CatVal.toQ, CatVal.toNumber, JSNum.toQ_num]
      congr 1
      ring

theorem catInv_foldl (c p : Int × Int) (l : List Transaction) (h : ∀ t ∈ l, t.amount ≠ JSNum.nan)
    (hk : ∀ t ∈ l, t.type = .expense → plainKey t.category)
    (a : Acc) (ha : CatInv a) : CatInv (l.foldl (step c p) a) := by
  induction l generalizing a with
  | nil => exact ha
  | cons t ts ih =>
    simp only [List.foldl_cons]
    exact ih (fun s hs => h s (List.mem_cons_of_mem _ hs))
      (fun s hs => hk s (List.mem_cons_of_mem _ hs)) _
      (catInv_step c p a t (h t (List.mem_cons_self _ _)) (hk t (List.mem_cons_self _ _)) ha)

/-- Claim C1 (counterexample). An expense of 5 whose category is `__proto__`
leaves no entry in `stats.categoryData`: the values add up to 0 while
`stats.expense` is 5.  An expense of 5 whose category is `constructor` is
recorded with a string as its value, not with the number 5. -/
theorem categoryData_misses_inherited_names :
    (stats sampleProto (.num 3000) ⟨2024, 3, 5⟩).expense = .num 5 ∧
    (stats sampleProto (.num 3000) ⟨2024, 3, 5⟩).categoryData = [] ∧
    JSNum.sum ((stats sampleProto (.num 3000) ⟨2024, 3, 5⟩).categoryData.map
        (fun p => p.2.toNumber))
      ≠ (stats sampleProto (.num 3000) ⟨2024, 3, 5⟩).expense ∧
    (stats sampleConstructor (.num 3000) ⟨2024, 3, 5⟩).expense = .num 8 ∧
    (stats sampleConstructor (.num 3000) ⟨2024, 3, 5⟩).categoryData
      = [("Food", .num (.num 3)), ("constructor", .str)] ∧
    JSNum.sum ((stats sampleConstructor (.num 3000) ⟨2024, 3, 5⟩).categoryData.map
        (fun p => p.2.toNumber))
      ≠ (stats sampleConstructor (.num 3000) ⟨2024, 3, 5⟩).expense := by
  have e1 : (stats sampleProto (.num 3000) ⟨2024, 3, 5⟩).expense = .num 5 := by
    simp [stats, accumulate, step, sampleProto, Acc.init, JSNum.add]
  have e2 : (stats sampleProto (.num 3000) ⟨2024, 3, 5⟩).categoryData = [] := by
    simp [stats, accumulate, step, sampleProto, Acc.init, catTotalsStep, objGet]
  have e3 : (stats sampleConstructor (.num 3000) ⟨2024, 3, 5⟩).expense = .num 8 := by
    simp [stats, accumulate, step, sampleConstructor, Acc.init, JSNum.add]
    norm_num
  have e4 : (stats sampleConstructor (.num 3000) ⟨2024, 3, 5⟩).categoryData
      = [("Food", .num (.num 3)), ("constructor", .str)] := by
    simp [stats, accumulate, step, sampleConstructor, Acc.init, catTotalsStep, objGet, objSet,
      objectPrototypeFunctions, JSNum.orZero, JSNum.add, List.insertionSort,
      List.orderedInsert, catBefore, CatVal.toNumber, JSNum.sub]
  refine ⟨e1, e2, ?_, e3, e4, ?_⟩
  · rw [e1, e2]
    simp [JSNum.sum]
  · rw [e3, e4]
    simp [JSNum.sum, CatVal.toNumber, JSNum.add]

/-- Claim C1 (amended). With every amount a number (not `NaN`) and no expense
category naming a member of `Object.prototype`, the values of
`stats.categoryData` are numbers and add up to `stats.expense`. -/
theorem categoryData_sum_eq_expense (transactions : List Transaction) (monthlyBudget : JSNum)
    (now : CivilDate) (hnum : ∀ t ∈ transactions, t.amount ≠ JSNum.nan)
    (hkeys : ∀ t ∈ transactions, t.type = .expense → plainKey t.category) :
    (∀ p ∈ (stats transactions monthlyBudget now).categoryData, p.2.IsNum) ∧
    JSNum.sum ((stats transactions monthlyBudget now).categoryData.map (fun p => p.2.toNumber))
      = (stats transactions monthlyBudget now).expense := by
  have hinv : CatInv (accumulate (currentMonthStr now) (prevMonthStr now) transactions) :=
    catInv_foldl _ _ transactions hnum hkeys Acc.init ⟨by simp [Acc.init], by simp [Acc.init]⟩
  obtain ⟨h1, h2⟩ := hinv
  have hperm := List.perm_insertionSort catBefore
    (accumulate (currentMonthStr now) (prevMonthStr now) transactions).catTotals
  have hvals : ∀ p ∈ (stats transactions monthlyBudget now).categoryData, p.2.IsNum :=
    fun p hp => h1 p (hperm.mem_iff.1 hp)
  refine ⟨hvals, ?_⟩
  have hs : (stats transactions monthlyBudget now).expense
      = (accumulate (currentMonthStr now) (prevMonthStr now) transactions).expense := rfl
  rw [JSNum.sum_num, hs, h2]
  · congr 1
    rw [List.map_map]
    exact (hperm.map _).sum_eq
  · intro x hx
    obtain ⟨p, hp, rfl⟩ := List.mem_map.1 hx
    obtain ⟨q, hq⟩ := hvals p hp
    rw [hq]
    simp [CatVal.toNumber]

theorem categoryData_sum_eq_expense_witness :
    (∀ t ∈ sampleC1, t.amount ≠ JSNum.nan) ∧
    (∀ t ∈ sampleC1, t.type = .expense → plainKey t.category) ∧
    (∀ p ∈ (stats sampleC1 (.num 3000) ⟨2024, 3, 5⟩).categoryData, p.2.IsNum) ∧
    JSNum.sum ((stats sampleC1 (.num 3000) ⟨2024, 3, 5⟩).categoryData.map
        (fun p => p.2.toNumber))
      = (stats sampleC1 (.num 3000) ⟨2024, 3, 5⟩).expense :=
  ⟨by simp [sampleC1], by simp [sampleC1, plainKey, objectPrototypeFunctions],
    categoryData_sum_eq_expense sampleC1 (.num 3000) ⟨2024, 3, 5⟩ (by simp [sampleC1])
      (by simp [sampleC1, plainKey, objectPrototypeFunctions])⟩

/-! ### The category sort -/

theorem catBefore_iff (a b : String × CatVal) (ha : a.2.IsNum) (hb : b.2.IsNum) :
    catBefore a b ↔ a.2.toQ ≥ b.2.toQ := by
  obtain ⟨x, hx⟩ := ha
  obtain ⟨y, hy⟩ := hb
  simp only [catBefore, hx, hy, CatVal.toNumber, CatVal.toQ, JSNum.sub, JSNum.toQ_num,
    ge_iff_le, sub_nonpos]

theorem valueGe_iff (a b : String × CatVal) (ha : a.2.IsNum) (hb : b.2.IsNum) :
    valueGe a b ↔ a.2.toQ ≥ b.2.toQ := by
  obtain ⟨x, hx⟩ := ha
  obtain ⟨y, hy⟩ := hb
  simp only [valueGe, hx, hy, CatVal.toNumber, CatVal.toQ, JSNum.ge, JSNum.toQ_num,
    decide_eq_true_eq, ge_iff_le]

/-- Claim C20 (counterexample). With an unparseable amount for food and an
expense of 5 for rent, `stats.categoryData` holds a `NaN` next to the 5, and
with a category named `constructor` it holds a string next to a number: in
neither list is each value at least the value after it. -/
theorem categoryData_not_sorted :
    (stats sampleC20NaN (.num 3000) ⟨2024, 3, 5⟩).categoryData
      = [("Food", .num .nan), ("Rent", .num (.num 5))] ∧
    ¬ List.Chain' valueGe (stats sampleC20NaN (.num 3000) ⟨2024, 3, 5⟩).categoryData ∧
    (stats sampleConstructor (.num 3000) ⟨2024, 3, 5⟩).categoryData
      = [("Food", .num (.num 3)), ("constructor", .str)] ∧
    ¬ List.Chain' valueGe (stats sampleConstructor (.num 3000) ⟨2024, 3, 5⟩).categoryData := by
  have e1 : (stats sampleC20NaN (.num 3000) ⟨2024, 3, 5⟩).categoryData
      = [("Food", .num .nan), ("Rent", .num (.num 5))] := by
    simp [stats, accumulate, step, sampleC20NaN, Acc.init, catTotalsStep, objGet, objSet,
      objectPrototypeFunctions, JSNum.orZero, JSNum.add, List.insertionSort,
      List.orderedInsert, catBefore, CatVal.toNumber, JSNum.sub]
  have e2 : (stats sampleConstructor (.num 3000) ⟨2024, 3, 5⟩).categoryData
      = [("Food", .num (.num 3)), ("constructor", .str)] := by
    simp [stats, accumulate, step, sampleConstructor, Acc.init, catTotalsStep, objGet, objSet,
      objectPrototypeFunctions, JSNum.orZero, JSNum.add, List.insertionSort,
      List.orderedInsert, catBefore, CatVal.toNumber, JSNum.sub]
  refine ⟨e1, ?_, e2, ?_⟩
  · rw [e1]
    simp [valueGe, CatVal.toNumber, JSNum.ge]
  · rw [e2]
    simp [valueGe, CatVal.toNumber, JSNum.ge]

/-- Claim C20 (amended). With every amount a number and no expense category
naming a member of `Object.prototype`, the values of `stats.categoryData` are
numbers in non-increasing order: every entry's value is at least the value of
each later entry, in particular of the next one. -/
theorem categoryData_sorted (transactions : List Transaction) (monthlyBudget : JSNum)
    (now : CivilDate) (hnum : ∀ t ∈ transactions, t.amount ≠ JSNum.nan)
    (hkeys : ∀ t ∈ transactions, t.type = .expense → plainKey t.category) :
    (∀ p ∈ (stats transactions monthlyBudget now).categoryData, p.2.IsNum) ∧
    List.Sorted valueGe (stats transactions monthlyBudget now).categoryData ∧
    List.Chain' valueGe (stats transactions monthlyBudget now).categoryData := by
  have hinv : CatInv (accumulate (currentMonthStr now) (prevMonthStr now) transactions) :=
    catInv_foldl _ _ transactions hnum hkeys Acc.init ⟨by simp [Acc.init], by simp [Acc.init]⟩
  obtain ⟨hvals, -⟩ := hinv
  have hperm := List.perm_insertionSort catBefore
    (accumulate (currentMonthStr now) (prevMonthStr now) transactions).catTotals
  have hvals2 : ∀ p ∈ (stats transactions monthlyBudget now).categoryData, p.2.IsNum :=
    fun p hp => hvals p (hperm.mem_iff.1 hp)
  have hmap := List.map_insertionSort catBefore (fun x y : ℚ => x ≥ y)
    (fun p : String × CatVal => p.2.toQ)
    (accumulate (currentMonthStr now) (prevMonthStr now) transactions).catTotals
    (fun a ha b hb => catBefore_iff a b (hvals a ha) (hvals b hb))
  have hsorted := List.sorted_insertionSort (fun x y : ℚ => x ≥ y)
    ((accumulate (currentMonthStr now) (prevMonthStr now) transactions).catTotals.map
      (fun p : String × CatVal => p.2.toQ))
  rw [← hmap] at hsorted
  have hq : List.Pairwise (fun a b : String × CatVal => a.2.toQ ≥ b.2.toQ)
      (stats transactions monthlyBudget now).categoryData := List.pairwise_map.1 hsorted
  have hs : List.Sorted valueGe (stats transactions monthlyBudget now).categoryData :=
    List.Pairwise.imp_of_mem
      (fun {a b} ha hb h => (valueGe_iff a b (hvals2 a ha) (hvals2 b hb)).2 h) hq
  exact ⟨hvals2, hs, List.Pairwise.chain' hs⟩

theorem categoryData_sorted_witness :
    (∀ t ∈ sampleC20, t.amount ≠ JSNum.nan) ∧
    (∀ t ∈ sampleC20, t.type = .expense → plainKey t.category) ∧
    (stats sampleC20 (.num 3000) ⟨2024, 3, 5⟩).categoryData
      = [("Rent", .num (.num 1000)), ("Travel", .num (.num 300)), ("Food", .num (.num 150))] ∧
    (∀ p ∈ (stats sampleC20 (.num 3000) ⟨2024, 3, 5⟩).categoryData, p.2.IsNum) ∧
    List.Sorted valueGe (stats sampleC20 (.num 3000) ⟨2024, 3, 5⟩).categoryData ∧
    List.Chain' valueGe (stats sampleC20 (.num 3000) ⟨2024, 3, 5⟩).categoryData :=
  ⟨by simp [sampleC20], by simp [sampleC20, plainKey, objectPrototypeFunctions],
    by
      simp [stats, accumulate, step, sampleC20, Acc.init, catTotalsStep, objGet, objSet,
        objectPrototypeFunctions, JSNum.orZero, JSNum.add, List.insertionSort,
        List.orderedInsert, catBefore, CatVal.toNumber, JSNum.sub]
      norm_num,
    categoryData_sorted sampleC20 (.num 3000) ⟨2024, 3, 5⟩ (by simp [sampleC20])
      (by simp [sampleC20, plainKey, objectPrototypeFunctions])⟩

/-! ### Totals -/

theorem JSNum.add_comm' (a b : JSNum) : a.add b = b.add a := by
  cases a <;> cases b <;> simp [JSNum.add, add_comm]

theorem JSNum.add_assoc' (a b c : JSNum) : (a.add b).add c = a.add (b.add c) := by
  cases a <;> cases b <;> cases c <;> simp [JSNum.add, add_assoc]

theorem JSNum.zero_add' (a : JSNum) : (JSNum.num 0).add a = a := by
  cases a <;> simp [JSNum.add]

theorem JSNum.add_zero' (a : JSNum) : a.add (JSNum.num 0) = a := by
  cases a <;> simp [JSNum.add]

theorem JSNum.foldl_add (l : List JSNum) (a : JSNum) :
    l.foldl JSNum.add a = a.add (JSNum.sum l) := by
  induction l using List.reverseRecOn with
  | nil => simp [JSNum.sum, JSNum.add_zero']
  | append_singleton l x ih =>
    rw [List.foldl_append, JSNum.sum_append_singleton, ← JSNum.add_assoc', ← ih]
    rfl

theorem JSNum.sum_cons (x : JSNum) (l : List JSNum) :
    JSNum.sum (x :: l) = x.add (JSNum.sum l) := by
  show l.foldl JSNum.add ((JSNum.num 0).add x) = _
  rw [JSNum.zero_add', JSNum.foldl_add]

theorem JSNum.sum_append (l₁ l₂ : List JSNum) :
    JSNum.sum (l₁ ++ l₂) = (JSNum.sum l₁).add (JSNum.sum l₂) := by
  induction l₁ with
  | nil => simp [JSNum.sum, JSNum.zero_add']
  | cons x xs ih => rw [List.cons_append, JSNum.sum_cons, JSNum.sum_cons, ih, JSNum.add_assoc']

/-- The sum of numbers does not depend on their order. -/
theorem JSNum.sum_perm (l₁ l₂ : List JSNum) (h : l₁.Perm l₂) : JSNum.sum l₁ = JSNum.sum l₂ := by
  induction h with
  | nil => rfl
  | cons x _ ih => rw [JSNum.sum_cons, JSNum.sum_cons, ih]
  | swap x y l =>
    rw [JSNum.sum_cons, JSNum.sum_cons, JSNum.sum_cons, JSNum.sum_cons, ← JSNum.add_assoc',
      ← JSNum.add_assoc', JSNum.add_comm' y x]
  | trans _ _ ih1 ih2 => exact ih1.trans ih2

theorem amountsOf_append (l : List Transaction) (t : Transaction) (ty : TxType) :
    amountsOf (l ++ [t]) ty = if t.type = ty then amountsOf l ty ++ [t.amount]
      else amountsOf l ty := by
  unfold amountsOf
  rw [List.filter_append]
  split_ifs with h
  · have : [t].filter (fun t => decide (t.type = ty)) = [t] := by
      simp only [List.filter, decide_eq_true h]
    rw [this, List.map_append, List.map_singleton]
  · have : [t].filter (fun t => decide (t.type = ty)) = [] := by
      simp only [List.filter, decide_eq_false h]
    rw [this, List.append_nil]

theorem monthAmountsOf_append (l : List Transaction) (t : Transaction) (ty : TxType)
    (ym : Int × Int) :
    monthAmountsOf (l ++ [t]) ty ym =
      if t.type = ty ∧ monthKey t.date = ym then monthAmountsOf l ty ym ++ [t.amount]
      else monthAmountsOf l ty ym := by
  unfold monthAmountsOf
  rw [List.filter_append]
  split_ifs with h
  · have : [t].filter (fun t => decide (t.type = ty ∧ monthKey t.date = ym)) = [t] := by
      simp only [List.filter, decide_eq_true h]
    rw [this, List.map_append, List.map_singleton]
  · have : [t].filter (fun t => decide (t.type = ty ∧ monthKey t.date = ym)) = [] := by
      simp only [List.filter, decide_eq_false h]
    rw [this, List.append_nil]

theorem step_income (c p : Int × Int) (a : Acc) (t : Transaction) :
    (step c p a t).income =
      match t.type with
      | .income => a.income.add t.amount
      | .expense => a.income := by
  rcases t with ⟨ty, amt, cat, d, r⟩
  cases ty <;> cases r <;> simp [step]

theorem step_currentMonthIncome (c p : Int × Int) (a : Acc) (t : Transaction) :
    (step c p a t).currentMonthIncome =
      if t.type = .income ∧ monthKey t.date = c then a.currentMonthIncome.add t.amount
      else a.currentMonthIncome := by
  rcases t with ⟨ty, amt, cat, d, r⟩
  cases ty <;> cases r <;> simp [step]

theorem step_prevMonthIncome (c p : Int × Int) (a : Acc) (t : Transaction) :
    (step c p a t).prevMonthIncome =
      if t.type = .income ∧ monthKey t.date = p then a.prevMonthIncome.add t.amount
      else a.prevMonthIncome := by
  rcases t with ⟨ty, amt, cat, d, r⟩
  cases ty <;> cases r <;> simp [step]

theorem step_currentMonthExpense (c p : Int × Int) (a : Acc) (t : Transaction) :
    (step c p a t).currentMonthExpense =
      if t.type = .expense ∧ monthKey t.date = c then a.currentMonthExpense.add t.amount
      else a.currentMonthExpense := by
  rcases t with ⟨ty, amt, cat, d, r⟩
  cases ty <;> cases r <;> simp [step]

theorem step_prevMonthExpense (c p : Int × Int) (a : Acc) (t : Transaction) :
    (step c p a t).prevMonthExpense =
      if t.type = .expense ∧ monthKey t.date = p then a.prevMonthExpense.add t.amount
      else a.prevMonthExpense := by
  rcases t with ⟨ty, amt, cat, d, r⟩
  cases ty <;> cases r <;> simp [step]

theorem step_recurringList (c p : Int × Int) (a : Acc) (t : Transaction) :
    (step c p a t).recurringList =
      if t.isRecurring then a.recurringList ++ [t] else a.recurringList := by
  rcases t with ⟨ty, amt, cat, d, r⟩
  cases ty <;> cases r <;> simp [step]

/-- The scalar totals after the loop, as sums over the matching
transactions. -/
theorem accumulate_totals (c p : Int × Int) (l : List Transaction) :
    (accumulate c p l).income = JSNum.sum (amountsOf l .income) ∧
    (accumulate c p l).expense = JSNum.sum (amountsOf l .expense) ∧
    (accumulate c p l).currentMonthIncome = JSNum.sum (monthAmountsOf l .income c) ∧
    (accumulate c p l).prevMonthIncome = JSNum.sum (monthAmountsOf l .income p) ∧
    (accumulate c p l).currentMonthExpense = JSNum.sum (monthAmountsOf l .expense c) ∧
    (accumulate c p l).prevMonthExpense = JSNum.sum (monthAmountsOf l .expense p) := by
  induction l using List.reverseRecOn with
  | nil => exact ⟨rfl, rfl, rfl, rfl, rfl, rfl⟩
  | append_singleton l t ih =>
    obtain ⟨i1, i2, i3, i4, i5, i6⟩ := ih
    rw [accumulate_append, step_income, step_expense, step_currentMonthIncome,
      step_prevMonthIncome, step_currentMonthExpense, step_prevMonthExpense,
      amountsOf_append, amountsOf_append, monthAmountsOf_append, monthAmountsOf_append,
      monthAmountsOf_append, monthAmountsOf_append, i1, i2, i3, i4, i5, i6]
    cases hty : t.type with
    | income =>
      refine ⟨?_, ?_, ?_, ?_, ?_, ?_⟩
      · simp [JSNum.sum_append_singleton]
      · simp
      · split_ifs <;> simp_all [JSNum.sum_append_singleton]
      · split_ifs <;> simp_all [JSNum.sum_append_singleton]
      · simp
      · simp
    | expense =>
      refine ⟨?_, ?_, ?_, ?_, ?_, ?_⟩
      · simp
      · simp [JSNum.sum_append_singleton]
      · simp
      · simp
      · split_ifs <;> simp_all [JSNum.sum_append_singleton]
      · split_ifs <;> simp_all [JSNum.sum_append_singleton]

/-- Claim C22. The balance is `income - expense`, where income and expense are
the sums of the amounts of the income and of the expense transactions. -/
theorem balance_eq (transactions : List Transaction) (monthlyBudget : JSNum) (now : CivilDate) :
    (stats transactions monthlyBudget now).balance
      = ((stats transactions monthlyBudget now).income).sub
          (stats transactions monthlyBudget now).expense ∧
    (stats transactions monthlyBudget now).income = JSNum.sum (amountsOf transactions .income) ∧
    (stats transactions monthlyBudget now).expense
      = JSNum.sum (amountsOf transactions .expense) := by
  obtain ⟨h1, h2, -⟩ := accumulate_totals (currentMonthStr now) (prevMonthStr now) transactions
  exact ⟨rfl, h1, h2⟩

/-- Claim C23. On the empty list all totals are `0`, the three sequences are
empty, both trends are `0` and the trend divisions meet no zero divisor. -/
theorem stats_empty (monthlyBudget : JSNum) (now : CivilDate) :
    (stats [] monthlyBudget now).income = .num 0 ∧
    (stats [] monthlyBudget now).expense = .num 0 ∧
    (stats [] monthlyBudget now).balance = .num 0 ∧
    (stats [] monthlyBudget now).currentMonthExpense = .num 0 ∧
    (stats [] monthlyBudget now).categoryData = [] ∧
    (stats [] monthlyBudget now).barData = [] ∧
    (stats [] monthlyBudget now).recurringList = [] ∧
    (stats [] monthlyBudget now).incomeTrend = .num 0 ∧
    (stats [] monthlyBudget now).expenseTrend = .num 0 ∧
    calcTrendChecked (accumulate (currentMonthStr now) (prevMonthStr now) []).currentMonthIncome
      (accumulate (currentMonthStr now) (prevMonthStr now) []).prevMonthIncome
        = some (.num 0) ∧
    calcTrendChecked (accumulate (currentMonthStr now) (prevMonthStr now) []).currentMonthExpense
      (accumulate (currentMonthStr now) (prevMonthStr now) []).prevMonthExpense
        = some (.num 0) := by
  have hb : (stats [] monthlyBudget now).balance = .num 0 := by
    simp [stats, accumulate, Acc.init, JSNum.sub]
  have ht : calcTrend (.num 0) (.num 0) = .num 0 := by
    rw [calcTrend_num]
    simp
  have hc : calcTrendChecked (.num 0) (.num 0) = some (.num 0) := by
    simp [calcTrendChecked, JSNum.isZero, JSNum.gt]
  exact ⟨rfl, rfl, hb, rfl, rfl, rfl, rfl, ht, ht, hc, hc⟩

theorem accumulate_recurringList (c p : Int × Int) (l : List Transaction) :
    (accumulate c p l).recurringList = l.filter (fun t => t.isRecurring) := by
  induction l using List.reverseRecOn with
  | nil => rfl
  | append_singleton l t ih =>
    rw [accumulate_append, step_recurringList, ih, List.filter_append]
    cases h : t.isRecurring with
    | true => simp [List.filter, h]
    | false => simp [List.filter, h]

/-- Claim C24. The recurring list is the input list filtered by the
`isRecurring` flag: the flagged transactions, unchanged and in input order,
whatever their type. -/
theorem recurringList_eq (transactions : List Transaction) (monthlyBudget : JSNum)
    (now : CivilDate) :
    (stats transactions monthlyBudget now).recurringList
      = transactions.filter (fun t => t.isRecurring) ∧
    List.Sublist (stats transactions monthlyBudget now).recurringList transactions ∧
    (stats sampleC24 monthlyBudget now).recurringList
      = [ ⟨.expense, .num 50, "Netflix", ⟨2024, 3, 15⟩, true⟩,
          ⟨.income, .num 70, "Rent", ⟨2024, 2, 1⟩, true⟩ ] := by
  have h : ∀ l : List Transaction, (stats l monthlyBudget now).recurringList
      = l.filter (fun t => t.isRecurring) :=
    fun l => accumulate_recurringList (currentMonthStr now) (prevMonthStr now) l
  refine ⟨h _, ?_, ?_⟩
  · rw [h]
    exact List.filter_sublist _
  · rw [h]
    simp [sampleC24, List.filter]

/-! ### Totals of the bar series -/

theorem bucketField_addTo (ty ty' : TxType) (b : MonthBucket) (v : JSNum) :
    bucketField ty (b.addTo ty' v) =
      (bucketField ty b).add (if ty' = ty then v else .num 0) := by
  cases ty <;> cases ty' <;> simp [bucketField, MonthBucket.addTo, JSNum.add_zero']

theorem objSet_of_absent {κ α : Type} [DecidableEq κ] (l : List (κ × α)) (k : κ) (v : α)
    (h : objGet l k = none) : objSet l k v = l ++ [(k, v)] := by
  induction l with
  | nil => rfl
  | cons x xs ih =>
    obtain ⟨a, x⟩ := x
    simp only [objGet] at h
    split_ifs at h with e
    simp only [objSet, if_neg e, List.cons_append, ih h]

/-- Replacing the value of a present key changes the sum of a field by the
difference of the two values. -/
theorem sum_objSet_replace {κ α : Type} [DecidableEq κ] (f : α → JSNum) (l : List (κ × α))
    (k : κ) (b b' : α) (v : JSNum) (hg : objGet l k = some b) (hf : f b' = (f b).add v) :
    JSNum.sum ((objSet l k b').map (fun p => f p.2))
      = (JSNum.sum (l.map (fun p => f p.2))).add v := by
  induction l with
  | nil => simp [objGet] at hg
  | cons x xs ih =>
    obtain ⟨a, x⟩ := x
    simp only [objGet] at hg
    split_ifs at hg with e
    · injection hg with hg
      subst hg
      simp only [objSet, if_pos e, List.map_cons, JSNum.sum_cons, hf]
      rw [JSNum.add_assoc', JSNum.add_comm' v, ← JSNum.add_assoc']
    · simp only [objSet, if_neg e, List.map_cons, JSNum.sum_cons, ih hg, JSNum.add_assoc']

theorem sum_bucketStep (ty : TxType) (md : List (String × MonthBucket)) (t : Transaction) :
    JSNum.sum ((bucketStep md t).map (fun p => bucketField ty p.2))
      = (JSNum.sum (md.map (fun p => bucketField ty p.2))).add
          (if t.type = ty then t.amount else .num 0) := by
  rw [bucketStep_eq]
  cases h : objGet md (monthShort t.date.month) with
  | some b =>
    simp only [Option.getD_some]
    exact sum_objSet_replace (bucketField ty) md _ b _ _ h (bucketField_addTo ty _ b _)
  | none =>
    simp only [Option.getD_none]
    have hg : objGet (objSet md (monthShort t.date.month) (freshBucket t))
        (monthShort t.date.month) = some (freshBucket t) := by
      rw [objGet_objSet, if_pos rfl]
    rw [sum_objSet_replace (bucketField ty) _ _ (freshBucket t) _ _ hg
      (bucketField_addTo ty _ (freshBucket t) _), objSet_of_absent _ _ _ h, List.map_append,
      JSNum.sum_append]
    have hz : JSNum.sum ([(monthShort t.date.month, freshBucket t)].map
        (fun p => bucketField ty p.2)) = .num 0 := by
      cases ty <;> simp [JSNum.sum, bucketField, freshBucket, JSNum.add]
    rw [hz, JSNum.add_zero']

theorem sum_bucketsOf (ty : TxType) (l : List Transaction) :
    JSNum.sum ((bucketsOf l).map (fun p => bucketField ty p.2)) = JSNum.sum (amountsOf l ty) := by
  induction l using List.reverseRecOn with
  | nil => rfl
  | append_singleton l t ih =>
    rw [bucketsOf_append, sum_bucketStep, ih, amountsOf_append]
    split_ifs
    · rw [JSNum.sum_append_singleton]
    · rw [JSNum.add_zero']

/-- Claim C29 (amended). With exact arithmetic, the `income` fields of the
bar series add up to `stats.income` and the `expense` fields to
`stats.expense`. -/
theorem barData_totals (transactions : List Transaction) (monthlyBudget : JSNum)
    (now : CivilDate) :
    JSNum.sum ((stats transactions monthlyBudget now).barData.map (fun b => b.income))
      = (stats transactions monthlyBudget now).income ∧
    JSNum.sum ((stats transactions monthlyBudget now).barData.map (fun b => b.expense))
      = (stats transactions monthlyBudget now).expense := by
  obtain ⟨h1, h2, -⟩ := accumulate_totals (currentMonthStr now) (prevMonthStr now) transactions
  have hperm := List.perm_insertionSort barBefore ((bucketsOf transactions).map Prod.snd)
  have e1 := sum_bucketsOf .income transactions
  have e2 := sum_bucketsOf .expense transactions
  have f1 : (stats transactions monthlyBudget now).income
      = JSNum.sum (amountsOf transactions .income) := h1
  have f2 : (stats transactions monthlyBudget now).expense
      = JSNum.sum (amountsOf transactions .expense) := h2
  have g : (stats transactions monthlyBudget now).barData
      = ((bucketsOf transactions).map Prod.snd).insertionSort barBefore := by
    simp only [stats, accumulate_monthlyData]
  rw [f1, f2, g, ← e1, ← e2]
  constructor
  · rw [JSNum.sum_perm _ _ (hperm.map _), List.map_map]
    rfl
  · rw [JSNum.sum_perm _ _ (hperm.map _), List.map_map]
    rfl

/-! ### Interest is positive -/

theorem growth_lt (b : ℚ) (hb : 1 < b) (m : ℕ) (hm : 1 ≤ m) :
    b ^ m - 1 < (m : ℚ) * (b - 1) * b ^ m := by
  induction m with
  | zero => omega
  | succ n ih =>
    have hb0 : 0 < b - 1 := by linarith
    have hpow : 1 ≤ b ^ (n + 1) := one_le_pow₀ (le_of_lt hb)
    by_cases hn : n = 0
    · subst hn
      simp only [zero_add, pow_one, Nat.cast_one, one_mul]
      nlinarith
    · have ih' := ih (Nat.one_le_iff_ne_zero.2 hn)
      have e1 : b ^ (n + 1) - 1 = b * (b ^ n - 1) + (b - 1) := by ring
      have e2 : b * ((n : ℚ) * (b - 1) * b ^ n) = (n : ℚ) * (b - 1) * b ^ (n + 1) := by ring
      have h1 : b * (b ^ n - 1) < b * ((n : ℚ) * (b - 1) * b ^ n) :=
        mul_lt_mul_of_pos_left ih' (by linarith)
      have h2 : b - 1 ≤ (b - 1) * b ^ (n + 1) := by nlinarith
      rw [e1]
      push_cast
      rw [e2] at h1
      nlinarith

theorem emiFormula_total_gt (principal rate : ℚ) (m : ℕ) (hp : 0 < principal) (hr : 0 < rate)
    (hm : 1 ≤ m) : principal < emiFormula principal rate m * m := by
  have hi : 0 < rate / 1200 := by positivity
  have hb : 1 < 1 + rate / 1200 := by linarith
  have hg := growth_lt (1 + rate / 1200) hb m hm
  have hden : 0 < (1 + rate / 1200) ^ m - 1 := by
    have := one_lt_pow₀ hb (Nat.one_le_iff_ne_zero.1 hm)
    linarith
  have e : emiFormula principal rate m * m
      = principal * ((m : ℚ) * (1 + rate / 1200 - 1) * (1 + rate / 1200) ^ m)
          / ((1 + rate / 1200) ^ m - 1) := by
    unfold emiFormula
    field_simp
    ring
  rw [e, lt_div_iff₀ hden]
  exact mul_lt_mul_of_pos_left hg hp

/-- Claim C30 (amended). With exact arithmetic, for positive principal and
rate and a whole number of years of at least one, the total payable exceeds
the principal and the total interest is positive. -/
theorem emi_interest_positive (principal rate : ℚ) (years : ℕ) (hp : 0 < principal)
    (hr : 0 < rate) (hy : 1 ≤ years) :
    ∃ total : ℚ,
      (emiCalculator (.num principal) (.num rate) (.num years)).totalAmount = .num total ∧
      principal < total ∧
      (emiCalculator (.num principal) (.num rate) (.num years)).totalInterest
        = .num (total - principal) ∧
      0 < total - principal := by
  have hy0 : (0 : ℚ) < (years : ℚ) := by exact_mod_cast hy
  have hm : (years : ℚ) * 12 = ((years * 12 : ℕ) : ℚ) := by push_cast; ring
  obtain ⟨-, h2, h3⟩ := emiCalculator_num principal rate years (years * 12) hp hr hy0 hm
  have hgt := emiFormula_total_gt principal rate (years * 12) hp hr (by omega)
  exact ⟨_, h2, hgt, h3, by linarith⟩

theorem emi_interest_positive_witness :
    ∃ total : ℚ,
      (emiCalculator (.num 500000) (.num (19 / 2)) (.num ((5 : ℕ) : ℚ))).totalAmount
        = .num total ∧
      500000 < total ∧
      (emiCalculator (.num 500000) (.num (19 / 2)) (.num ((5 : ℕ) : ℚ))).totalInterest
        = .num (total - 500000) ∧
      0 < total - 500000 :=
  emi_interest_positive 500000 (19 / 2) 5 (by norm_num) (by norm_num) (by norm_num)

/-! ### Independence of the input order -/

theorem catEntries_append (l : List Transaction) (t : Transaction) (c : String) :
    catEntries (l ++ [t]) c =
      if t.type = .expense ∧ t.category = c then catEntries l c ++ [t.amount]
      else catEntries l c := by
  unfold catEntries
  rw [List.filter_append]
  split_ifs with h
  · have : [t].filter (fun t => decide (t.type = .expense ∧ t.category = c)) = [t] := by
      simp only [List.filter, decide_eq_true h]
    rw [this, List.map_append, List.map_singleton]
  · have : [t].filter (fun t => decide (t.type = .expense ∧ t.category = c)) = [] := by
      simp only [List.filter, decide_eq_false h]
    rw [this, List.append_nil]

/-- The entry `catTotals[c]` after the loop, when no expense category names a
member of `Object.prototype`. -/
theorem objGet_catTotals (c p : Int × Int) (l : List Transaction)
    (hkeys : ∀ t ∈ l, t.type = .expense → plainKey t.category) (k : String) :
    objGet (accumulate c p l).catTotals k = (spendFold (catEntries l k)).map CatVal.num := by
  induction l using List.reverseRecOn generalizing k with
  | nil => rfl
  | append_singleton l t ih =>
    have hl : ∀ s ∈ l, s.type = .expense → plainKey s.category :=
      fun s hs => hkeys s (List.mem_append_left _ hs)
    rw [accumulate_append, step_catTotals, catEntries_append]
    cases hty : t.type with
    | income =>
      simp only [false_and, if_false, reduceCtorEq]
      exact ih hl k
    | expense =>
      have hp : plainKey t.category := hkeys t (List.mem_append_right _ (by simp)) hty
      simp only [true_and]
      rw [catTotalsStep_of_get _ _ _ _ (ih hl t.category) hp, objGet_objSet]
      by_cases h : t.category = k
      · rw [if_pos h, if_pos h, spendFold_append, h]
        rfl
      · rw [if_neg h, if_neg h]
        exact ih hl k

theorem nodup_keys_catTotals (c p : Int × Int) (l : List Transaction) :
    ((accumulate c p l).catTotals.map Prod.fst).Nodup := by
  induction l using List.reverseRecOn with
  | nil => simp [accumulate, Acc.init]
  | append_singleton l t ih =>
    rw [accumulate_append, step_catTotals]
    cases hty : t.type with
    | income => exact ih
    | expense =>
      simp only
      rcases catTotalsStep_cases (accumulate c p l).catTotals t.category t.amount with e | ⟨x, e⟩
      · rw [e]
        exact ih
      · rw [e]
        exact nodup_keys_objSet _ _ _ ih

/-- A property read does not depend on the order of the properties. -/
theorem objGet_perm {κ α : Type} [DecidableEq κ] (l₁ l₂ : List (κ × α)) (h : l₁.Perm l₂)
    (hn : (l₁.map Prod.fst).Nodup) (k : κ) : objGet l₁ k = objGet l₂ k := by
  have hn2 : (l₂.map Prod.fst).Nodup := ((h.map Prod.fst).nodup_iff).1 hn
  cases h1 : objGet l₁ k with
  | none =>
    have hk := (objGet_eq_none_iff l₁ k).1 h1
    have hk2 : k ∉ l₂.map Prod.fst := fun hc => hk ((h.map Prod.fst).mem_iff.2 hc)
    exact ((objGet_eq_none_iff l₂ k).2 hk2).symm
  | some v =>
    have hm := mem_objGet l₁ k v h1
    exact (objGet_of_mem l₂ hn2 k v (h.mem_iff.1 hm)).symm

theorem spendFold_eq_none (vals : List JSNum) (h : spendFold vals = none) : vals = [] := by
  rcases List.eq_nil_or_concat vals with e | ⟨xs, x, e⟩
  · exact e
  · rw [e, List.concat_eq_append, spendFold_append] at h
    exact Option.noConfusion h

/-- On numbers the folded value of a key does not depend on the order of the
additions. -/
theorem spendFold_perm (l₁ l₂ : List JSNum) (hp : l₁.Perm l₂)
    (hnum : ∀ x ∈ l₁, x ≠ JSNum.nan) : spendFold l₁ = spendFold l₂ := by
  have hnum2 : ∀ x ∈ l₂, x ≠ JSNum.nan := fun x hx => hnum x (hp.mem_iff.2 hx)
  have hsum : (l₁.map JSNum.toQ).sum = (l₂.map JSNum.toQ).sum := (hp.map _).sum_eq
  cases h1 : spendFold l₁ with
  | none =>
    have e1 := spendFold_eq_none l₁ h1
    rw [e1] at hp
    rw [← hp.nil_eq]
    rfl
  | some v =>
    cases h2 : spendFold l₂ with
    | none =>
      have e2 := spendFold_eq_none l₂ h2
      rw [e2] at hp
      rw [hp.eq_nil] at h1
      exact absurd h1 (by simp [spendFold])
    | some w =>
      rw [spendFold_num l₁ hnum v h1, spendFold_num l₂ hnum2 w h2, hsum]

theorem amountsOf_perm (l₁ l₂ : List Transaction) (hp : l₁.Perm l₂) (ty : TxType) :
    (amountsOf l₁ ty).Perm (amountsOf l₂ ty) :=
  (hp.filter _).map _

theorem monthAmountsOf_perm (l₁ l₂ : List Transaction) (hp : l₁.Perm l₂) (ty : TxType)
    (ym : Int × Int) : (monthAmountsOf l₁ ty ym).Perm (monthAmountsOf l₂ ty ym) :=
  (hp.filter _).map _

/-- Claim C25 (amended). For two orderings of the same transactions, with
amounts that are exact numbers and no expense category naming a member of
`Object.prototype`, the totals, the balance, the current month expense, both
trends, the streak and the value recorded for every category agree. -/
theorem stats_perm_invariant (transactions₁ transactions₂ : List Transaction)
    (monthlyBudget : JSNum) (now : CivilDate) (hperm : transactions₁.Perm transactions₂)
    (hnum : ∀ t ∈ transactions₁, t.amount ≠ JSNum.nan)
    (hkeys : ∀ t ∈ transactions₁, t.type = .expense → plainKey t.category) :
    (stats transactions₁ monthlyBudget now).income
      = (stats transactions₂ monthlyBudget now).income ∧
    (stats transactions₁ monthlyBudget now).expense
      = (stats transactions₂ monthlyBudget now).expense ∧
    (stats transactions₁ monthlyBudget now).balance
      = (stats transactions₂ monthlyBudget now).balance ∧
    (stats transactions₁ monthlyBudget now).currentMonthExpense
      = (stats transactions₂ monthlyBudget now).currentMonthExpense ∧
    (stats transactions₁ monthlyBudget now).incomeTrend
      = (stats transactions₂ monthlyBudget now).incomeTrend ∧
    (stats transactions₁ monthlyBudget now).expenseTrend
      = (stats transactions₂ monthlyBudget now).expenseTrend ∧
    (stats transactions₁ monthlyBudget now).streak
      = (stats transactions₂ monthlyBudget now).streak ∧
    (∀ c : String, objGet (stats transactions₁ monthlyBudget now).categoryData c
      = objGet (stats transactions₂ monthlyBudget now).categoryData c) := by
  obtain ⟨a1, a2, a3, a4, a5, a6⟩ :=
    accumulate_totals (currentMonthStr now) (prevMonthStr now) transactions₁
  obtain ⟨b1, b2, b3, b4, b5, b6⟩ :=
    accumulate_totals (currentMonthStr now) (prevMonthStr now) transactions₂
  have e1 : (accumulate (currentMonthStr now) (prevMonthStr now) transactions₁).income
      = (accumulate (currentMonthStr now) (prevMonthStr now) transactions₂).income := by
    rw [a1, b1]
    exact JSNum.sum_perm _ _ (amountsOf_perm _ _ hperm _)
  have e2 : (accumulate (currentMonthStr now) (prevMonthStr now) transactions₁).expense
      = (accumulate (currentMonthStr now) (prevMonthStr now) transactions₂).expense := by
    rw [a2, b2]
    exact JSNum.sum_perm _ _ (amountsOf_perm _ _ hperm _)
  have e3 : (accumulate (currentMonthStr now) (prevMonthStr now) transactions₁).currentMonthIncome
      = (accumulate (currentMonthStr now) (prevMonthStr now)
          transactions₂).currentMonthIncome := by
    rw [a3, b3]
    exact JSNum.sum_perm _ _ (monthAmountsOf_perm _ _ hperm _ _)
  have e4 : (accumulate (currentMonthStr now) (prevMonthStr now) transactions₁).prevMonthIncome
      = (accumulate (currentMonthStr now) (prevMonthStr now) transactions₂).prevMonthIncome := by
    rw [a4, b4]
    exact JSNum.sum_perm _ _ (monthAmountsOf_perm _ _ hperm _ _)
  have e5 : (accumulate (currentMonthStr now) (prevMonthStr now)
        transactions₁).currentMonthExpense
      = (accumulate (currentMonthStr now) (prevMonthStr now)
          transactions₂).currentMonthExpense := by
    rw [a5, b5]
    exact JSNum.sum_perm _ _ (monthAmountsOf_perm _ _ hperm _ _)
  have e6 : (accumulate (currentMonthStr now) (prevMonthStr now) transactions₁).prevMonthExpense
      = (accumulate (currentMonthStr now) (prevMonthStr now)
          transactions₂).prevMonthExpense := by
    rw [a6, b6]
    exact JSNum.sum_perm _ _ (monthAmountsOf_perm _ _ hperm _ _)
  refine ⟨e1, e2, ?_, e5, ?_, ?_, ?_, ?_⟩
  · show ((accumulate (currentMonthStr now) (prevMonthStr now) transactions₁).income).sub _
      = ((accumulate (currentMonthStr now) (prevMonthStr now) transactions₂).income).sub _
    rw [e1, e2]
  · show calcTrend _ _ = calcTrend _ _
    rw [e3, e4]
  · show calcTrend _ _ = calcTrend _ _
    rw [e5, e6]
  · rw [stats_streak, stats_streak]
    apply streakLoop_congr
    intro j _ _
    rw [objGet_dailySpend, objGet_dailySpend]
    exact spendFold_perm _ _ ((hperm.filter _).map _) (spendEntries_ne_nan _ _ _ hnum)
  · intro c
    have p1 := List.perm_insertionSort catBefore
      (accumulate (currentMonthStr now) (prevMonthStr now) transactions₁).catTotals
    have p2 := List.perm_insertionSort catBefore
      (accumulate (currentMonthStr now) (prevMonthStr now) transactions₂).catTotals
    have n1 := nodup_keys_catTotals (currentMonthStr now) (prevMonthStr now) transactions₁
    have n2 := nodup_keys_catTotals (currentMonthStr now) (prevMonthStr now) transactions₂
    have q1 : objGet (stats transactions₁ monthlyBudget now).categoryData c
        = objGet (accumulate (currentMonthStr now) (prevMonthStr now) transactions₁).catTotals
            c :=
      (objGet_perm _ _ p1.symm n1 c).symm
    have q2 : objGet (stats transactions₂ monthlyBudget now).categoryData c
        = objGet (accumulate (currentMonthStr now) (prevMonthStr now) transactions₂).catTotals
            c :=
      (objGet_perm _ _ p2.symm n2 c).symm
    have hkeys2 : ∀ t ∈ transactions₂, t.type = .expense → plainKey t.category :=
      fun t ht => hkeys t (hperm.mem_iff.2 ht)
    rw [q1, q2, objGet_catTotals _ _ _ hkeys, objGet_catTotals _ _ _ hkeys2]
    congr 1
    have hcat : ∀ x ∈ catEntries transactions₁ c, x ≠ JSNum.nan := by
      intro x hx
      obtain ⟨t, ht, rfl⟩ := List.mem_map.1 hx
      exact hnum t (List.mem_filter.1 ht).1
    exact spendFold_perm _ _ ((hperm.filter _).map _) hcat

theorem stats_perm_invariant_witness :
    (stats sampleC1 (.num 3000) ⟨2024, 3, 5⟩).income
      = (stats sampleC25 (.num 3000) ⟨2024, 3, 5⟩).income ∧
    (stats sampleC1 (.num 3000) ⟨2024, 3, 5⟩).expense
      = (stats sampleC25 (.num 3000) ⟨2024, 3, 5⟩).expense ∧
    (stats sampleC1 (.num 3000) ⟨2024, 3, 5⟩).balance
      = (stats sampleC25 (.num 3000) ⟨2024, 3, 5⟩).balance ∧
    (stats sampleC1 (.num 3000) ⟨2024, 3, 5⟩).currentMonthExpense
      = (stats sampleC25 (.num 3000) ⟨2024, 3, 5⟩).currentMonthExpense ∧
    (stats sampleC1 (.num 3000) ⟨2024, 3, 5⟩).incomeTrend
      = (stats sampleC25 (.num 3000) ⟨2024, 3, 5⟩).incomeTrend ∧
    (stats sampleC1 (.num 3000) ⟨2024, 3, 5⟩).expenseTrend
      = (stats sampleC25 (.num 3000) ⟨2024, 3, 5⟩).expenseTrend ∧
    (stats sampleC1 (.num 3000) ⟨2024, 3, 5⟩).streak
      = (stats sampleC25 (.num 3000) ⟨2024, 3, 5⟩).streak ∧
    (∀ c : String, objGet (stats sampleC1 (.num 3000) ⟨2024, 3, 5⟩).categoryData c
      = objGet (stats sampleC25 (.num 3000) ⟨2024, 3, 5⟩).categoryData c) :=
  stats_perm_invariant sampleC1 sampleC25 (.num 3000) ⟨2024, 3, 5⟩
    (by
      unfold sampleC1 sampleC25
      exact ((List.Perm.swap _ _ _).cons _).trans (List.Perm.swap _ _ _))
    (by simp [sampleC1]) (by simp [sampleC1, plainKey, objectPrototypeFunctions])

/-! ### Category catalog -/

/-- Claim C27 (counterexample). The initial catalog has no duplicate, and
adding the name `Food` (here with surrounding blanks) appends a second
`Food`. -/
theorem addCategory_duplicates :
    initialCategories.Nodup ∧
    handleAddNewCategory initialCategories " Food " true = initialCategories ++ ["Food"] ∧
    ¬ (handleAddNewCategory initialCategories " Food " true).Nodup := by
  refine ⟨by decide, by decide, by decide⟩

/-- Claim C27 (amended). From a duplicate-free catalog the result is
duplicate-free exactly when the name is blank, nobody is signed in, or the
trimmed name is not in the catalog yet; a blank name leaves the catalog
unchanged and any other name is appended trimmed. -/
theorem addCategory_nodup_iff (categories : List String) (newCategoryName : String)
    (user : Bool) (h : categories.Nodup) :
    ((handleAddNewCategory categories newCategoryName user).Nodup ↔
      (jsTrim newCategoryName = "" ∨ user = false ∨ jsTrim newCategoryName ∉ categories)) ∧
    (jsTrim newCategoryName = "" →
      handleAddNewCategory categories newCategoryName user = categories) ∧
    (jsTrim newCategoryName ≠ "" → user = true →
      handleAddNewCategory categories newCategoryName user
        = categories ++ [jsTrim newCategoryName]) := by
  unfold handleAddNewCategory
  refine ⟨?_, ?_, ?_⟩
  · by_cases hb : jsTrim newCategoryName = "" ∨ user = false
    · rw [if_pos hb]
      constructor
      · intro _
        rcases hb with hb | hb
        · exact Or.inl hb
        · exact Or.inr (Or.inl hb)
      · intro _
        exact h
    · rw [if_neg hb]
      have h1 : ¬ jsTrim newCategoryName = "" := fun e => hb (Or.inl e)
      have h2 : ¬ user = false := fun e => hb (Or.inr e)
      rw [List.nodup_append]
      constructor
      · rintro ⟨-, -, hd⟩
        right
        right
        intro hm
        exact hd hm (List.mem_singleton_self _)
      · rintro (e | e | e)
        · exact absurd e h1
        · exact absurd e h2
        · refine ⟨h, List.nodup_singleton _, ?_⟩
          intro a ha hb'
          rw [List.mem_singleton] at hb'
          exact e (hb' ▸ ha)
  · intro hb
    rw [if_pos (Or.inl hb)]
  · intro hb hu
    have : ¬ (jsTrim newCategoryName = "" ∨ user = false) := by
      rintro (e | e)
      · exact hb e
      · rw [hu] at e
        exact Bool.noConfusion e
    rw [if_neg this]

theorem addCategory_nodup_iff_witness :
    ((handleAddNewCategory initialCategories "Travel" true).Nodup ↔
      (jsTrim "Travel" = "" ∨ true = false ∨ jsTrim "Travel" ∉ initialCategories)) ∧
    (jsTrim "Travel" = "" →
      handleAddNewCategory initialCategories "Travel" true = initialCategories) ∧
    (jsTrim "Travel" ≠ "" → true = true →
      handleAddNewCategory initialCategories "Travel" true
        = initialCategories ++ [jsTrim "Travel"]) :=
  addCategory_nodup_iff initialCategories "Travel" true (by decide)

/-! ### Form population -/

/-- Claim C28 (counterexample). An extraction result whose key `amount` is
present with value `0` leaves the form amount at the empty string, not at the
value of the key. -/
theorem magicFill_drops_falsy :
    sampleC28.amount = some (.num 0) ∧
    (handleMagicFill sampleForm sampleC28 "2024-03-15").amount = .str "" ∧
    (handleMagicFill sampleForm sampleC28 "2024-03-15").amount ≠ .num 0 := by
  refine ⟨rfl, ?_, ?_⟩
  · simp [handleMagicFill, sampleC28, orDefault, JSONVal.truthy]
  · simp [handleMagicFill, sampleC28, orDefault, JSONVal.truthy]

/-- Claim C28 (amended). For every parsed result and every subset of absent
keys the population is defined: an absent key gives the default (`expense`,
`Other`, today's date, empty amount and description), a present key with a
truthy value gives that value, a present key with a falsy value gives the
default, and the other form fields are kept. -/
theorem magicFill_defaults (formData : FormData) (data : ExtractionResult) (today : String) :
    (data.type = none → (handleMagicFill formData data today).type = .str "expense") ∧
    (data.category = none → (handleMagicFill formData data today).category = .str "Other") ∧
    (data.date = none → (handleMagicFill formData data today).date = .str today) ∧
    (data.amount = none → (handleMagicFill formData data today).amount = .str "") ∧
    (data.description = none → (handleMagicFill formData data today).description = .str "") ∧
    (∀ v, v.truthy = true →
      (data.type = some v → (handleMagicFill formData data today).type = v) ∧
      (data.category = some v → (handleMagicFill formData data today).category = v) ∧
      (data.date = some v → (handleMagicFill formData data today).date = v) ∧
      (data.amount = some v → (handleMagicFill formData data today).amount = v) ∧
      (data.description = some v → (handleMagicFill formData data today).description = v)) ∧
    (∀ v, v.truthy = false →
      (data.type = some v → (handleMagicFill formData data today).type = .str "expense") ∧
      (data.category = some v → (handleMagicFill formData data today).category = .str "Other") ∧
      (data.date = some v → (handleMagicFill formData data today).date = .str today) ∧
      (data.amount = some v → (handleMagicFill formData data today).amount = .str "") ∧
      (data.description = some v →
        (handleMagicFill formData data today).description = .str "")) ∧
    (handleMagicFill formData data today).isRecurring = formData.isRecurring ∧
    (handleMagicFill formData data today).isSplit = formData.isSplit ∧
    (handleMagicFill formData data today).splitWith = formData.splitWith ∧
    (handleMagicFill formData data today).splitAmount = formData.splitAmount := by
  refine ⟨?_, ?_, ?_, ?_, ?_, ?_, ?_, rfl, rfl, rfl, rfl⟩
  · intro h
    simp [handleMagicFill, h, orDefault]
  · intro h
    simp [handleMagicFill, h, orDefault]
  · intro h
    simp [handleMagicFill, h, orDefault]
  · intro h
    simp [handleMagicFill, h, orDefault]
  · intro h
    simp [handleMagicFill, h, orDefault]
  · intro v hv
    refine ⟨?_, ?_, ?_, ?_, ?_⟩ <;>
    · intro h
      simp [handleMagicFill, h, orDefault, hv]
  · intro v hv
    refine ⟨?_, ?_, ?_, ?_, ?_⟩ <;>
    · intro h
      simp [handleMagicFill, h, orDefault, hv]

/-! ### Chronological order of the bar series -/

theorem monthLength_le (y m : Int) : monthLength y m ≤
    (if m = 2 then (if (y % 4 = 0 ∧ y % 100 ≠ 0) ∨ y % 400 = 0 then 29 else 28)
     else if m = 4 ∨ m = 6 ∨ m = 9 ∨ m = 11 then 30 else 31) := by
  unfold monthLength isLeapYear
  by_cases h2 : m = 2
  · rw [if_pos h2, if_pos h2]
    by_cases hl : (y % 4 = 0 ∧ y % 100 ≠ 0) ∨ y % 400 = 0
    · rw [if_pos hl]
      split_ifs <;> omega
    · rw [if_neg hl]
      have : ((y % 4 == 0 && y % 100 != 0) || y % 400 == 0) = false := by
        simpa [Bool.or_eq_false_iff] using hl
      rw [this]
      simp
  · rw [if_neg h2, if_neg h2]

theorem yearDays_eq (y : Int) :
    y / 400 * 146097 + ((y - y / 400 * 400) * 365 + (y - y / 400 * 400) / 4
      - (y - y / 400 * 400) / 100) = 365 * y + (y / 4 - y / 100 + y / 400) := by
  omega

theorem leapCount_step (y : Int) :
    y / 4 - y / 100 + y / 400 ≤ (y + 1) / 4 - (y + 1) / 100 + (y + 1) / 400 := by
  omega

theorem leapCount_step_leap (y : Int) (h : (y % 4 = 0 ∧ y % 100 ≠ 0) ∨ y % 400 = 0) :
    (y - 1) / 4 - (y - 1) / 100 + (y - 1) / 400 + 1 = y / 4 - y / 100 + y / 400 := by
  omega

theorem leapCount_mono (y : Int) (n : Nat) :
    y / 4 - y / 100 + y / 400 ≤ (y + n) / 4 - (y + n) / 100 + (y + n) / 400 := by
  induction n with
  | zero => simp
  | succ n ih =>
    have := leapCount_step (y + n)
    push_cast
    rw [← add_assoc]
    omega
theorem daysFromCivil_eq (c : CivilDate) :
    daysFromCivil c
      = 365 * shiftedYear c + leapCount (shiftedYear c) + dayOfShiftedYear c - 719468 := by
  have h := yearDays_eq (shiftedYear c)
  unfold daysFromCivil dayOfShiftedYear shiftedMonth leapCount
  unfold shiftedYear at h ⊢
  simp only []
  omega

theorem dayOfShiftedYear_bounds (c : CivilDate) (h : c.Valid) :
    0 ≤ dayOfShiftedYear c ∧
      dayOfShiftedYear c < 365 + (leapCount (shiftedYear c + 1) - leapCount (shiftedYear c)) := by
  obtain ⟨y, m, d⟩ := c
  obtain ⟨h1, h2, h3, h4⟩ := h
  simp only at h1 h2 h3 h4
  have hl := monthLength_le y m
  have hs := leapCount_step (shiftedYear ⟨y, m, d⟩)
  unfold leapCount at hs ⊢
  unfold dayOfShiftedYear shiftedMonth
  unfold shiftedYear at hs ⊢
  simp only at hs ⊢
  by_cases hm : m = 2
  · subst hm
    by_cases hleap : (y % 4 = 0 ∧ y % 100 ≠ 0) ∨ y % 400 = 0
    · have hk := leapCount_step_leap y hleap
      rw [if_pos rfl, if_pos hleap] at hl
      norm_num at hs ⊢
      omega
    · rw [if_pos rfl, if_neg hleap] at hl
      norm_num at hs ⊢
      omega
  · rw [if_neg hm] at hl
    have hd : d ≤ 31 := by
      split_ifs at hl <;> omega
    by_cases h12 : m ≤ 2
    · have : m = 1 := by omega
      subst this
      norm_num at hs ⊢
      omega
    · rw [if_neg h12] at hs ⊢
      rw [if_pos (by omega : m > 2)]
      omega

theorem dayOfShiftedYear_lt (c₁ c₂ : CivilDate) (h₁ : c₁.Valid) (h₂ : c₂.Valid)
    (h : shiftedMonth c₁ < shiftedMonth c₂) : dayOfShiftedYear c₁ < dayOfShiftedYear c₂ := by
  obtain ⟨y1, m1, d1⟩ := c₁
  obtain ⟨y2, m2, d2⟩ := c₂
  obtain ⟨a1, a2, a3, a4⟩ := h₁
  obtain ⟨b1, b2, b3, b4⟩ := h₂
  simp only at a1 a2 a3 a4 b1 b2 b3 b4
  have hl := monthLength_le y1 m1
  unfold dayOfShiftedYear
  unfold shiftedMonth at h ⊢
  simp only at h ⊢
  have hd : d1 ≤ (if m1 = 2 then 29 else if m1 = 4 ∨ m1 = 6 ∨ m1 = 9 ∨ m1 = 11 then 30
      else 31) := by
    split_ifs at hl ⊢ <;> omega
  have hm1 : m1 = 1 ∨ m1 = 2 ∨ m1 = 3 ∨ m1 = 4 ∨ m1 = 5 ∨ m1 = 6 ∨ m1 = 7 ∨ m1 = 8 ∨ m1 = 9 ∨
      m1 = 10 ∨ m1 = 11 ∨ m1 = 12 := by omega
  rcases hm1 with e | e | e | e | e | e | e | e | e | e | e | e <;> subst e <;>
    norm_num at hd h ⊢ <;> split_ifs at h ⊢ <;> omega

/-- Dates of an earlier `YYYY-MM` month have a smaller day number. -/
theorem daysFromCivil_lt (c₁ c₂ : CivilDate) (h₁ : c₁.Valid) (h₂ : c₂.Valid)
    (h : c₁.year < c₂.year ∨ (c₁.year = c₂.year ∧ c₁.month < c₂.month)) :
    daysFromCivil c₁ < daysFromCivil c₂ := by
  rw [daysFromCivil_eq, daysFromCivil_eq]
  obtain ⟨p1, p2⟩ := dayOfShiftedYear_bounds c₁ h₁
  obtain ⟨q1, -⟩ := dayOfShiftedYear_bounds c₂ h₂
  have hy : shiftedYear c₁ < shiftedYear c₂ ∨
      (shiftedYear c₁ = shiftedYear c₂ ∧ shiftedMonth c₁ < shiftedMonth c₂) := by
    obtain ⟨a1, a2, -, -⟩ := h₁
    obtain ⟨b1, b2, -, -⟩ := h₂
    unfold shiftedYear shiftedMonth
    split_ifs <;> omega
  rcases hy with hy | ⟨hy, hm⟩
  · have hmono := leapCount_mono (shiftedYear c₁ + 1)
      (shiftedYear c₂ - (shiftedYear c₁ + 1)).toNat
    have e : shiftedYear c₁ + 1 + ((shiftedYear c₂ - (shiftedYear c₁ + 1)).toNat : Int)
        = shiftedYear c₂ := by omega
    rw [e] at hmono
    change leapCount (shiftedYear c₁ + 1) ≤ leapCount (shiftedYear c₂) at hmono
    omega
  · have := dayOfShiftedYear_lt c₁ c₂ h₁ h₂ hm
    rw [hy]
    omega

theorem addTo_time (b : MonthBucket) (ty : TxType) (v : JSNum) :
    (b.addTo ty v).time = b.time ∧ (b.addTo ty v).name = b.name := by
  cases ty <;> exact ⟨rfl, rfl⟩

/-- Every bucket carries the time stamp of a transaction of its month
label. -/
theorem creator_bucketsOf (l : List Transaction) (k : String) (b : MonthBucket)
    (h : objGet (bucketsOf l) k = some b) :
    ∃ t ∈ l, b.time = getTime t.date ∧ b.name = monthShort t.date.month := by
  induction l using List.reverseRecOn generalizing k b with
  | nil => simp [bucketsOf, objGet] at h
  | append_singleton l t ih =>
    rw [bucketsOf_append, objGet_bucketStep] at h
    split_ifs at h with e
    · injection h with h
      subst h
      cases h0 : objGet (bucketsOf l) (monthShort t.date.month) with
      | none =>
        simp only [Option.getD_none]
        refine ⟨t, by simp, ?_, ?_⟩
        · rw [(addTo_time _ _ _).1]
          rfl
        · rw [(addTo_time _ _ _).2]
          rfl
      | some b0 =>
        obtain ⟨s, hs, e1, e2⟩ := ih _ _ h0
        simp only [Option.getD_some]
        refine ⟨s, List.mem_append_left _ hs, ?_, ?_⟩
        · rw [(addTo_time _ _ _).1, e1]
        · rw [(addTo_time _ _ _).2, e2]
    · obtain ⟨s, hs, e1, e2⟩ := ih _ _ h
      exact ⟨s, List.mem_append_left _ hs, e1, e2⟩

theorem monthLe_of_time_le (c₁ c₂ : CivilDate) (h₁ : c₁.Valid) (h₂ : c₂.Valid)
    (h : getTime c₁ ≤ getTime c₂) : monthLe (monthKey c₁) (monthKey c₂) := by
  unfold monthLe monthKey
  simp only
  by_contra hc
  have hlt : c₂.year < c₁.year ∨ (c₂.year = c₁.year ∧ c₂.month < c₁.month) := by omega
  have := daysFromCivil_lt c₂ c₁ h₂ h₁ hlt
  unfold getTime at h
  omega

/-- Claim C21. The bar series is in non-decreasing order of the stored
`time`; every entry carries the time stamp of a transaction of its label; and,
the dates being valid, the `YYYY-MM` month of an entry's time stamp is not
later than that of any later entry. -/
theorem barData_chronological (transactions : List Transaction) (monthlyBudget : JSNum)
    (now : CivilDate) (hvalid : ∀ t ∈ transactions, t.date.Valid) :
    List.Sorted (fun a b : MonthBucket => a.time ≤ b.time)
      (stats transactions monthlyBudget now).barData ∧
    List.Chain' (fun a b : MonthBucket => a.time ≤ b.time)
      (stats transactions monthlyBudget now).barData ∧
    (∀ b ∈ (stats transactions monthlyBudget now).barData,
      ∃ t ∈ transactions, b.time = getTime t.date ∧ b.name = monthShort t.date.month) ∧
    List.Sorted (fun a b : MonthBucket =>
        ∀ ta ∈ transactions, ∀ tb ∈ transactions,
          a.time = getTime ta.date → b.time = getTime tb.date →
          monthLe (monthKey ta.date) (monthKey tb.date))
      (stats transactions monthlyBudget now).barData := by
  have g : (stats transactions monthlyBudget now).barData
      = ((bucketsOf transactions).map Prod.snd).insertionSort barBefore := by
    simp only [stats, accumulate_monthlyData]
  have hperm := List.perm_insertionSort barBefore ((bucketsOf transactions).map Prod.snd)
  have hs0 : List.Sorted barBefore
      (((bucketsOf transactions).map Prod.snd).insertionSort barBefore) :=
    @List.sorted_insertionSort MonthBucket barBefore _
      ⟨fun a b => by unfold barBefore; omega⟩
      ⟨fun a b c h1 h2 => by unfold barBefore at *; omega⟩ _
  have hs : List.Sorted (fun a b : MonthBucket => a.time ≤ b.time)
      (stats transactions monthlyBudget now).barData := by
    rw [g]
    refine List.Pairwise.imp ?_ hs0
    intro a b hab
    unfold barBefore at hab
    omega
  refine ⟨hs, List.Pairwise.chain' hs, ?_, ?_⟩
  · intro b hb
    rw [g] at hb
    obtain ⟨p, hp, rfl⟩ := List.mem_map.1 (hperm.mem_iff.1 hb)
    obtain ⟨k, b⟩ := p
    exact creator_bucketsOf transactions k b
      (objGet_of_mem _ (keys_bucketsOf transactions).1 k b hp)
  · refine List.Pairwise.imp ?_ hs
    intro a b hab ta hta tb htb ea eb
    rw [ea, eb] at hab
    exact monthLe_of_time_le _ _ (hvalid ta hta) (hvalid tb htb) hab

theorem barData_chronological_witness :
    List.Sorted (fun a b : MonthBucket => a.time ≤ b.time)
      (stats sampleC21 (.num 3000) ⟨2024, 3, 15⟩).barData ∧
    List.Chain' (fun a b : MonthBucket => a.time ≤ b.time)
      (stats sampleC21 (.num 3000) ⟨2024, 3, 15⟩).barData ∧
    (∀ b ∈ (stats sampleC21 (.num 3000) ⟨2024, 3, 15⟩).barData,
      ∃ t ∈ sampleC21, b.time = getTime t.date ∧ b.name = monthShort t.date.month) ∧
    List.Sorted (fun a b : MonthBucket =>
        ∀ ta ∈ sampleC21, ∀ tb ∈ sampleC21,
          a.time = getTime ta.date → b.time = getTime tb.date →
          monthLe (monthKey ta.date) (monthKey tb.date))
      (stats sampleC21 (.num 3000) ⟨2024, 3, 15⟩).barData :=
  barData_chronological sampleC21 (.num 3000) ⟨2024, 3, 15⟩
    (fun t ht => by
      simp only [sampleC21, List.mem_cons, List.mem_singleton, List.not_mem_nil, or_false] at ht
      rcases ht with rfl | rfl | rfl <;> decide)

/-! ### The spending calendar on the failing inputs -/

theorem getDaysInMonth_march : getDaysInMonth 2024 2 = 31 := by
  rw [getDaysInMonth_eq 2024 2 (by decide) (by decide)]
  decide

theorem getDaysInMonth_february : getDaysInMonth 2024 1 = 29 := by
  rw [getDaysInMonth_eq 2024 1 (by decide) (by decide)]
  decide

/-- Claim C14 (failing input). In March 2024 with an unparseable amount on day
5, 40 on day 10 and 400 on day 15, `maxSpend` is `NaN` and day 10, whose share
of the largest daily total is 0.1, is coloured darkest; day 5 shows spend 0.
With the unparseable amount replaced by `0`, `maxSpend` is 400 and day 10 is
coloured lightest. -/
theorem heatmap_nan_amount :
    heatMaxSpend (spendingMapOf utc sampleC14 2024 2) = .nan ∧
    (⟨10, "bg-rose-700", .num 40⟩ : HeatDay) ∈ spendingHeatmap utc sampleC14 false 2024 2 ∧
    (⟨5, "bg-slate-100", .num 0⟩ : HeatDay) ∈ spendingHeatmap utc sampleC14 false 2024 2 ∧
    heatMaxSpend (spendingMapOf utc sampleC14Zero 2024 2) = .num 400 ∧
    (⟨10, "bg-rose-100", .num 40⟩ : HeatDay) ∈ spendingHeatmap utc sampleC14Zero false 2024 2 := by
  have hm : spendingMapOf utc sampleC14 2024 2
      = [((5 : Int), JSNum.nan), (10, .num 40), (15, .num 400)] := by
    simp [spendingMapOf, spendingMapStep, sampleC14, objSet, objGet, JSNum.orZero, JSNum.add]
  have hz : spendingMapOf utc sampleC14Zero 2024 2
      = [((5 : Int), JSNum.num 0), (10, .num 40), (15, .num 400)] := by
    simp [spendingMapOf, spendingMapStep, sampleC14Zero, objSet, objGet, JSNum.orZero,
      JSNum.add]
  have hmax : heatMaxSpend (spendingMapOf utc sampleC14 2024 2) = .nan := by
    rw [hm]
    simp [heatMaxSpend, JSNum.max]
  have hmaxz : heatMaxSpend (spendingMapOf utc sampleC14Zero 2024 2) = .num 400 := by
    rw [hz]
    norm_num [heatMaxSpend, JSNum.max]
  refine ⟨hmax, ?_, ?_, hmaxz, ?_⟩
  · rw [mem_spendingHeatmap, getDaysInMonth_march, hmax, hm]
    refine ⟨9, by decide, ?_⟩
    norm_num [objGet, JSNum.orZero, heatColor, JSNum.gt, JSNum.div, JSNum.lt]
  · rw [mem_spendingHeatmap, getDaysInMonth_march, hmax, hm]
    refine ⟨4, by decide, ?_⟩
    norm_num [objGet, JSNum.orZero, heatColor, JSNum.gt, noSpendColor]
  · rw [mem_spendingHeatmap, getDaysInMonth_march, hmaxz, hz]
    refine ⟨9, by decide, ?_⟩
    norm_num [objGet, JSNum.orZero, heatColor, JSNum.gt, JSNum.div, JSNum.lt]

/-- Claim C16 (failing input). On a host five hours behind UTC an expense of
500 dated 2024-03-01 is read as local day 29 February: with March 2024
selected every day, day 1 included, shows spend 0, and with February 2024
selected day 29 shows the 500.  On a host in the zone UTC, day 1 of March
shows the 500. -/
theorem heatmap_west_of_greenwich :
    localDate (utcMinusFive ⟨2024, 3, 1⟩) ⟨2024, 3, 1⟩ = ⟨2024, 2, 29⟩ ∧
    (⟨1, "bg-slate-100", .num 0⟩ : HeatDay)
      ∈ spendingHeatmap utcMinusFive sampleC16 false 2024 2 ∧
    (∀ e ∈ spendingHeatmap utcMinusFive sampleC16 false 2024 2, e.spend = .num 0) ∧
    (⟨29, "bg-rose-700", .num 500⟩ : HeatDay)
      ∈ spendingHeatmap utcMinusFive sampleC16 false 2024 1 ∧
    (⟨1, "bg-rose-700", .num 500⟩ : HeatDay) ∈ spendingHeatmap utc sampleC16 false 2024 2 := by
  have hl : localDate (utcMinusFive ⟨2024, 3, 1⟩) ⟨2024, 3, 1⟩ = ⟨2024, 2, 29⟩ := by
    decide
  have hmar : spendingMapOf utcMinusFive sampleC16 2024 2 = [] := by
    simp [spendingMapOf, spendingMapStep, sampleC16, hl]
  have hfeb : spendingMapOf utcMinusFive sampleC16 2024 1 = [((29 : Int), JSNum.num 500)] := by
    simp [spendingMapOf, spendingMapStep, sampleC16, hl, objSet, objGet, JSNum.orZero,
      JSNum.add]
  have hutc : spendingMapOf utc sampleC16 2024 2 = [((1 : Int), JSNum.num 500)] := by
    simp [spendingMapOf, spendingMapStep, sampleC16, objSet, objGet, JSNum.orZero, JSNum.add]
  refine ⟨hl, ?_, ?_, ?_, ?_⟩
  · rw [mem_spendingHeatmap, getDaysInMonth_march, hmar]
    refine ⟨0, by decide, ?_⟩
    norm_num [objGet, JSNum.orZero, heatColor, JSNum.gt, noSpendColor]
  · intro e he
    rw [mem_spendingHeatmap, hmar] at he
    obtain ⟨k, -, rfl⟩ := he
    simp [objGet, JSNum.orZero]
  · rw [mem_spendingHeatmap, getDaysInMonth_february, hfeb]
    refine ⟨28, by decide, ?_⟩
    norm_num [objGet, JSNum.orZero, heatColor, JSNum.gt, JSNum.div, JSNum.lt, heatMaxSpend,
      JSNum.max]
  · rw [mem_spendingHeatmap, getDaysInMonth_march, hutc]
    refine ⟨0, by decide, ?_⟩
    norm_num [objGet, JSNum.orZero, heatColor, JSNum.gt, JSNum.div, JSNum.lt, heatMaxSpend,
      JSNum.max]

/-! ### Binary floating point -/

theorem roundHalfEven_eq (x : ℚ) (m : ℤ)
    (h : |x - m| < 1 / 2 ∨ (|x - m| = 1 / 2 ∧ m % 2 = 0)) : roundHalfEven x = m := by
  unfold roundHalfEven
  rcases h with h | ⟨h, he⟩
  · rw [abs_lt] at h
    obtain ⟨h1, h2⟩ := h
    by_cases hm : (m : ℚ) ≤ x
    · have hf : ⌊x⌋ = m := by
        rw [Int.floor_eq_iff]
        constructor
        · exact hm
        · linarith
      rw [hf, if_pos (by linarith)]
    · push_neg at hm
      have hf : ⌊x⌋ = m - 1 := by
        rw [Int.floor_eq_iff]
        push_cast
        constructor
        · linarith
        · linarith
      rw [hf]
      push_cast
      rw [if_neg (by linarith), if_pos (by linarith)]
      ring
  · rcases (abs_eq (by norm_num : (0 : ℚ) ≤ 1 / 2)).1 h with h | h
    · have hf : ⌊x⌋ = m := by
        rw [Int.floor_eq_iff]
        constructor <;> linarith
      rw [hf, if_neg (by linarith), if_neg (by linarith), if_pos he]
    · have hf : ⌊x⌋ = m - 1 := by
        rw [Int.floor_eq_iff]
        push_cast
        constructor <;> linarith
      rw [hf]
      push_cast
      rw [if_neg (by linarith), if_neg (by linarith), if_neg (by omega)]
      ring

theorem floor_le_roundHalfEven (x : ℚ) : ⌊x⌋ ≤ roundHalfEven x := by
  unfold roundHalfEven
  split_ifs <;> omega

/-- The binade of a positive number. -/
theorem log_two_eq (q : ℚ) (k : ℤ) (hq : 0 < q) (h1 : (2 : ℚ) ^ k ≤ q) (h2 : q < 2 ^ (k + 1)) :
    Int.log 2 q = k := by
  have a := (Int.zpow_le_iff_le_log (b := 2) (by norm_num) hq (x := k)).1 (by simpa using h1)
  have b := (Int.lt_zpow_iff_log_lt (b := 2) (by norm_num) hq (x := k + 1)).1 (by simpa using h2)
  omega

/-- The binary64 value of a positive number `q` in the binade of `2 ^ (e + 52)`:
the multiple `m * 2 ^ e` that `q / 2 ^ e` rounds to. -/
theorem Dbl.ofRat_of_round (q v : ℚ) (m e : ℤ) (hv : v = m * 2 ^ e) (hq : 0 < q)
    (h1 : (2 : ℚ) ^ (e + 52) ≤ q) (h2 : q < 2 ^ (e + 53)) (he : -1074 ≤ e)
    (hm : |q / 2 ^ e - m| < 1 / 2 ∨ (|q / 2 ^ e - m| = 1 / 2 ∧ m % 2 = 0))
    (hfin : v < 2 ^ (1024 : ℤ)) :
    Dbl.ofRat q = .fin v := by
  have hl : Int.log 2 |q| = e + 52 := by
    rw [abs_of_pos hq]
    exact log_two_eq q (e + 52) hq h1 (by rw [show e + 52 + 1 = e + 53 by ring]; exact h2)
  have hu : ulpExp q = e := by
    unfold ulpExp
    rw [hl, max_eq_left (by omega)]
    ring
  have hr := roundHalfEven_eq _ m hm
  have hpos : (0 : ℚ) < 2 ^ e := by positivity
  have hm0 : (0 : ℚ) ≤ m := by
    have hx : 0 < q / 2 ^ e := div_pos hq hpos
    have hlt : (-1 : ℚ) < m := by
      rcases hm with h | ⟨h, -⟩
      · have := (abs_lt.1 h).2
        linarith
      · have := (abs_le.1 (le_of_eq h)).2
        linarith
    have h3 : (-1 : ℤ) < m := by exact_mod_cast hlt
    have h4 : (0 : ℤ) ≤ m := by omega
    exact_mod_cast h4
  unfold Dbl.ofRat
  simp only [hu, hr]
  rw [abs_of_nonneg (mul_nonneg hm0 (le_of_lt hpos)), ← hv, if_neg (not_le.2 hfin)]

/-- The binary64 value of a positive number that is not half-way between two
neighbouring values. -/
theorem Dbl.ofRat_near (q v : ℚ) (m e : ℤ) (hv : v = m * 2 ^ e) (hq : 0 < q)
    (h1 : (2 : ℚ) ^ (e + 52) ≤ q) (h2 : q < 2 ^ (e + 53)) (he : -1074 ≤ e)
    (hlo : (m : ℚ) - 1 / 2 < q / 2 ^ e) (hhi : q / 2 ^ e < m + 1 / 2)
    (hfin : v < 2 ^ (1024 : ℤ)) :
    Dbl.ofRat q = .fin v :=
  Dbl.ofRat_of_round q v m e hv hq h1 h2 he
    (Or.inl (abs_lt.2 ⟨by linarith, by linarith⟩)) hfin

/-- The binary64 value of a positive number half-way between two neighbouring
values: the one with the even mantissa. -/
theorem Dbl.ofRat_tie (q v : ℚ) (m e : ℤ) (hv : v = m * 2 ^ e) (hq : 0 < q)
    (h1 : (2 : ℚ) ^ (e + 52) ≤ q) (h2 : q < 2 ^ (e + 53)) (he : -1074 ≤ e)
    (ht : q / 2 ^ e = m + 1 / 2 ∨ q / 2 ^ e = m - 1 / 2) (hev : m % 2 = 0)
    (hfin : v < 2 ^ (1024 : ℤ)) :
    Dbl.ofRat q = .fin v := by
  refine Dbl.ofRat_of_round q v m e hv hq h1 h2 he (Or.inr ⟨?_, hev⟩) hfin
  rcases ht with h | h
  · rw [h]
    norm_num
  · rw [h]
    norm_num

theorem Dbl.ofRat_zero : Dbl.ofRat 0 = .fin 0 := by
  norm_num [Dbl.ofRat, roundHalfEven]

/-- A number of magnitude `2 ^ 1024` or more overflows. -/
theorem Dbl.ofRat_overflow (q : ℚ) (h : (2 : ℚ) ^ (1024 : ℤ) ≤ q) : Dbl.ofRat q = .posInf := by
  have h0 : (0 : ℚ) < 2 ^ (1024 : ℤ) := zpow_pos (by norm_num : (0 : ℚ) < 2) 1024
  have hq : 0 < q := lt_of_lt_of_le h0 h
  have hk : (1024 : ℤ) ≤ Int.log 2 |q| := by
    rw [abs_of_pos hq]
    exact (Int.zpow_le_iff_le_log (b := 2) (by norm_num) hq (x := 1024)).1 (by simpa using h)
  have hu : ulpExp q = Int.log 2 |q| - 52 := by
    unfold ulpExp
    rw [max_eq_left (by omega)]
  have hpos : (0 : ℚ) < 2 ^ (Int.log 2 |q| - 52) := by positivity
  have hle : (2 : ℚ) ^ (Int.log 2 |q|) ≤ q := by
    have := Int.zpow_log_le_self (b := 2) (by norm_num) (abs_pos.2 (ne_of_gt hq))
    rw [abs_of_pos hq] at this ⊢
    simpa using this
  have hx : (2 : ℚ) ^ (52 : ℤ) ≤ q / 2 ^ (Int.log 2 |q| - 52) := by
    rw [le_div_iff₀ hpos, ← zpow_add₀ (by norm_num : (2 : ℚ) ≠ 0)]
    rw [show (52 : ℤ) + (Int.log 2 |q| - 52) = Int.log 2 |q| by ring]
    exact hle
  have hfl : (2 : ℤ) ^ (52 : ℕ) ≤ ⌊q / 2 ^ (Int.log 2 |q| - 52)⌋ := by
    rw [Int.le_floor]
    have : (((2 : ℤ) ^ (52 : ℕ) : ℤ) : ℚ) = (2 : ℚ) ^ (52 : ℤ) := by norm_num
    rw [this]
    exact hx
  have hr : (2 : ℤ) ^ (52 : ℕ) ≤ roundHalfEven (q / 2 ^ (Int.log 2 |q| - 52)) :=
    le_trans hfl (floor_le_roundHalfEven _)
  have hrq : (2 : ℚ) ^ (52 : ℤ) ≤ (roundHalfEven (q / 2 ^ (Int.log 2 |q| - 52)) : ℚ) := by
    have : (((2 : ℤ) ^ (52 : ℕ) : ℤ) : ℚ)
        ≤ (roundHalfEven (q / 2 ^ (Int.log 2 |q| - 52)) : ℚ) := by
      exact_mod_cast hr
    have e : (((2 : ℤ) ^ (52 : ℕ) : ℤ) : ℚ) = (2 : ℚ) ^ (52 : ℤ) := by norm_num
    rw [e] at this
    exact this
  have hbig : (2 : ℚ) ^ (1024 : ℤ)
      ≤ (roundHalfEven (q / 2 ^ (Int.log 2 |q| - 52)) : ℚ) * 2 ^ (Int.log 2 |q| - 52) := by
    have h1 : (2 : ℚ) ^ (Int.log 2 |q|)
        ≤ (roundHalfEven (q / 2 ^ (Int.log 2 |q| - 52)) : ℚ) * 2 ^ (Int.log 2 |q| - 52) := by
      have := mul_le_mul_of_nonneg_right hrq (le_of_lt hpos)
      rw [← zpow_add₀ (by norm_num : (2 : ℚ) ≠ 0)] at this
      rw [show (52 : ℤ) + (Int.log 2 |q| - 52) = Int.log 2 |q| by ring] at this
      exact this
    exact le_trans (zpow_le_zpow_right₀ (by norm_num) hk) h1
  have hnn : (0 : ℚ)
      ≤ (roundHalfEven (q / 2 ^ (Int.log 2 |q| - 52)) : ℚ) * 2 ^ (Int.log 2 |q| - 52) :=
    le_trans (by positivity) hbig
  unfold Dbl.ofRat
  simp only [hu]
  rw [abs_of_nonneg hnn, if_pos hbig, if_pos hq]

theorem Dbl.div_fin (a b : ℚ) (hb : b ≠ 0) : Dbl.div (.fin a) (.fin b) = Dbl.ofRat (a / b) := by
  simp [Dbl.div, hb]

theorem Dbl.pow_wholeExponent (b : ℚ) (n : ℕ) :
    Dbl.pow (.fin b) (.fin (n : ℚ)) = Dbl.ofRat (b ^ n) := by
  simp [Dbl.pow]
theorem Dbl.parse_0_1 : Dbl.ofRat 0.1 = .fin d0_1 := by
  show Dbl.ofRat (0.1) = _
  apply Dbl.ofRat_near (0.1) d0_1 7205759403792794 (-56) <;> norm_num [d0_1]

theorem Dbl.parse_0_2 : Dbl.ofRat 0.2 = .fin d0_2 := by
  show Dbl.ofRat (0.2) = _
  apply Dbl.ofRat_near (0.2) d0_2 7205759403792794 (-55) <;> norm_num [d0_2]

theorem Dbl.parse_0_3 : Dbl.ofRat 0.3 = .fin d0_3 := by
  show Dbl.ofRat (0.3) = _
  apply Dbl.ofRat_near (0.3) d0_3 5404319552844595 (-54) <;> norm_num [d0_3]

theorem Dbl.parse_0_4 : Dbl.ofRat 0.4 = .fin d0_4 := by
  show Dbl.ofRat (0.4) = _
  apply Dbl.ofRat_near (0.4) d0_4 7205759403792794 (-54) <;> norm_num [d0_4]

theorem Dbl.parse_0_6 : Dbl.ofRat 0.6 = .fin d0_6 := by
  show Dbl.ofRat (0.6) = _
  apply Dbl.ofRat_near (0.6) d0_6 5404319552844595 (-53) <;> norm_num [d0_6]

theorem Dbl.parse_0_30000000000000004 :
    Dbl.ofRat 0.30000000000000004 = .fin d0_30000000000000004 := by
  show Dbl.ofRat (0.30000000000000004) = _
  apply Dbl.ofRat_near (0.30000000000000004) d0_30000000000000004 5404319552844596 (-54) <;>
    norm_num [d0_30000000000000004]

theorem Dbl.parse_0_6000000000000001 : Dbl.ofRat 0.6000000000000001 = .fin d0_6000000000000001 := by
  show Dbl.ofRat (0.6000000000000001) = _
  apply Dbl.ofRat_near (0.6000000000000001) d0_6000000000000001 5404319552844596 (-53) <;>
    norm_num [d0_6000000000000001]

theorem Dbl.add_0_d0_1 : Dbl.add (.fin 0) (.fin d0_1) = .fin d0_1 := by
  show Dbl.ofRat (0 + d0_1) = _
  apply Dbl.ofRat_near (0 + d0_1) d0_1 7205759403792794 (-56) <;> norm_num [d0_1]

theorem Dbl.add_0_d0_2 : Dbl.add (.fin 0) (.fin d0_2) = .fin d0_2 := by
  show Dbl.ofRat (0 + d0_2) = _
  apply Dbl.ofRat_near (0 + d0_2) d0_2 7205759403792794 (-55) <;> norm_num [d0_2]

theorem Dbl.add_0_d0_3 : Dbl.add (.fin 0) (.fin d0_3) = .fin d0_3 := by
  show Dbl.ofRat (0 + d0_3) = _
  apply Dbl.ofRat_near (0 + d0_3) d0_3 5404319552844595 (-54) <;> norm_num [d0_3]

theorem Dbl.add_0_d0_4 : Dbl.add (.fin 0) (.fin d0_4) = .fin d0_4 := by
  show Dbl.ofRat (0 + d0_4) = _
  apply Dbl.ofRat_near (0 + d0_4) d0_4 7205759403792794 (-54) <;> norm_num [d0_4]

theorem Dbl.add_d0_1_d0_2 : Dbl.add (.fin d0_1) (.fin d0_2) = .fin d0_30000000000000004 := by
  show Dbl.ofRat (d0_1 + d0_2) = _
  apply Dbl.ofRat_tie (d0_1 + d0_2) d0_30000000000000004 5404319552844596 (-54) <;>
    norm_num [d0_1, d0_2, d0_30000000000000004]

theorem Dbl.add_d0_30000000000000004_d0_3 :
    Dbl.add (.fin d0_30000000000000004) (.fin d0_3) = .fin d0_6000000000000001 := by
  show Dbl.ofRat (d0_30000000000000004 + d0_3) = _
  apply Dbl.ofRat_tie (d0_30000000000000004 + d0_3) d0_6000000000000001 5404319552844596 (-53) <;>
    norm_num [d0_3, d0_30000000000000004, d0_6000000000000001]

theorem Dbl.add_d0_3_d0_2 : Dbl.add (.fin d0_3) (.fin d0_2) = .fin d0_5 := by
  show Dbl.ofRat (d0_3 + d0_2) = _
  apply Dbl.ofRat_near (d0_3 + d0_2) d0_5 4503599627370496 (-53) <;> norm_num [d0_2, d0_3, d0_5]

theorem Dbl.add_d0_5_d0_1 : Dbl.add (.fin d0_5) (.fin d0_1) = .fin d0_6 := by
  show Dbl.ofRat (d0_5 + d0_1) = _
  apply Dbl.ofRat_near (d0_5 + d0_1) d0_6 5404319552844595 (-53) <;> norm_num [d0_1, d0_5, d0_6]

theorem Dbl.add_d0_3_d0_1 : Dbl.add (.fin d0_3) (.fin d0_1) = .fin d0_4 := by
  show Dbl.ofRat (d0_3 + d0_1) = _
  apply Dbl.ofRat_tie (d0_3 + d0_1) d0_4 7205759403792794 (-54) <;> norm_num [d0_1, d0_3, d0_4]

theorem Dbl.add_d0_4_d0_2 : Dbl.add (.fin d0_4) (.fin d0_2) = .fin d0_6000000000000001 := by
  show Dbl.ofRat (d0_4 + d0_2) = _
  apply Dbl.ofRat_tie (d0_4 + d0_2) d0_6000000000000001 5404319552844596 (-53) <;>
    norm_num [d0_2, d0_6000000000000001, d0_4]

theorem Dbl.parse_1e14 : Dbl.ofRat (1 / 10 ^ 14) = .fin rateTiny := by
  show Dbl.ofRat ((1 / 10 ^ 14)) = _
  apply Dbl.ofRat_near ((1 / 10 ^ 14)) rateTiny 6338253001141147 (-99) <;> norm_num [rateTiny]

theorem Dbl.mul_12_100 : Dbl.mul (.fin 12) (.fin 100) = .fin 1200 := by
  show Dbl.ofRat (12 * 100) = _
  apply Dbl.ofRat_near (12 * 100) 1200 5277655813324800 (-42) <;> norm_num

theorem Dbl.div_rateTiny_1200 : Dbl.div (.fin rateTiny) (.fin 1200) = .fin monthlyRateTiny := by
  rw [Dbl.div_fin _ _ (by norm_num)]
  apply Dbl.ofRat_near (rateTiny / 1200) monthlyRateTiny 5408642560973779 (-109) <;>
    norm_num [rateTiny, monthlyRateTiny]

theorem Dbl.add_1_monthlyRateTiny : Dbl.add (.fin 1) (.fin monthlyRateTiny) = .fin 1 := by
  show Dbl.ofRat (1 + monthlyRateTiny) = _
  apply Dbl.ofRat_near (1 + monthlyRateTiny) 1 4503599627370496 (-52) <;> norm_num [monthlyRateTiny]

theorem Dbl.mul_5_12 : Dbl.mul (.fin 5) (.fin 12) = .fin 60 := by
  show Dbl.ofRat (5 * 12) = _
  apply Dbl.ofRat_near (5 * 12) 60 8444249301319680 (-47) <;> norm_num

theorem Dbl.mul_500000_monthlyRateTiny :
    Dbl.mul (.fin 500000) (.fin monthlyRateTiny) = .fin paymentTiny := by
  show Dbl.ofRat (500000 * monthlyRateTiny) = _
  apply Dbl.ofRat_near (500000 * monthlyRateTiny) paymentTiny 5158083497022418 (-90) <;>
    norm_num [monthlyRateTiny, paymentTiny]

theorem Dbl.mul_paymentTiny_1 : Dbl.mul (.fin paymentTiny) (.fin 1) = .fin paymentTiny := by
  show Dbl.ofRat (paymentTiny * 1) = _
  apply Dbl.ofRat_near (paymentTiny * 1) paymentTiny 5158083497022418 (-90) <;>
    norm_num [paymentTiny]

theorem Dbl.div_1000000_1200 : Dbl.div (.fin 1000000) (.fin 1200) = .fin monthlyRateHuge := by
  rw [Dbl.div_fin _ _ (by norm_num)]
  apply Dbl.ofRat_near (1000000 / 1200) monthlyRateHuge 7330077518506667 (-43) <;>
    norm_num [monthlyRateHuge]

theorem Dbl.add_1_monthlyRateHuge : Dbl.add (.fin 1) (.fin monthlyRateHuge) = .fin growthHuge := by
  show Dbl.ofRat (1 + monthlyRateHuge) = _
  apply Dbl.ofRat_near (1 + monthlyRateHuge) growthHuge 7338873611528875 (-43) <;>
    norm_num [monthlyRateHuge, growthHuge]

theorem Dbl.mul_30_12 : Dbl.mul (.fin 30) (.fin 12) = .fin 360 := by
  show Dbl.ofRat (30 * 12) = _
  apply Dbl.ofRat_near (30 * 12) 360 6333186975989760 (-44) <;> norm_num

theorem Dbl.mul_500000_monthlyRateHuge :
    Dbl.mul (.fin 500000) (.fin monthlyRateHuge) = .fin paymentHuge := by
  show Dbl.ofRat (500000 * monthlyRateHuge) = _
  apply Dbl.ofRat_near (500000 * monthlyRateHuge) paymentHuge 6990506666666667 (-24) <;>
    norm_num [monthlyRateHuge, paymentHuge]
theorem Dbl.sub_1_1 : Dbl.sub (.fin 1) (.fin 1) = .fin 0 := by
  show Dbl.ofRat (1 + -1) = _
  rw [show (1 : ℚ) + -1 = 0 by norm_num]
  exact Dbl.ofRat_zero

theorem Dbl.add_0_0 : Dbl.add (.fin 0) (.fin 0) = .fin 0 := by
  show Dbl.ofRat (0 + 0) = _
  rw [show (0 : ℚ) + 0 = 0 by norm_num]
  exact Dbl.ofRat_zero

theorem Dbl.pow_1_60 : Dbl.pow (.fin 1) (.fin 60) = .fin 1 := by
  have h := Dbl.pow_wholeExponent 1 60
  simp only [Nat.cast_ofNat, one_pow] at h
  rw [h]
  apply Dbl.ofRat_near 1 1 4503599627370496 (-52) <;> norm_num

theorem Dbl.pow_growthHuge_360 : Dbl.pow (.fin growthHuge) (.fin 360) = .posInf := by
  have h := Dbl.pow_wholeExponent growthHuge 360
  simp only [Nat.cast_ofNat] at h
  rw [h]
  apply Dbl.ofRat_overflow
  have h1 : (512 : ℚ) ≤ growthHuge := by norm_num [growthHuge]
  have h2 : (512 : ℚ) ^ 360 ≤ growthHuge ^ 360 := pow_le_pow_left₀ (by norm_num) h1 360
  have h3 : (2 : ℚ) ^ (1024 : ℤ) ≤ (512 : ℚ) ^ 360 := by norm_num
  exact le_trans h3 h2

/-! ### Rounding and overflow in the source's arithmetic -/

/-- Claim C13 (counterexample). In binary64 arithmetic, for principal 500000,
rate `1e-14` and 5 years the guard `p > 0 && r > 0 && n > 0` holds, the sum
`1 + monthlyRate` rounds to 1, the divisor `Math.pow(1 + monthlyRate, months) - 1`
is 0, and the quotient is evaluated with it: the instalment is `+∞`. -/
theorem emi_zero_divisor_binary64 :
    ((Dbl.fin 500000).orZero.gt (.fin 0) && (Dbl.ofRat (1 / 10 ^ 14)).orZero.gt (.fin 0)
      && (Dbl.fin 5).orZero.gt (.fin 0)) = true ∧
    Dbl.add (.fin 1) (Dbl.div (Dbl.ofRat (1 / 10 ^ 14)).orZero ((Dbl.fin 12).mul (.fin 100)))
      = .fin 1 ∧
    emiDenominatorDbl (Dbl.ofRat (1 / 10 ^ 14)).orZero (Dbl.fin 5).orZero = .fin 0 ∧
    (emiCalculatorDbl (.fin 500000) (Dbl.ofRat (1 / 10 ^ 14)) (.fin 5)).emi = .posInf := by
  have hg : ((Dbl.fin 500000).orZero.gt (.fin 0) && (Dbl.fin rateTiny).orZero.gt (.fin 0)
      && (Dbl.fin 5).orZero.gt (.fin 0)) = true := by
    norm_num [Dbl.orZero, Dbl.gt, rateTiny]
  rw [Dbl.parse_1e14]
  refine ⟨hg, ?_, ?_, ?_⟩
  · show Dbl.add (.fin 1) (Dbl.div (.fin rateTiny) ((Dbl.fin 12).mul (.fin 100))) = .fin 1
    rw [Dbl.mul_12_100, Dbl.div_rateTiny_1200, Dbl.add_1_monthlyRateTiny]
  · show emiDenominatorDbl (.fin rateTiny) (.fin 5) = .fin 0
    unfold emiDenominatorDbl
    rw [Dbl.mul_12_100, Dbl.div_rateTiny_1200, Dbl.add_1_monthlyRateTiny, Dbl.mul_5_12,
      Dbl.pow_1_60, Dbl.sub_1_1]
  · simp only [emiCalculatorDbl]
    rw [if_pos hg]
    show Dbl.div (Dbl.mul (Dbl.mul (.fin 500000)
        (Dbl.div (.fin rateTiny) ((Dbl.fin 12).mul (.fin 100))))
        (Dbl.pow (Dbl.add (.fin 1) (Dbl.div (.fin rateTiny) ((Dbl.fin 12).mul (.fin 100))))
          (Dbl.mul (.fin 5) (.fin 12))))
      (Dbl.sub (Dbl.pow (Dbl.add (.fin 1)
        (Dbl.div (.fin rateTiny) ((Dbl.fin 12).mul (.fin 100))))
          (Dbl.mul (.fin 5) (.fin 12))) (.fin 1)) = .posInf
    rw [Dbl.mul_12_100, Dbl.div_rateTiny_1200, Dbl.add_1_monthlyRateTiny, Dbl.mul_5_12,
      Dbl.pow_1_60, Dbl.sub_1_1, Dbl.mul_500000_monthlyRateTiny, Dbl.mul_paymentTiny_1]
    norm_num [Dbl.div, paymentTiny]

/-- Claim C30 (counterexample). In binary64 arithmetic, for principal 500000,
rate 1000000 and 30 years the power `Math.pow(1 + monthlyRate, 360)` overflows
to `+∞`, the instalment `∞ / ∞` is `NaN`, and so are the total and the
interest: the total is not greater than the principal and the interest is not
greater than 0. -/
theorem emi_interest_nan_binary64 :
    emiCalculatorDbl (.fin 500000) (.fin 1000000) (.fin 30)
      = { emi := .nan, totalAmount := .nan, totalInterest := .nan } ∧
    (emiCalculatorDbl (.fin 500000) (.fin 1000000) (.fin 30)).totalAmount.gt (.fin 500000)
      = false ∧
    (emiCalculatorDbl (.fin 500000) (.fin 1000000) (.fin 30)).totalInterest.gt (.fin 0)
      = false := by
  have hg : ((Dbl.fin 500000).orZero.gt (.fin 0) && (Dbl.fin 1000000).orZero.gt (.fin 0)
      && (Dbl.fin 30).orZero.gt (.fin 0)) = true := by
    norm_num [Dbl.orZero, Dbl.gt]
  have hmul : Dbl.mul (.fin paymentHuge) .posInf = .posInf := by
    norm_num [Dbl.mul, paymentHuge]
  have hsub : Dbl.sub .posInf (.fin 1) = .posInf := rfl
  have hdiv : Dbl.div .posInf .posInf = .nan := rfl
  have hnan : Dbl.mul .nan (.fin 360) = .nan := rfl
  have hnan2 : Dbl.sub .nan (.fin 500000) = .nan := rfl
  have h : emiCalculatorDbl (.fin 500000) (.fin 1000000) (.fin 30)
      = { emi := .nan, totalAmount := .nan, totalInterest := .nan } := by
    simp only [emiCalculatorDbl]
    rw [if_pos hg]
    simp only [Dbl.orZero, Dbl.mul_12_100, Dbl.div_1000000_1200, Dbl.add_1_monthlyRateHuge,
      Dbl.mul_30_12, Dbl.pow_growthHuge_360, Dbl.mul_500000_monthlyRateHuge, hmul, hsub, hdiv,
      hnan, hnan2]
  rw [h]
  exact ⟨rfl, rfl, rfl⟩

/-- Claim C25 (counterexample). In binary64 arithmetic the expenses 0.1, 0.2
and 0.3 add up to `0.6000000000000001` in this order and to `0.6` in the
reverse order: `stats.expense` differs between two orderings of one list.
With an unparseable amount and an amount of 100 in one category, the value of
the category is 100 in one order and `NaN` in the other, in exact arithmetic
too. -/
theorem stats_depends_on_order :
    sampleC25Dbl.Perm sampleC25DblRev ∧
    (statsDbl sampleC25Dbl).expense = .fin d0_6000000000000001 ∧
    (statsDbl sampleC25DblRev).expense = .fin d0_6 ∧
    Dbl.ofRat 0.6000000000000001 = .fin d0_6000000000000001 ∧
    Dbl.ofRat 0.6 = .fin d0_6 ∧
    (statsDbl sampleC25Dbl).expense ≠ (statsDbl sampleC25DblRev).expense ∧
    sampleC25NaN.Perm sampleC25NaNRev ∧
    (stats sampleC25NaN (.num 3000) ⟨2024, 3, 5⟩).categoryData = [("Food", .num (.num 100))] ∧
    (stats sampleC25NaNRev (.num 3000) ⟨2024, 3, 5⟩).categoryData = [("Food", .num .nan)] := by
  have h1 : (statsDbl sampleC25Dbl).expense = .fin d0_6000000000000001 := by
    simp only [statsDbl, sampleC25Dbl, List.foldl, stepDbl, JSNum.toDbl, Dbl.parse_0_1,
      Dbl.parse_0_2, Dbl.parse_0_3, Dbl.add_0_d0_1, Dbl.add_d0_1_d0_2,
      Dbl.add_d0_30000000000000004_d0_3]
  have h2 : (statsDbl sampleC25DblRev).expense = .fin d0_6 := by
    simp only [statsDbl, sampleC25DblRev, List.foldl, stepDbl, JSNum.toDbl, Dbl.parse_0_1,
      Dbl.parse_0_2, Dbl.parse_0_3, Dbl.add_0_d0_3, Dbl.add_d0_3_d0_2, Dbl.add_d0_5_d0_1]
  refine ⟨?_, h1, h2, Dbl.parse_0_6000000000000001, Dbl.parse_0_6, ?_, ?_, ?_, ?_⟩
  · unfold sampleC25Dbl sampleC25DblRev
    exact (List.reverse_perm _).symm
  · rw [h1, h2]
    norm_num [d0_6000000000000001, d0_6]
  · unfold sampleC25NaN sampleC25NaNRev
    exact List.Perm.swap _ _ _
  · simp [stats, accumulate, step, sampleC25NaN, Acc.init, catTotalsStep, objGet, objSet,
      objectPrototypeFunctions, JSNum.orZero, JSNum.add]
  · simp [stats, accumulate, step, sampleC25NaNRev, Acc.init, catTotalsStep, objGet, objSet,
      objectPrototypeFunctions, JSNum.orZero, JSNum.add]

/-- Claim C29 (counterexample). In binary64 arithmetic, with incomes of 0.3 in
January, 0.2 in February and 0.1 in January, `stats.income` is `0.6`, the bar
series holds `0.4` for January and `0.2` for February, and these two add up to
`0.6000000000000001`. -/
theorem statsDbl_bar_totals_differ :
    (statsDbl sampleC29).income = .fin d0_6 ∧
    (statsDbl sampleC29).barData.map (fun b => (b.name, b.income))
      = [("Jan", .fin d0_4), ("Feb", .fin d0_2)] ∧
    Dbl.sum ((statsDbl sampleC29).barData.map (fun b => b.income))
      = .fin d0_6000000000000001 ∧
    Dbl.sum ((statsDbl sampleC29).barData.map (fun b => b.income))
      ≠ (statsDbl sampleC29).income := by
  have h1 : (statsDbl sampleC29).income = .fin d0_6 := by
    simp only [statsDbl, sampleC29, List.foldl, stepDbl, JSNum.toDbl, Dbl.parse_0_1,
      Dbl.parse_0_2, Dbl.parse_0_3, Dbl.add_0_d0_3, Dbl.add_d0_3_d0_2, Dbl.add_d0_5_d0_1]
  have h2 : (statsDbl sampleC29).barData
      = [⟨"Jan", .fin d0_4, .fin 0, 1704844800000⟩, ⟨"Feb", .fin d0_2, .fin 0, 1707523200000⟩] := by
    simp [statsDbl, sampleC29, stepDbl, bucketStepDbl, objGet, objSet, monthShort,
      MonthBucketDbl.addTo, JSNum.toDbl, Dbl.parse_0_1, Dbl.parse_0_2, Dbl.parse_0_3,
      Dbl.add_0_d0_3, Dbl.add_0_d0_2, Dbl.add_d0_3_d0_1, getTime, daysFromCivil,
      List.insertionSort, List.orderedInsert, barBeforeDbl]
  have h3 : Dbl.sum ((statsDbl sampleC29).barData.map (fun b => b.income))
      = .fin d0_6000000000000001 := by
    rw [h2]
    simp only [Dbl.sum, List.map, List.foldl, Dbl.add_0_d0_4, Dbl.add_d0_4_d0_2]
  refine ⟨h1, ?_, h3, ?_⟩
  · rw [h2]
    rfl
  · rw [h3, h1]
    norm_num [d0_6000000000000001, d0_6]

end TracMate
